import Mathlib

/-!
# Heap file manager (Minirel, stage 4): a shallow embedding of `heapfile.C`

The functions of `heapfile.C` are translated one by one.  Objects are records of
their data members, the buffer pool and the file layer are an explicit
environment `Env` that every operation threads through, and a `Page*` is the
number of the page whose frame it points to (`none` is `NULL`).

An operation returns `none` where the C++ code dereferences a null pointer or a
pointer to a frame that holds no page (undefined behaviour), and, for the one
operation with loops (`scanNext`), where the fuel is used up.
-/

namespace Minirel

/-! ## Status codes, record ids, records -/

/-- Status codes of `error.h` that the heap file layer returns or relays. -/
inductive Status where
  | OK | FILEEOF | BADSCANPARM | INVALIDRECLEN | FILEEXISTS
  | NOSPACE | INVALIDSLOTNO | ENDOFPAGE | NORECORDS
  | BADPAGENO | PAGENOTPINNED | BUFFEREXCEEDED | UNIXERR | BADFILE
  deriving DecidableEq, Repr

open Status

/-- One byte of a record or of a filter value. -/
abbrev Byte := Fin 256

/-- Record id: page number and slot number, both C `int`s. -/
structure RID where
  pageNo : Int
  slotNo : Int
  deriving DecidableEq, Repr

/-- The null record id. -/
def NULLRID : RID := ⟨-1, -1⟩

/-- Modelled from the spec: the `Record` struct (`data`, `length`) is declared outside
`heapfile.C`.  A record is its `length` bytes; `length` is a C `int`, so it is below `2^31`. -/
structure Record where
  data : List Byte
  hlen : data.length < 2 ^ 31
  deriving DecidableEq

/-- The `length` member of a record. -/
def Record.length (r : Record) : Int := r.data.length

/-- Conversion of a C `int` to `unsigned int`. -/
def toUnsigned (x : Int) : Int := x % 2 ^ 32

/-- Wrap-around of a signed 32-bit result. -/
def wrap32 (x : Int) : Int := (x + 2 ^ 31) % 2 ^ 32 - 2 ^ 31

/-- Modelled from the spec: `enum Datatype` is declared outside `heapfile.C`; `other`
stands for an integer value that is none of the three enumerators. -/
inductive Datatype where
  | STRING | INTEGER | FLOAT
  | other (code : Nat)
  deriving DecidableEq, Repr

/-- Modelled from the spec: `enum Operator` is declared outside `heapfile.C`; `other`
stands for an integer value that is none of the six enumerators. -/
inductive Operator where
  | LT | LTE | EQ | GTE | GT | NE
  | other (code : Nat)
  deriving DecidableEq, Repr

/-! ## The page type (external collaborator) -/

/-- Modelled from the spec: `PAGESIZE` is declared outside `heapfile.C`. -/
def PAGESIZE : Nat := 1024

/-- Modelled from the spec: `DPFIXED`, the fixed overhead of a data page, is declared
outside `heapfile.C`. -/
def DPFIXED : Nat := 20

/-- Modelled from the spec: the `Page` class is an external collaborator (section 6 of the
specification).  A page is an ordered set of slots, each empty or holding one record, a
link to the next page (`-1` if none) and its own page number.  It holds at most
`PAGESIZE - DPFIXED` bytes of records. -/
structure Page where
  slot : List (Option Record)
  nextPage : Int
  curPage : Int
  deriving DecidableEq

/-- Modelled from the spec: `Page::init(pageNo)`, an empty page with no successor. -/
def Page.init (pageNo : Int) : Page := ⟨[], -1, pageNo⟩

/-- Modelled from the spec: the slot numbers that hold a record, in slot order. -/
def Page.live (p : Page) : List Nat :=
  (List.range p.slot.length).filter (fun (i : Nat) => (p.slot.getD i none).isSome)

/-- Modelled from the spec: the bytes of records a page holds. -/
def Page.used (p : Page) : Nat :=
  (p.slot.map (fun o => match o with
    | some r => r.data.length
    | none => 0)).sum

/-- Modelled from the spec: the record in slot `i`, if there is one. -/
def Page.recAt (p : Page) (i : Int) : Option Record :=
  if i < 0 then none else p.slot.getD i.toNat none

/-- Modelled from the spec: `Page::getRecord(rid)`; the slot number alone selects the
record. -/
def Page.getRecord (p : Page) (rid : RID) : Except Status Record :=
  match p.recAt rid.slotNo with
  | some r => .ok r
  | none => .error INVALIDSLOTNO

/-- Modelled from the spec: `Page::firstRecord()`, fails when the page is empty. -/
def Page.firstRecord (p : Page) : Except Status RID :=
  match p.live.head? with
  | some i => .ok ⟨p.curPage, i⟩
  | none => .error NORECORDS

/-- Modelled from the spec: `Page::nextRecord(priorRid)`, the first record in a slot after
`priorRid.slotNo`; fails when there is none on this page. -/
def Page.nextRecord (p : Page) (cur : RID) : Except Status RID :=
  match p.live.find? (fun (i : Nat) => decide (cur.slotNo < (i : Int))) with
  | some i => .ok ⟨p.curPage, i⟩
  | none => .error ENDOFPAGE

/-- Index of the first empty slot (the number of slots if there is none). -/
def firstFree : List (Option Record) → Nat
  | [] => 0
  | none :: _ => 0
  | some _ :: rest => firstFree rest + 1

/-- Put `r` in slot `i`, appending a slot when `i` is the number of slots. -/
def putSlot : List (Option Record) → Nat → Record → List (Option Record)
  | [], _, r => [some r]
  | _ :: rest, 0, r => some r :: rest
  | s :: rest, i + 1, r => s :: putSlot rest i r

/-- Modelled from the spec: `Page::insertRecord(record)`; fails when the page is full, else
stores the record in the first empty slot and returns its address. -/
def Page.insertRecord (p : Page) (rec : Record) : Except Status (RID × Page) :=
  if p.used + rec.data.length > PAGESIZE - DPFIXED then .error NOSPACE
  else .ok (⟨p.curPage, firstFree p.slot⟩,
            { p with slot := putSlot p.slot (firstFree p.slot) rec })

/-- Modelled from the spec: `Page::deleteRecord(rid)`; empties the slot, slot numbers of
the other records stay. -/
def Page.deleteRecord (p : Page) (rid : RID) : Except Status Page :=
  match p.recAt rid.slotNo with
  | some _ => .ok { p with slot := p.slot.set rid.slotNo.toNat none }
  | none => .error INVALIDSLOTNO

/-- Modelled from the spec: `Page::getNextPage()`. -/
def Page.getNextPage (p : Page) : Int := p.nextPage

/-- Modelled from the spec: `Page::setNextPage(pageNo)`. -/
def Page.setNextPage (p : Page) (pageNo : Int) : Page := { p with nextPage := pageNo }

/-! ## The header page, the buffer pool and the file layer -/

/-- The header page of a heap file (`FileHdrPage`). -/
structure FileHdrPage where
  fileName : String
  firstPage : Int
  lastPage : Int
  pageCnt : Int
  recCnt : Int
  deriving DecidableEq, Repr

/-- One call of the buffer pool, with the status it returned. -/
inductive BufCall where
  | readPage (pageNo : Int) (st : Status)
  | unPinPage (pageNo : Int) (dirty : Bool) (st : Status)
  | allocPage (pageNo : Int) (st : Status)
  deriving DecidableEq, Repr

/-- Sign class of a `float` difference. -/
inductive FSign where
  | neg | zero | pos | nan
  deriving DecidableEq, Repr

/-- Modelled from the spec: the buffer pool (`bufMgr`) and the file layer (`db`, `File`) are
external collaborators (section 6 of the specification), here for the one file the heap file
lives in.  `pages` are the frames as the heap file layer sees them through its pointers,
`hdr` is the content of the header page, `pinCnt` counts the pins per page, `calls` is the
trace of buffer-pool calls (oldest first) and `script` gives the fate of the coming
buffer-pool calls: a status other than `OK` makes the call fail with it and no effect, `OK`
or an empty script lets it proceed.  `fsub` is the sign class of the `float` difference of
two 4-byte values (floating point itself is outside this development). -/
structure Env where
  fileExists : Bool
  openCnt : Nat
  firstPageNo : Int
  nextPageNo : Int
  hdr : FileHdrPage
  pages : Int → Option Page
  pinCnt : Int → Nat
  script : List Status
  calls : List BufCall
  fsub : List Byte → List Byte → FSign

/-- Modelled from the spec: the scripted fate of the next buffer-pool call. -/
def Env.pop (e : Env) : Status × Env :=
  match e.script with
  | [] => (OK, e)
  | st :: rest => (st, { e with script := rest })

/-- Modelled from the spec: `readPage(file, pageNo) -> (pagePtr, status)` pins the page; it
fails for a page that the file does not have.  On `OK` the pointer is `pageNo`. -/
def readPage (e : Env) (pageNo : Int) : Status × Env :=
  let (st, e1) := e.pop
  if st ≠ OK then (st, { e1 with calls := e1.calls ++ [.readPage pageNo st] })
  else if (e1.pages pageNo).isNone then
    (BADPAGENO, { e1 with calls := e1.calls ++ [.readPage pageNo BADPAGENO] })
  else (OK, { e1 with pinCnt := Function.update e1.pinCnt pageNo (e1.pinCnt pageNo + 1),
                      calls := e1.calls ++ [.readPage pageNo OK] })

/-- Modelled from the spec: `unPinPage(file, pageNo, dirty) -> status` releases one pin; it
fails for a page that is not pinned. -/
def unPinPage (e : Env) (pageNo : Int) (dirty : Bool) : Status × Env :=
  let (st, e1) := e.pop
  if st ≠ OK then (st, { e1 with calls := e1.calls ++ [.unPinPage pageNo dirty st] })
  else if e1.pinCnt pageNo = 0 then
    (PAGENOTPINNED, { e1 with calls := e1.calls ++ [.unPinPage pageNo dirty PAGENOTPINNED] })
  else (OK, { e1 with pinCnt := Function.update e1.pinCnt pageNo (e1.pinCnt pageNo - 1),
                      calls := e1.calls ++ [.unPinPage pageNo dirty OK] })

/-- Modelled from the spec: `allocPage(file) -> (pageNo, pagePtr, status)` allocates the
next page number of the file and pins the new page, whose frame is not initialised yet.
The first page allocated becomes the first page of the file. -/
def allocPage (e : Env) : Status × Int × Env :=
  let (st, e1) := e.pop
  if st ≠ OK then (st, e1.nextPageNo, { e1 with calls := e1.calls ++ [.allocPage e1.nextPageNo st] })
  else (OK, e1.nextPageNo,
        { e1 with pages := Function.update e1.pages e1.nextPageNo (some ⟨[], 0, 0⟩),
                  pinCnt := Function.update e1.pinCnt e1.nextPageNo (e1.pinCnt e1.nextPageNo + 1),
                  firstPageNo := if e1.firstPageNo = -1 then e1.nextPageNo else e1.firstPageNo,
                  nextPageNo := e1.nextPageNo + 1,
                  calls := e1.calls ++ [.allocPage e1.nextPageNo OK] })

/-- Store page `p` in frame `pageNo` (a write through a `Page*`). -/
def Env.setPage (e : Env) (pageNo : Int) (p : Page) : Env :=
  { e with pages := Function.update e.pages pageNo (some p) }

/-- Dereference a `Page*`: the page in the frame it points to. -/
def Env.deref (e : Env) (ptr : Option Int) : Option Page :=
  match ptr with
  | none => none
  | some n => e.pages n

/-- Modelled from the spec: `db.createFile(name)`, a new file without pages. -/
def Env.createFile (e : Env) : Env :=
  { e with fileExists := true, firstPageNo := -1, nextPageNo := 1, pages := fun _ => none }

/-! ## `createHeapFile` -/

/-- The routine `createHeapFile` (lines 23-86). -/
def createHeapFile (e : Env) (fileName : String) : Status × Env :=
  if e.fileExists then
    -- db.openFile succeeded: close the file again
    (FILEEXISTS, e)
  else
    let e1 := e.createFile
    let e2 := { e1 with openCnt := e1.openCnt + 1 }
    match allocPage e2 with
    | (st, hdrPageNo, e3) =>
      if st ≠ OK then (st, e3)
      else
        let e4 := { e3 with hdr := { e3.hdr with fileName := fileName } }
        match allocPage e4 with
        | (st, newPageNo, e5) =>
          if st ≠ OK then (st, e5)
          else
            let e6 := e5.setPage newPageNo (Page.init newPageNo)
            let e7 := { e6 with hdr := { fileName := fileName, firstPage := newPageNo,
                                         lastPage := newPageNo, pageCnt := 1, recCnt := 0 } }
            match unPinPage e7 hdrPageNo true with
            | (st, e8) =>
              if st ≠ OK then (st, e8)
              else
                match unPinPage e8 newPageNo true with
                | (st, e9) =>
                  if st ≠ OK then (st, e9)
                  else (OK, { e9 with openCnt := e9.openCnt - 1 })

/-! ## `HeapFile` -/

/-- Data members of a `HeapFile`.  `curPage` is the `Page*` of the cursor; the `headerPage`
pointer of a constructed object points to the header page, whose content is `Env.hdr`. -/
structure HeapFile where
  headerPageNo : Int
  hdrDirtyFlag : Bool
  curPage : Option Int
  curPageNo : Int
  curDirtyFlag : Bool
  curRec : RID
  deriving DecidableEq, Repr

/-- The constructor `HeapFile::HeapFile` (lines 100-157); `mem` is the object before
construction, whose members keep their value where the constructor assigns none. -/
def HeapFile.open (e : Env) (mem : HeapFile) : Status × HeapFile × Env :=
  if e.fileExists then
    let e1 := { e with openCnt := e.openCnt + 1 }
    let pageNo := e1.firstPageNo
    match readPage e1 pageNo with
    | (st, e2) =>
      if st ≠ OK then (st, mem, e2)
      else
        let h1 := { mem with headerPageNo := pageNo, hdrDirtyFlag := false }
        let firstPageNo := e2.hdr.firstPage
        match readPage e2 firstPageNo with
        | (st, e3) =>
          if st ≠ OK then (st, h1, e3)
          else
            (OK, { h1 with curPage := some firstPageNo, curPageNo := firstPageNo,
                           curDirtyFlag := false, curRec := NULLRID }, e3)
  else (BADFILE, mem, e)

/-- The destructor `HeapFile::~HeapFile` (lines 160-189). -/
def HeapFile.close (e : Env) (h : HeapFile) : HeapFile × Env :=
  let (h1, e1) :=
    if h.curPage ≠ none then
      ({ h with curPage := none, curPageNo := 0, curDirtyFlag := false },
       (unPinPage e h.curPageNo h.curDirtyFlag).2)
    else (h, e)
  let e2 := (unPinPage e1 h1.headerPageNo h1.hdrDirtyFlag).2
  (h1, { e2 with openCnt := e2.openCnt - 1 })

/-- `HeapFile::getRecCnt` (lines 193-196). -/
def HeapFile.getRecCnt (e : Env) (_h : HeapFile) : Int := e.hdr.recCnt

/-- `HeapFile::getRecord(rid, rec)` (lines 210-245). -/
def HeapFile.getRecord (e : Env) (h : HeapFile) (rid : RID) (rec : Record) :
    Option (Status × Record × HeapFile × Env) :=
  if h.curPage ≠ none ∧ h.curPageNo = rid.pageNo then
    match e.deref h.curPage with
    | none => none
    | some p =>
      match p.getRecord rid with
      | .ok r => some (OK, r, h, e)
      | .error st => some (st, rec, h, e)
  else
    match unPinPage e h.curPageNo h.curDirtyFlag with
    | (st, e1) =>
      if st ≠ OK then some (st, rec, h, e1)
      else
        let h1 := { h with curPageNo := rid.pageNo, curRec := rid, curDirtyFlag := false }
        match readPage e1 h1.curPageNo with
        | (st, e2) =>
          if st ≠ OK then some (st, rec, h1, e2)
          else
            let h2 := { h1 with curPage := some h1.curPageNo }
            match e2.deref h2.curPage with
            | none => none
            | some p =>
              match p.getRecord h2.curRec with
              | .ok r => some (OK, r, h2, e2)
              | .error st => some (st, rec, h2, e2)

/-! ## `HeapFileScan` -/

/-- Data members of a `HeapFileScan`: those of `HeapFile`, the predicate and the mark.
`filter` is the `const char*` of the literal: `none` is `NULL`, otherwise the bytes it
points to. -/
structure HeapFileScan extends HeapFile where
  offset : Int
  length : Int
  type : Datatype
  filter : Option (List Byte)
  op : Operator
  markedPageNo : Int
  markedRec : RID
  deriving DecidableEq

/-- The constructor `HeapFileScan::HeapFileScan` (lines 247-251). -/
def HeapFileScan.open (e : Env) (mem : HeapFileScan) : Status × HeapFileScan × Env :=
  match HeapFile.open e mem.toHeapFile with
  | (st, h, e1) => (st, { mem with toHeapFile := h, filter := none }, e1)

/-- `HeapFileScan::startScan` (lines 253-280); `sizeof(int)` and `sizeof(float)` are 4. -/
def HeapFileScan.startScan (s : HeapFileScan) (offset_ length_ : Int) (type_ : Datatype)
    (filter_ : Option (List Byte)) (op_ : Operator) : Status × HeapFileScan :=
  if filter_ = none then (OK, { s with filter := none })
  else if (offset_ < 0 ∨ length_ < 1) ∨
      (type_ ≠ .STRING ∧ type_ ≠ .INTEGER ∧ type_ ≠ .FLOAT) ∨
      (type_ = .INTEGER ∧ length_ ≠ 4 ∨ type_ = .FLOAT ∧ length_ ≠ 4) ∨
      (op_ ≠ .LT ∧ op_ ≠ .LTE ∧ op_ ≠ .EQ ∧ op_ ≠ .GTE ∧ op_ ≠ .GT ∧ op_ ≠ .NE) then
    (BADSCANPARM, s)
  else
    (OK, { s with offset := offset_, length := length_, type := type_, filter := filter_,
                  op := op_ })

/-- `HeapFileScan::endScan` (lines 283-296). -/
def HeapFileScan.endScan (e : Env) (s : HeapFileScan) : Status × HeapFileScan × Env :=
  if s.curPage ≠ none then
    match unPinPage e s.curPageNo s.curDirtyFlag with
    | (st, e1) => (st, { s with curPage := none, curPageNo := 0, curDirtyFlag := false }, e1)
  else (OK, s, e)

/-- The destructor `HeapFileScan::~HeapFileScan` (lines 298-301), followed by that of the
base class. -/
def HeapFileScan.close (e : Env) (s : HeapFileScan) : HeapFileScan × Env :=
  match HeapFileScan.endScan e s with
  | (_, s1, e1) =>
    match HeapFile.close e1 s1.toHeapFile with
    | (h, e2) => ({ s1 with toHeapFile := h }, e2)

/-- `HeapFileScan::markScan` (lines 303-309). -/
def HeapFileScan.markScan (s : HeapFileScan) : Status × HeapFileScan :=
  (OK, { s with markedPageNo := s.curPageNo, markedRec := s.curRec })

/-- `HeapFileScan::resetScan` (lines 311-331). -/
def HeapFileScan.resetScan (e : Env) (s : HeapFileScan) : Status × HeapFileScan × Env :=
  if s.markedPageNo ≠ s.curPageNo then
    let r : Status × Env :=
      if s.curPage ≠ none then unPinPage e s.curPageNo s.curDirtyFlag else (OK, e)
    if r.1 ≠ OK then (r.1, s, r.2)
    else
      let s1 := { s with curPageNo := s.markedPageNo, curRec := s.markedRec }
      match readPage r.2 s1.curPageNo with
      | (st, e2) =>
        if st ≠ OK then (st, s1, e2)
        else (OK, { s1 with curPage := some s1.curPageNo, curDirtyFlag := false }, e2)
  else (OK, { s with curRec := s.markedRec }, e)

/-- Value of a little-endian byte sequence (what `memcpy` into an `int` stores). -/
def leValue : List Byte → Int
  | [] => 0
  | b :: bs => (b.val : Int) + 256 * leValue bs

/-- The `len` bytes at `off` of a buffer.  Where `memcpy` or `strncmp` would read past the
end of the buffer (undefined behaviour in the code: it reads adjacent memory or crashes) only
the bytes the buffer has are returned, and `leValue` and `strncmp` take the missing ones as
zero.  So the value of `matchRec` means what the code computes only for reads inside the
record and the filter; a statement about its value at a read outside says so. -/
def bytesAt (bs : List Byte) (off len : Int) : List Byte :=
  (bs.drop off.toNat).take len.toNat

/-- The signed 32-bit integer that `memcpy` of `len` bytes at `off` leaves in an `int`. -/
def int32At (bs : List Byte) (off len : Int) : Int := wrap32 (leValue (bytesAt bs off len))

/-- C `strncmp` on unsigned bytes: the difference at the first position where the two differ,
`0` if they agree up to a zero byte or for `n` bytes.  A byte past the end of a buffer
reads as zero. -/
def strncmp : List Byte → List Byte → Nat → Int
  | _, _, 0 => 0
  | a, b, n + 1 =>
    if a.headD 0 ≠ b.headD 0 then ((a.headD 0).val : Int) - ((b.headD 0).val : Int)
    else if a.headD 0 = 0 then 0
    else strncmp a.tail b.tail n

/-- Sign class of an `int` converted to `float` (the conversion keeps sign and zero). -/
def signOf (x : Int) : FSign :=
  if x < 0 then .neg else if x = 0 then .zero else .pos

/-- The comparator switch of `matchRec` (lines 463-472) on the sign class of `diff`; every
comparison with a NaN is false except `!=`. -/
def applyOp (op : Operator) (d : FSign) : Bool :=
  match op with
  | .LT => decide (d = .neg)
  | .LTE => decide (d = .neg ∨ d = .zero)
  | .EQ => decide (d = .zero)
  | .GTE => decide (d = .zero ∨ d = .pos)
  | .GT => decide (d = .pos)
  | .NE => decide (d ≠ .zero)
  | .other _ => false

/-- `HeapFileScan::matchRec` (lines 421-473).  `offset + length - 1` is computed in `int`. -/
def HeapFileScan.matchRec (s : HeapFileScan) (e : Env) (rec : Record) : Bool :=
  match s.filter with
  | none => true
  | some flt =>
    if wrap32 (wrap32 (s.offset + s.length) - 1) ≥ rec.length then false
    else
      let diff : FSign :=
        match s.type with
        | .INTEGER =>
          signOf (wrap32 (int32At rec.data s.offset s.length - int32At flt 0 s.length))
        | .FLOAT => e.fsub (bytesAt rec.data s.offset s.length) (bytesAt flt 0 s.length)
        | .STRING => signOf (strncmp (rec.data.drop s.offset.toNat) flt s.length.toNat)
        | .other _ => .zero
      applyOp s.op diff

/-- The page-advance loop of `scanNext` (lines 361-370): `.error st` is a `return st`,
`.ok rid` leaves the loop with `nextRid = rid`. -/
def HeapFileScan.advance : Nat → Env → HeapFileScan → Option (Except Status RID × HeapFileScan × Env)
  | 0, _, _ => none
  | n + 1, e, s =>
    match e.deref s.curPage with
    | none => none
    | some p =>
      let nextPageNo := p.getNextPage
      if nextPageNo = -1 ∨ s.curPageNo = e.hdr.lastPage ∨ s.curPageNo = -1 then
        some (.error FILEEOF, s, e)
      else
        match unPinPage e s.curPageNo s.curDirtyFlag with
        | (st, e1) =>
          if st ≠ OK then some (.error st, s, e1)
          else
            match readPage e1 nextPageNo with
            | (st, e2) =>
              if st ≠ OK then some (.error st, s, e2)
              else
                let s1 := { s with curPage := some nextPageNo, curPageNo := nextPageNo }
                match e2.deref s1.curPage with
                | none => none
                | some q =>
                  match q.firstRecord with
                  | .ok nextRid => some (.ok nextRid, s1, e2)
                  | .error _ => HeapFileScan.advance n e2 s1

/-- The `while (true)` loop of `scanNext` (lines 358-384) from `tmpRid`. -/
def HeapFileScan.scanLoop : Nat → Env → HeapFileScan → RID → RID →
    Option (Status × RID × HeapFileScan × Env)
  | 0, _, _, _, _ => none
  | n + 1, e, s, tmpRid, outRid =>
    match e.deref s.curPage with
    | none => none
    | some p =>
      let r : Option (Except Status RID × HeapFileScan × Env) :=
        match p.nextRecord tmpRid with
        | .ok nextRid => some (.ok nextRid, s, e)
        | .error _ => HeapFileScan.advance n e s
      match r with
      | none => none
      | some (.error st, s1, e1) => some (st, outRid, s1, e1)
      | some (.ok nextRid, s1, e1) =>
        match e1.deref s1.curPage with
        | none => none
        | some q =>
          match q.getRecord nextRid with
          | .error st => some (st, outRid, s1, e1)
          | .ok rec =>
            if s1.matchRec e1 rec then some (OK, nextRid, { s1 with curRec := nextRid }, e1)
            else HeapFileScan.scanLoop n e1 s1 nextRid outRid

/-- `HeapFileScan::scanNext(outRid)` (lines 340-387). -/
def HeapFileScan.scanNext (fuel : Nat) (e : Env) (s : HeapFileScan) (outRid : RID) :
    Option (Status × RID × HeapFileScan × Env) :=
  if s.curPageNo = -1 then some (FILEEOF, outRid, s, e)
  else if s.curPage = none then
    match readPage e s.curPageNo with
    | (st, e1) =>
      if st ≠ OK then some (st, outRid, s, e1)
      else HeapFileScan.scanLoop fuel e1 { s with curPage := some s.curPageNo } s.curRec outRid
  else HeapFileScan.scanLoop fuel e s s.curRec outRid

/-- `HeapFileScan::getRecord(rec)` (lines 393-396). -/
def HeapFileScan.getRecord (e : Env) (s : HeapFileScan) (rec : Record) :
    Option (Status × Record) :=
  match e.deref s.curPage with
  | none => none
  | some p =>
    match p.getRecord s.curRec with
    | .ok r => some (OK, r)
    | .error st => some (st, rec)

/-- `HeapFileScan::deleteRecord()` (lines 399-411). -/
def HeapFileScan.deleteRecord (e : Env) (s : HeapFileScan) :
    Option (Status × HeapFileScan × Env) :=
  match s.curPage, e.deref s.curPage with
  | some pn, some p =>
    let r : Status × Env :=
      match p.deleteRecord s.curRec with
      | .ok p1 => (OK, e.setPage pn p1)
      | .error st => (st, e)
    some (r.1, { s with curDirtyFlag := true, hdrDirtyFlag := true },
          { r.2 with hdr := { r.2.hdr with recCnt := r.2.hdr.recCnt - 1 } })
  | _, _ => none

/-- `HeapFileScan::markDirty()` (lines 415-419). -/
def HeapFileScan.markDirty (s : HeapFileScan) : Status × HeapFileScan :=
  (OK, { s with curDirtyFlag := true })

/-! ## `InsertFileScan` -/

/-- An `InsertFileScan` adds no data member to `HeapFile`. -/
abbrev InsertFileScan := HeapFile

/-- The constructor `InsertFileScan::InsertFileScan` (lines 475-491). -/
def InsertFileScan.open (e : Env) (mem : InsertFileScan) : Status × InsertFileScan × Env :=
  match HeapFile.open e mem with
  | (st, h, e1) =>
    if h.curPage ≠ none ∧ h.curPageNo ≠ e1.hdr.lastPage then
      match unPinPage e1 h.curPageNo h.curDirtyFlag with
      | (_, e2) =>
        let h1 := { h with curPageNo := e2.hdr.lastPage }
        match readPage e2 h1.curPageNo with
        | (st2, e3) =>
          (st2, { h1 with curPage := if st2 = OK then some h1.curPageNo else h1.curPage,
                          curDirtyFlag := false }, e3)
    else (st, h, e1)

/-- The destructor `InsertFileScan::~InsertFileScan` (lines 493-504), followed by that of
the base class. -/
def InsertFileScan.close (e : Env) (h : InsertFileScan) : InsertFileScan × Env :=
  let r : InsertFileScan × Env :=
    if h.curPage ≠ none then
      ({ h with curPage := none, curPageNo := 0 }, (unPinPage e h.curPageNo true).2)
    else (h, e)
  HeapFile.close r.2 r.1

/-- `InsertFileScan::insertRecord(rec, outRid)` (lines 514-568). -/
def InsertFileScan.insertRecord (e : Env) (h : InsertFileScan) (rec : Record) (outRid : RID) :
    Option (Status × RID × InsertFileScan × Env) :=
  if toUnsigned rec.length > (PAGESIZE : Int) - (DPFIXED : Int) then
    some (INVALIDRECLEN, outRid, h, e)
  else
    let r : InsertFileScan × Env :=
      if h.curPage = none then
        match readPage e e.hdr.lastPage with
        | (st, e1) =>
          ({ h with curPageNo := e.hdr.lastPage,
                    curPage := if st = OK then some e.hdr.lastPage else none }, e1)
      else (h, e)
    match r.1.curPage, r.2.deref r.1.curPage with
    | some pn, some p =>
      match p.insertRecord rec with
      | .ok (rid, p1) =>
        let e2 := r.2.setPage pn p1
        some (OK, rid, { r.1 with curDirtyFlag := true, hdrDirtyFlag := true },
              { e2 with hdr := { e2.hdr with recCnt := e2.hdr.recCnt + 1 } })
      | .error _ =>
        match allocPage r.2 with
        | (st, newPageNo, e3) =>
          if st ≠ OK then some (st, outRid, r.1, e3)
          else
            let e4 := e3.setPage pn (p.setNextPage newPageNo)
            let e5 := (unPinPage e4 r.1.curPageNo r.1.curDirtyFlag).2
            let e6 := e5.setPage newPageNo (Page.init newPageNo)
            let h1 := { r.1 with curPage := some newPageNo, curPageNo := newPageNo,
                                 curDirtyFlag := false, hdrDirtyFlag := true }
            let e7 := { e6 with hdr := { e6.hdr with pageCnt := e6.hdr.pageCnt + 1,
                                                     lastPage := newPageNo } }
            match (Page.init newPageNo).insertRecord rec with
            | .error st => some (st, outRid, h1, e7)
            | .ok (rid, q1) =>
              let e8 := e7.setPage newPageNo q1
              some (OK, rid, { h1 with curDirtyFlag := true, hdrDirtyFlag := true },
                    { e8 with hdr := { e8.hdr with recCnt := e8.hdr.recCnt + 1 } })
    | _, _ => none

/-! ## Specification-level notions: the page chain and the records of a file -/

/-- The addresses of the records of a page after slot `slot`, in slot order. -/
def Page.ridsAfter (pg : Page) (slot : Int) : List RID :=
  (pg.live.filter (fun (i : Nat) => decide (slot < (i : Int)))).map
    (fun (i : Nat) => (⟨pg.curPage, i⟩ : RID))

/-- The addresses of the records of a page, in slot order. -/
def Page.rids (pg : Page) : List RID := pg.live.map (fun (i : Nat) => (⟨pg.curPage, i⟩ : RID))

/-- The pages `ps` are a chain that ends at the page `last`: every page exists, carries its
own number (which is not the sentinel `-1`), is linked to the next one, and only the final
one is `last`. -/
def isChain (pages : Int → Option Page) (last : Int) : List Int → Bool
  | [] => false
  | [p] =>
    decide (p = last) && decide (p ≠ -1) &&
      (match pages p with
       | some pg => decide (pg.curPage = p)
       | none => false)
  | p :: q :: rest =>
    decide (p ≠ last) && decide (p ≠ -1) &&
      (match pages p with
       | some pg => decide (pg.curPage = p) && decide (pg.nextPage = q)
       | none => false) &&
      isChain pages last (q :: rest)

/-- The addresses of all records on the pages `ps`, page by page and in slot order within a
page. -/
def chainRids (pages : Int → Option Page) : List Int → List RID
  | [] => []
  | p :: rest =>
    (match pages p with
     | some pg => pg.rids
     | none => []) ++ chainRids pages rest

/-- The record stored at an address, if any. -/
def recordAt (pages : Int → Option Page) (rid : RID) : Option Record :=
  match pages rid.pageNo with
  | some pg => pg.recAt rid.slotNo
  | none => none

/-- Whether the record at `rid` satisfies the predicate of the scan (`matchRec`). -/
def HeapFileScan.matches (s : HeapFileScan) (e : Env) (rid : RID) : Bool :=
  match recordAt e.pages rid with
  | some r => s.matchRec e r
  | none => false

/-- Call `scanNext` until it returns a status other than `OK` (at most `k` calls, each with
fuel `fuel`); the RIDs returned with `OK`, in order, and the final status. -/
def HeapFileScan.scanAll : Nat → Nat → Env → HeapFileScan →
    Option (List RID × Status × HeapFileScan × Env)
  | 0, _, _, _ => none
  | k + 1, fuel, e, s =>
    match HeapFileScan.scanNext fuel e s NULLRID with
    | none => none
    | some (st, rid, s1, e1) =>
      if st = OK then
        (HeapFileScan.scanAll k fuel e1 s1).map (fun r => (rid :: r.1, r.2))
      else some ([], st, s1, e1)

/-- The two environments hold the same file: same pages, header page and allocation state
(pins, trace and script may differ). -/
def Env.sameFile (e e' : Env) : Prop :=
  e'.pages = e.pages ∧ e'.hdr = e.hdr ∧ e'.fsub = e.fsub ∧ e'.nextPageNo = e.nextPageNo ∧
    e'.fileExists = e.fileExists ∧ e'.firstPageNo = e.firstPageNo

/-- The two scan objects carry the same predicate. -/
def HeapFileScan.samePred (s s' : HeapFileScan) : Prop :=
  s'.offset = s.offset ∧ s'.length = s.length ∧ s'.type = s.type ∧ s'.filter = s.filter ∧
    s'.op = s.op

/-- The addresses still ahead of a scan that stands after slot `slot` of page `p`, with the
pages `rest` following `p` in the chain. -/
def ridsFrom (pages : Int → Option Page) (p : Int) (rest : List Int) (slot : Int) : List RID :=
  (match pages p with
   | some pg => pg.ridsAfter slot
   | none => []) ++ chainRids pages rest

/-- The cursor of a scan stands on page `p` of a chain `p :: rest` that ends at the header's
last page, the page is pinned, and no buffer-pool failure is scheduled. -/
structure ScanInv (e : Env) (h : HeapFile) (p : Int) (rest : List Int) : Prop where
  script : e.script = []
  chain : isChain e.pages e.hdr.lastPage (p :: rest) = true
  curPage : h.curPage = some p
  curPageNo : h.curPageNo = p
  pinned : e.pinCnt p ≠ 0

/-- The record `rec` is stored at address `rid`, on a page the file has allocated. -/
def Stored (rid : RID) (rec : Record) (e : Env) : Prop :=
  recordAt e.pages rid = some rec ∧ rid.pageNo < e.nextPageNo

/-- The environment `e'` is reached from `e` by further operations of heap file objects in
any state: inserts, deletes that do not delete the record at `rid`, and cursor movements by
`HeapFile::getRecord` and `scanNext`. -/
inductive Later (rid : RID) : Env → Env → Prop where
  | refl (e : Env) : Later rid e e
  | insert {e e1 e2 : Env} (h : InsertFileScan) (rec : Record) (out : RID) (st : Status)
      (out' : RID) (h' : InsertFileScan) :
      Later rid e e1 → InsertFileScan.insertRecord e1 h rec out = some (st, out', h', e2) →
      Later rid e e2
  | delete {e e1 e2 : Env} (s : HeapFileScan) (st : Status) (s' : HeapFileScan) :
      Later rid e e1 → HeapFileScan.deleteRecord e1 s = some (st, s', e2) →
      ¬ (s.curPage = some rid.pageNo ∧ s.curRec.slotNo = rid.slotNo) →
      Later rid e e2
  | getRecord {e e1 e2 : Env} (h : HeapFile) (rid0 : RID) (junk : Record) (st : Status)
      (rec : Record) (h' : HeapFile) :
      Later rid e e1 → HeapFile.getRecord e1 h rid0 junk = some (st, rec, h', e2) →
      Later rid e e2
  | scanNext {e e1 e2 : Env} (fuel : Nat) (s : HeapFileScan) (out : RID) (st : Status)
      (out' : RID) (s' : HeapFileScan) :
      Later rid e e1 → HeapFileScan.scanNext fuel e1 s out = some (st, out', s', e2) →
      Later rid e e2

/-- Call `insertRecord` for the records of a list, one after the other, on the same
`InsertFileScan`; the statuses returned, in order. -/
def InsertFileScan.insertAll : Env → InsertFileScan → List Record →
    Option (List Status × InsertFileScan × Env)
  | e, h, [] => some ([], h, e)
  | e, h, rec :: recs =>
    match InsertFileScan.insertRecord e h rec NULLRID with
    | none => none
    | some (st, _, h1, e1) =>
      (InsertFileScan.insertAll e1 h1 recs).map (fun r => (st :: r.1, r.2))

/-- The state of an `InsertFileScan` between two inserts: the data pages `init` followed by
the header's last page form the chain of the file, the cursor points to the last page, the
page numbers of the chain have been allocated, and the header counts the records and the
pages of the chain. -/
structure InsInv (e : Env) (h : HeapFile) (init : List Int) : Prop where
  chain : isChain e.pages e.hdr.lastPage (init ++ [e.hdr.lastPage]) = true
  first : (init ++ [e.hdr.lastPage]).head? = some e.hdr.firstPage
  curPage : h.curPage = some e.hdr.lastPage
  fresh : ∀ p, p ∈ init ++ [e.hdr.lastPage] → p < e.nextPageNo
  count : e.hdr.recCnt = ((chainRids e.pages (init ++ [e.hdr.lastPage])).length : Int)
  pageCount : e.hdr.pageCnt = ((init ++ [e.hdr.lastPage]).length : Int)
  hdrPage : (e.pages e.firstPageNo).isSome = true
  hdrNo : e.firstPageNo ≠ -1
  nextPos : 0 ≤ e.nextPageNo
  file : e.fileExists = true

/-- A byte sequence read as a C string: cut off after its first zero byte. -/
def cstr : List Byte → List Byte
  | [] => []
  | b :: bs => if b = 0 then [0] else b :: cstr bs

/-- Sign of the lexicographic, byte by byte comparison of two byte sequences. -/
def lexSign : List Byte → List Byte → FSign
  | [], [] => .zero
  | [], _ :: _ => .neg
  | _ :: _, [] => .pos
  | a :: as, b :: bs => if a < b then .neg else if b < a then .pos else lexSign as bs

/-- Whether a buffer-pool call pins no page outside the pages `ps`: a `readPage` names a
page of `ps`, an `unPinPage` pins nothing, an `allocPage` pins a new page. -/
def BufCall.pinsWithin (ps : List Int) : BufCall → Bool
  | .readPage n _ => decide (n ∈ ps)
  | .unPinPage _ _ _ => true
  | .allocPage _ _ => false

/-- The cursor invariant of the specification (section 3): if `curPage` is non-null then
`curPageNo` names a page that is pinned. -/
def cursorInv (e : Env) (h : HeapFile) : Bool :=
  h.curPage.isNone || decide (e.pinCnt h.curPageNo ≠ 0)

/-- Sign class of the numerical comparison of two integers. -/
def cmpSign (a f : Int) : FSign := if a < f then .neg else if a = f then .zero else .pos

/-- Whether the predicate of a scan holds for a record, in the words of the specification
(section 4.2), not of the code: without predicate every record qualifies; otherwise the
record must hold the whole field, and the comparator is applied to the numerical comparison
of the two `int` values, to the sign of the `float` difference, or to the lexicographic, byte
by byte comparison of the two strings.  `str` says how the `length` bytes of a STRING operand
are read: as they are (`id`) or as a C string (`cstr`). -/
def HeapFileScan.holds (str : List Byte → List Byte) (s : HeapFileScan) (e : Env)
    (rec : Record) : Bool :=
  match s.filter with
  | none => true
  | some flt =>
    decide (s.offset + s.length ≤ rec.length) &&
      applyOp s.op
        (match s.type with
         | .INTEGER => cmpSign (int32At rec.data s.offset s.length) (int32At flt 0 s.length)
         | .FLOAT => e.fsub (bytesAt rec.data s.offset s.length) (bytesAt flt 0 s.length)
         | .STRING =>
           lexSign (str (bytesAt rec.data s.offset s.length)) (str (flt.take s.length.toNat))
         | .other _ => .zero)

/-- Whether the predicate of a scan holds for the record stored at `rid`. -/
def HeapFileScan.holdsAt (str : List Byte → List Byte) (s : HeapFileScan) (e : Env)
    (rid : RID) : Bool :=
  match recordAt e.pages rid with
  | some r => s.holds str e r
  | none => false

/-- The `int` arithmetic of a predicate does not overflow on a record: `offset + length` fits
in an `int`, and where an INTEGER predicate orders field and filter value (`LT`, `LTE`,
`GTE`, `GT`) on a record that holds the field, their difference fits in an `int`. -/
def HeapFileScan.inRange (s : HeapFileScan) (rec : Record) : Bool :=
  match s.filter with
  | none => true
  | some flt =>
    decide (s.offset + s.length ≤ 2147483647) &&
      (decide (s.type ≠ .INTEGER) || decide (s.op = .EQ) || decide (s.op = .NE) ||
        decide (rec.length < s.offset + s.length) ||
        (decide (-2147483648 ≤ int32At rec.data s.offset s.length - int32At flt 0 s.length) &&
         decide (int32At rec.data s.offset s.length - int32At flt 0 s.length ≤ 2147483647)))

/-- The `int` arithmetic of a predicate does not overflow on the record stored at `rid`. -/
def HeapFileScan.inRangeAt (s : HeapFileScan) (e : Env) (rid : RID) : Bool :=
  match recordAt e.pages rid with
  | some r => s.inRange r
  | none => true

/-! ## Sample values -/

/-- An environment in which the file does not exist yet and no buffer-pool call fails. -/
def exEnv : Env where
  fileExists := false
  openCnt := 0
  firstPageNo := -1
  nextPageNo := 1
  hdr := ⟨"", 0, 0, 0, 0⟩
  pages := fun _ => none
  pinCnt := fun _ => 0
  script := []
  calls := []
  fsub := fun _ _ => .zero

/-- The memory of a `HeapFile` object before its construction. -/
def exHeapFile : HeapFile := ⟨0, false, none, 0, false, NULLRID⟩

/-- The memory of a `HeapFileScan` object before its construction. -/
def exScan : HeapFileScan :=
  { toHeapFile := exHeapFile, offset := 0, length := 0, type := .STRING, filter := none,
    op := .EQ, markedPageNo := 0, markedRec := NULLRID }

/-- The record whose four bytes are the `int` `-2147483648`. -/
def recIntMin : Record := ⟨[0, 0, 0, 128], by decide⟩

/-- A record of 1005 bytes, one more than a page can hold. -/
def recBig : Record := ⟨List.replicate 1005 0, by rw [List.length_replicate]; norm_num⟩

/-- A record of four bytes, the `int` 7. -/
def recSeven : Record := ⟨[7, 0, 0, 0], by decide⟩

/-- A record of four bytes, the `int` 5. -/
def recFive : Record := ⟨[5, 0, 0, 0], by decide⟩

/-- A heap file of two data pages: header page 1, page 2 with the records 7 and 5 linked to
page 3 with the record 7. -/
def exFile : Env where
  fileExists := true
  openCnt := 0
  firstPageNo := 1
  nextPageNo := 4
  hdr := ⟨"f", 2, 3, 2, 3⟩
  pages := fun n =>
    if n = 1 then some ⟨[], 0, 0⟩
    else if n = 2 then some ⟨[some recSeven, some recFive], 3, 2⟩
    else if n = 3 then some ⟨[some recSeven], -1, 3⟩
    else none
  pinCnt := fun _ => 0
  script := []
  calls := []
  fsub := fun _ _ => .zero

/-- A record of 1001 bytes. -/
def recLong : Record := ⟨List.replicate 1001 0, by rw [List.length_replicate]; norm_num⟩

/-- A heap file of one data page (page 2, header page 1) that holds one record of 1001
bytes; both pages are pinned once. -/
def exFull : Env where
  fileExists := true
  openCnt := 1
  firstPageNo := 1
  nextPageNo := 3
  hdr := ⟨"f", 2, 2, 1, 1⟩
  pages := fun n =>
    if n = 1 then some ⟨[], 0, 0⟩
    else if n = 2 then some ⟨[some recLong], -1, 2⟩
    else none
  pinCnt := fun n => if n = 1 then 1 else if n = 2 then 1 else 0
  script := []
  calls := []
  fsub := fun _ _ => .zero

/-- An `InsertFileScan` on `exFull` with its cursor on page 2. -/
def exIns : InsertFileScan := ⟨1, false, some 2, 2, false, NULLRID⟩

/-- An `InsertFileScan` on `exFile` with its cursor on the last page, page 3. -/
def exInsFile : InsertFileScan := ⟨1, false, some 3, 3, false, NULLRID⟩

/-- A record of three bytes with a zero byte in the middle: `a`, 0, `b`. -/
def recZeroMid : Record := ⟨[97, 0, 98], by decide⟩

/-- A run on a fresh file: create the file, construct an `InsertFileScan`, insert one record
and destroy the object; construct a `HeapFileScan`, call `scanNext` once and `deleteRecord`
twice.  The result lists the statuses of the calls, the header's record count after the
first and after the second `deleteRecord`, the addresses of the records on the data pages at
the end, and whether the single data page is the chain of the file. -/
def exDeleteTwice : Option (List Status × Int × Int × List RID × Bool) := do
  let (st1, e1) := createHeapFile exEnv "f"
  let (st2, h, e2) := InsertFileScan.open e1 exHeapFile
  let (st3, _, h1, e3) ← InsertFileScan.insertRecord e2 h recSeven NULLRID
  let (_, e4) := InsertFileScan.close e3 h1
  let (st4, s, e5) := HeapFileScan.open e4 exScan
  let (st5, _, s1, e6) ← HeapFileScan.scanNext 3 e5 s NULLRID
  let (st6, s2, e7) ← HeapFileScan.deleteRecord e6 s1
  let (st7, _, e8) ← HeapFileScan.deleteRecord e7 s2
  pure ([st1, st2, st3, st4, st5, st6, st7], e7.hdr.recCnt, e8.hdr.recCnt,
    chainRids e8.pages [e8.hdr.firstPage],
    isChain e8.pages e8.hdr.lastPage [e8.hdr.firstPage])

/-- A run on the two-page file `exFile`: construct an `InsertFileScan` (its cursor goes to the
last page, page 3), fetch the record at address (2, 0) with the inherited
`HeapFile::getRecord`, then insert a record.  The result lists the statuses of the three
calls, the page the cursor is on after construction, the address `insertRecord` returned
and the header's `lastPage` when it returned. -/
def exInsertAfterGet : Option (List Status × Int × RID × Int) := do
  let (st1, h, e1) := InsertFileScan.open exFile exHeapFile
  let (st2, _, h1, e2) ← HeapFile.getRecord e1 h ⟨2, 0⟩ recFive
  let (st3, rid, _, e3) ← InsertFileScan.insertRecord e2 h1 recFive NULLRID
  pure ([st1, st2, st3], h.curPageNo, rid, e3.hdr.lastPage)

/-- A heap file whose header records page 2 as first and last data page although page 2 is
linked to a further page 3 (a stray link); header page 1 and page 2 are pinned once. -/
def exStray : Env where
  fileExists := true
  openCnt := 1
  firstPageNo := 1
  nextPageNo := 4
  hdr := ⟨"f", 2, 2, 1, 2⟩
  pages := fun n =>
    if n = 1 then some ⟨[], 0, 0⟩
    else if n = 2 then some ⟨[some recSeven, some recFive], 3, 2⟩
    else if n = 3 then some ⟨[some recSeven], -1, 3⟩
    else none
  pinCnt := fun n => if n = 1 then 1 else if n = 2 then 1 else 0
  script := []
  calls := []
  fsub := fun _ _ => .zero

/-- A scan on `exStray` that has returned the last record of page 2. -/
def exStrayScan : HeapFileScan :=
  { exScan with toHeapFile := ⟨1, false, some 2, 2, false, ⟨2, 1⟩⟩ }

/-- What a run observes around a failing call: the status the call returned, whether the
cursor invariant held before it and holds after it, and after it `curPage`, `curPageNo` and
the pin count of the page that `curPageNo` names. -/
structure CursorReport where
  status : Status
  invBefore : Bool
  invAfter : Bool
  curPage : Option Int
  curPageNo : Int
  pins : Nat
  deriving DecidableEq, Repr

/-- The environment `e` with a buffer pool that lets the next call through and fails the one
after it with `BUFFEREXCEEDED` (no free frame). -/
def failSecond (e : Env) : Env := { e with script := [OK, BUFFEREXCEEDED] }

/-- A run on the two-page file `exFile`: construct a `HeapFile` (cursor on page 2) and call
`getRecord` for the address (3, 0) while the buffer pool fails the `readPage`. -/
def exGetRecordFail : Option CursorReport := do
  let (_, h, e1) := HeapFile.open exFile exHeapFile
  let (st, _, h1, e2) ← HeapFile.getRecord (failSecond e1) h ⟨3, 0⟩ recFive
  pure ⟨st, cursorInv (failSecond e1) h, cursorInv e2 h1, h1.curPage, h1.curPageNo,
    e2.pinCnt h1.curPageNo⟩

/-- A run on `exFile`: construct a `HeapFileScan`, return the two records of page 2 with
`scanNext`, then call `scanNext` again while the buffer pool fails the `readPage` of page 3. -/
def exScanNextFail : Option CursorReport := do
  let (_, s, e1) := HeapFileScan.open exFile exScan
  let (_, _, s1, e2) ← HeapFileScan.scanNext 4 e1 s NULLRID
  let (_, _, s2, e3) ← HeapFileScan.scanNext 4 e2 s1 NULLRID
  let (st, _, s3, e4) ← HeapFileScan.scanNext 4 (failSecond e3) s2 NULLRID
  pure ⟨st, cursorInv (failSecond e3) s2.toHeapFile, cursorInv e4 s3.toHeapFile, s3.curPage,
    s3.curPageNo, e4.pinCnt s3.curPageNo⟩

/-- A run on `exFile`: construct a `HeapFileScan`, `markScan` on page 2, move the cursor to
page 3 with three calls of `scanNext`, then call `resetScan` while the buffer pool fails the
`readPage` of page 2. -/
def exResetScanFail : Option CursorReport := do
  let (_, s, e1) := HeapFileScan.open exFile exScan
  let (_, s0) := HeapFileScan.markScan s
  let (_, _, s1, e2) ← HeapFileScan.scanNext 4 e1 s0 NULLRID
  let (_, _, s2, e3) ← HeapFileScan.scanNext 4 e2 s1 NULLRID
  let (_, _, s3, e4) ← HeapFileScan.scanNext 4 e3 s2 NULLRID
  let (st, s4, e5) := HeapFileScan.resetScan (failSecond e4) s3
  pure ⟨st, cursorInv (failSecond e4) s3.toHeapFile, cursorInv e5 s4.toHeapFile, s4.curPage,
    s4.curPageNo, e5.pinCnt s4.curPageNo⟩

/-- The file of `exFull` before any object is constructed on it: no page is pinned. -/
def exFullClosed : Env := { exFull with openCnt := 0, pinCnt := fun _ => 0 }

/-- What the run `exGrowFresh` observes: the status of the constructor, `curDirtyFlag` after
construction, the status and the address returned by `insertRecord`, the next-page link of
page 2 before and after the insert, and the buffer-pool calls that `insertRecord` made. -/
structure GrowReport where
  openStatus : Status
  dirtyBefore : Bool
  status : Status
  rid : RID
  linkBefore : Option Int
  linkAfter : Option Int
  calls : List BufCall
  deriving DecidableEq, Repr

/-- A run on a file whose tail page (page 2) is full: construct an `InsertFileScan` and
insert a record of four bytes. -/
def exGrowFresh : Option GrowReport := do
  let (st1, h, e1) := InsertFileScan.open exFullClosed exHeapFile
  let (st2, rid, _, e2) ← InsertFileScan.insertRecord e1 h recSeven NULLRID
  pure ⟨st1, h.curDirtyFlag, st2, rid, (e1.pages 2).map Page.getNextPage,
    (e2.pages 2).map Page.getNextPage, e2.calls.drop e1.calls.length⟩

/-- What the run `exGetAfterEndScan` observes: the status of `endScan`, `curPage` and
`curPageNo` after it, the status of `getRecord`, whether `getRecord` returned the record
stored at the address, and the buffer-pool calls that `getRecord` made. -/
structure GetReport where
  endStatus : Status
  curPage : Option Int
  curPageNo : Int
  status : Status
  found : Bool
  calls : List BufCall
  deriving DecidableEq, Repr

/-- A run on the two-page file `exFile`: construct a `HeapFileScan`, call `endScan`, then
`HeapFile::getRecord` for the address (2, 0), where the record `recSeven` is stored. -/
def exGetAfterEndScan : Option GetReport := do
  let (_, s, e1) := HeapFileScan.open exFile exScan
  let (st1, s1, e2) := HeapFileScan.endScan e1 s
  let (st2, rec, _, e3) ← HeapFile.getRecord e2 s1.toHeapFile ⟨2, 0⟩ recFive
  pure ⟨st1, s1.curPage, s1.curPageNo, st2, decide (rec = recSeven),
    e3.calls.drop e2.calls.length⟩

/-- A heap file of one data page (page 2, header page 1) with the records `recIntMin` and
`recZeroMid`. -/
def exOdd : Env where
  fileExists := true
  openCnt := 0
  firstPageNo := 1
  nextPageNo := 3
  hdr := ⟨"f", 2, 2, 1, 2⟩
  pages := fun n =>
    if n = 1 then some ⟨[], 0, 0⟩
    else if n = 2 then some ⟨[some recIntMin, some recZeroMid], -1, 2⟩
    else none
  pinCnt := fun _ => 0
  script := []
  calls := []
  fsub := fun _ _ => .zero

/-- What the runs `roundTripRun` and `exGrowStale` observe: the status of the failing
`getRecord` and the cursor it leaves (`curPage`, `curPageNo`), the status and the address of
the insert that follows, whether the file holds the inserted record at that address, the
header's `pageCnt` and `lastPage` after the insert, and the status of the final `getRecord`
with whether it returned the record asked for. -/
structure RoundTripReport where
  failStatus : Status
  curPage : Option Int
  curPageNo : Int
  insertStatus : Status
  rid : RID
  stored : Bool
  pageCnt : Int
  lastPage : Int
  getStatus : Status
  found : Bool
  deriving DecidableEq, Repr

/-- A run on the two-page file `exFile` (pages 2 and 3): construct an `InsertFileScan` (cursor
on page 3), call `getRecord` for `rid0` in the environment `fail e` so that its `readPage`
fails, insert the record `recFive`, and fetch it with `getRecord` at the address the insert
returned. -/
def roundTripRun (fail : Env → Env) (rid0 : RID) : Option RoundTripReport := do
  let (_, h, e1) := InsertFileScan.open exFile exHeapFile
  let (st0, _, h1, e2) ← HeapFile.getRecord (fail e1) h rid0 recSeven
  let (st1, rid, h2, e3) ← InsertFileScan.insertRecord e2 h1 recFive NULLRID
  let (st2, out, _, _) ← HeapFile.getRecord e3 h2 rid recSeven
  pure ⟨st0, h1.curPage, h1.curPageNo, st1, rid, decide (recordAt e3.pages rid = some recFive),
    e3.hdr.pageCnt, e3.hdr.lastPage, st2, decide (out = recFive)⟩

/-- A run on a fresh file: create the file, construct an `InsertFileScan`, insert the record
`recLong` of 1001 bytes (address (2, 0), page 2 is then full), call `getRecord` for the
address (3, 0) on a page that does not exist yet, insert the record `recSeven` (page 2
rejects it, the chain grows by page 3), and fetch the first record with `getRecord` at
(2, 0). -/
def exGrowStale : Option RoundTripReport := do
  let (_, e0) := createHeapFile exEnv "f"
  let (_, h, e1) := InsertFileScan.open e0 exHeapFile
  let (_, rid1, h1, e2) ← InsertFileScan.insertRecord e1 h recLong NULLRID
  let (st0, _, h2, e3) ← HeapFile.getRecord e2 h1 ⟨3, 0⟩ recSeven
  let (st1, rid, h3, e4) ← InsertFileScan.insertRecord e3 h2 recSeven NULLRID
  let (st2, out, _, _) ← HeapFile.getRecord e4 h3 rid1 recSeven
  pure ⟨st0, h2.curPage, h2.curPageNo, st1, rid,
    decide (recordAt e4.pages rid = some recSeven) &&
      decide ((recordAt e4.pages rid1).map Record.length = some 1001),
    e4.hdr.pageCnt, e4.hdr.lastPage, st2, decide (out.length = 1001)⟩

/-! ## Theorems -/

/-! ### Elementary facts -/

theorem toUnsigned_length (rec : Record) : toUnsigned rec.length = rec.length := by
  unfold toUnsigned Record.length
  have h := rec.hlen
  apply Int.emod_eq_of_lt
  · omega
  · have : (2:Int)^32 = 4294967296 := by norm_num
    have h2 : (2:Nat)^31 = 2147483648 := by norm_num
    omega

theorem recBig_length : recBig.length = 1005 := by
  unfold Record.length recBig
  simp only [List.length_replicate]
  rfl

/-! ### `insertRecord`: oversize records -/

theorem insertRecord_big (e : Env) (h : InsertFileScan) (rec : Record) (outRid : RID)
    (hbig : rec.length > (PAGESIZE : Int) - (DPFIXED : Int)) :
    InsertFileScan.insertRecord e h rec outRid = some (INVALIDRECLEN, outRid, h, e) := by
  unfold InsertFileScan.insertRecord
  rw [toUnsigned_length, if_pos hbig]

/-- C5: a record longer than `PAGESIZE - DPFIXED` makes `insertRecord` return `INVALIDRECLEN`
with the object, `outRid` and the whole environment (header page, buffer-pool trace, pins)
exactly as before the call. -/
theorem insertRecord_oversize (e : Env) (h : InsertFileScan) (rec : Record) (outRid : RID)
    (hbig : rec.length > (PAGESIZE : Int) - (DPFIXED : Int)) :
    InsertFileScan.insertRecord e h rec outRid = some (INVALIDRECLEN, outRid, h, e) :=
  insertRecord_big e h rec outRid hbig

theorem insertRecord_oversize_witness :
    recBig.length > (PAGESIZE : Int) - (DPFIXED : Int) ∧
    InsertFileScan.insertRecord exEnv exHeapFile recBig NULLRID =
      some (INVALIDRECLEN, NULLRID, exHeapFile, exEnv) :=
  ⟨by rw [recBig_length]; decide,
   insertRecord_oversize exEnv exHeapFile recBig NULLRID (by rw [recBig_length]; decide)⟩

/-! ### `startScan` -/

theorem startScan_accepted (s : HeapFileScan) (offset_ length_ : Int) (type_ : Datatype)
    (flt : List Byte) (op_ : Operator)
    (h : (s.startScan offset_ length_ type_ (some flt) op_).1 ≠ BADSCANPARM) :
    s.startScan offset_ length_ type_ (some flt) op_ =
      (OK, { s with offset := offset_, length := length_, type := type_, filter := some flt,
                    op := op_ }) := by
  unfold HeapFileScan.startScan at h ⊢
  simp only [reduceCtorEq, if_false] at h ⊢
  split
  · rename_i hc
    rw [if_pos hc] at h
    exact absurd rfl h
  · rfl

/-- C8: with a non-null filter `startScan` returns `BADSCANPARM` exactly when one of the
listed conditions holds, and otherwise returns `OK` and stores the five arguments as the
predicate of the scan. -/
theorem startScan_validation (s : HeapFileScan) (offset_ length_ : Int) (type_ : Datatype)
    (flt : List Byte) (op_ : Operator) :
    ((s.startScan offset_ length_ type_ (some flt) op_).1 = BADSCANPARM ↔
      (offset_ < 0 ∨ length_ < 1 ∨
       (type_ ≠ .STRING ∧ type_ ≠ .INTEGER ∧ type_ ≠ .FLOAT) ∨
       (type_ = .INTEGER ∧ length_ ≠ 4) ∨ (type_ = .FLOAT ∧ length_ ≠ 4) ∨
       (op_ ≠ .LT ∧ op_ ≠ .LTE ∧ op_ ≠ .EQ ∧ op_ ≠ .GTE ∧ op_ ≠ .GT ∧ op_ ≠ .NE))) ∧
    ((s.startScan offset_ length_ type_ (some flt) op_).1 ≠ BADSCANPARM →
      s.startScan offset_ length_ type_ (some flt) op_ =
        (OK, { s with offset := offset_, length := length_, type := type_, filter := some flt,
                      op := op_ })) := by
  unfold HeapFileScan.startScan
  simp only [reduceCtorEq, if_false, or_assoc]
  split
  · rename_i hc
    exact ⟨⟨fun _ => hc, fun _ => rfl⟩, fun h => absurd rfl h⟩
  · rename_i hc
    exact ⟨⟨fun h => Status.noConfusion h, fun h => absurd h hc⟩, fun _ => rfl⟩

/-- C9: a `startScan` that returns `BADSCANPARM` leaves every member of the scan object as
it was (predicate, cursor and mark). -/
theorem startScan_badparm_unchanged (s : HeapFileScan) (offset_ length_ : Int)
    (type_ : Datatype) (filter_ : Option (List Byte)) (op_ : Operator)
    (hbad : (s.startScan offset_ length_ type_ filter_ op_).1 = BADSCANPARM) :
    (s.startScan offset_ length_ type_ filter_ op_).2 = s := by
  unfold HeapFileScan.startScan at hbad ⊢
  split at hbad
  · simp at hbad
  · split at hbad
    · rename_i h1 h2
      rw [if_neg h1, if_pos h2]
    · simp at hbad

theorem startScan_badparm_unchanged_witness :
    (exScan.startScan 0 7 .INTEGER (some [1, 0, 0, 0]) .EQ).1 = BADSCANPARM ∧
    (exScan.startScan 0 7 .INTEGER (some [1, 0, 0, 0]) .EQ).2 = exScan :=
  ⟨by decide, startScan_badparm_unchanged exScan 0 7 .INTEGER (some [1, 0, 0, 0]) .EQ (by decide)⟩

/-! ### `matchRec` on integers -/

/-- C10: `startScan` accepts the predicate `(0, 4, INTEGER, LT, 1)`; on the record whose
field is `-2147483648` the difference `iattr - ifltr` wraps to `2147483647`, and `matchRec`
returns `false` although `-2147483648 < 1`. -/
theorem matchRec_int_lt_overflow :
    (exScan.startScan 0 4 .INTEGER (some [1, 0, 0, 0]) .LT).1 = OK ∧
    int32At recIntMin.data 0 4 = -2147483648 ∧ int32At [1, 0, 0, 0] 0 4 = 1 ∧
    (exScan.startScan 0 4 .INTEGER (some [1, 0, 0, 0]) .LT).2.matchRec exEnv recIntMin = false := by
  decide

/-! ### `markScan` and `resetScan` -/

theorem setMark_matchRec (s : HeapFileScan) (p : Int) (r : RID) (e : Env) (rec : Record) :
    HeapFileScan.matchRec { s with markedPageNo := p, markedRec := r } e rec = s.matchRec e rec := rfl

theorem advance_setMark (p : Int) (r : RID) : ∀ (n : Nat) (e : Env) (s : HeapFileScan),
    HeapFileScan.advance n e { s with markedPageNo := p, markedRec := r } =
      (HeapFileScan.advance n e s).map
        (fun x => (x.1, { x.2.1 with markedPageNo := p, markedRec := r }, x.2.2))
  | 0, _, _ => rfl
  | n + 1, e, s => by
    simp only [HeapFileScan.advance]
    cases e.deref s.curPage with
    | none => rfl
    | some pg =>
      simp only []
      split
      · rfl
      · split
        · rfl
        · split
          · rfl
          · split
            · rfl
            · split
              · rfl
              · exact advance_setMark p r n _
                  { s with curPage := some pg.getNextPage, curPageNo := pg.getNextPage }

theorem scanLoop_setMark (p : Int) (r : RID) : ∀ (n : Nat) (e : Env) (s : HeapFileScan)
    (tmpRid outRid : RID),
    HeapFileScan.scanLoop n e { s with markedPageNo := p, markedRec := r } tmpRid outRid =
      (HeapFileScan.scanLoop n e s tmpRid outRid).map
        (fun x => (x.1, x.2.1, { x.2.2.1 with markedPageNo := p, markedRec := r }, x.2.2.2))
  | 0, _, _, _, _ => rfl
  | n + 1, e, s, tmpRid, outRid => by
    simp only [HeapFileScan.scanLoop]
    cases e.deref s.curPage with
    | none => rfl
    | some pg =>
      simp only []
      cases pg.nextRecord tmpRid with
      | ok nextRid =>
        simp only []
        cases e.deref s.curPage with
        | none => rfl
        | some q =>
          simp only []
          cases q.getRecord nextRid with
          | error st => rfl
          | ok rec =>
            simp only [setMark_matchRec]
            split
            · rfl
            · exact scanLoop_setMark p r n _ s _ _
      | error st =>
        simp only [advance_setMark]
        cases HeapFileScan.advance n e s with
        | none => rfl
        | some x =>
          obtain ⟨x1, s1, e1⟩ := x
          cases x1 with
          | error st => rfl
          | ok nextRid =>
            simp only [Option.map_some']
            cases e1.deref s1.curPage with
            | none => rfl
            | some q =>
              simp only []
              cases q.getRecord nextRid with
              | error st => rfl
              | ok rec =>
                simp only [setMark_matchRec]
                split
                · rfl
                · exact scanLoop_setMark p r n _ s1 _ _

theorem scanNext_setMark (p : Int) (r : RID) (n : Nat) (e : Env) (s : HeapFileScan)
    (outRid : RID) :
    HeapFileScan.scanNext n e { s with markedPageNo := p, markedRec := r } outRid =
      (HeapFileScan.scanNext n e s outRid).map
        (fun x => (x.1, x.2.1, { x.2.2.1 with markedPageNo := p, markedRec := r }, x.2.2.2)) := by
  unfold HeapFileScan.scanNext
  simp only []
  split
  · rfl
  · split
    · split
      · rfl
      · exact scanLoop_setMark p r n _ { s with curPage := some s.curPageNo } _ _
    · exact scanLoop_setMark p r n _ s _ _

/-- C7: `markScan` then `resetScan` returns `OK` twice, leaves the environment (so the trace
of buffer-pool calls) and the cursor members unchanged, and the next `scanNext` returns the
same status, the same RID, the same cursor and makes the same buffer-pool calls as without
the two calls. -/
theorem markScan_resetScan_noop (e : Env) (s : HeapFileScan) :
    s.markScan.1 = OK ∧
    HeapFileScan.resetScan e s.markScan.2 =
      (OK, { s with markedPageNo := s.curPageNo, markedRec := s.curRec }, e) ∧
    (HeapFileScan.resetScan e s.markScan.2).2.1.toHeapFile = s.toHeapFile ∧
    ∀ (fuel : Nat) (outRid : RID),
      (HeapFileScan.scanNext fuel (HeapFileScan.resetScan e s.markScan.2).2.2
          (HeapFileScan.resetScan e s.markScan.2).2.1 outRid).map
          (fun x => (x.1, x.2.1, x.2.2.1.toHeapFile, x.2.2.2.calls)) =
        (HeapFileScan.scanNext fuel e s outRid).map
          (fun x => (x.1, x.2.1, x.2.2.1.toHeapFile, x.2.2.2.calls)) := by
  have h : HeapFileScan.resetScan e s.markScan.2 =
      (OK, { s with markedPageNo := s.curPageNo, markedRec := s.curRec }, e) := by
    simp [HeapFileScan.resetScan, HeapFileScan.markScan]
  refine ⟨rfl, h, by rw [h], fun fuel outRid => ?_⟩
  rw [h]
  simp only [scanNext_setMark, Option.map_map]
  rfl


theorem live_sorted (pg : Page) : pg.live.Pairwise (· < ·) := by
  unfold Page.live
  exact List.Pairwise.filter _ (List.pairwise_lt_range _)

theorem filter_gt_tail {l : List Nat} (hl : l.Pairwise (· < ·)) (a : Int) (b : Nat) (t : List Nat)
    (h : l.filter (fun (i : Nat) => decide (a < (i : Int))) = b :: t) :
    l.filter (fun (i : Nat) => decide (((b : Nat) : Int) < (i : Int))) = t := by
  induction l with
  | nil => simp at h
  | cons x xs ih =>
    rw [List.pairwise_cons] at hl
    rw [List.filter_cons] at h
    split at h
    · rename_i hx
      injection h with h1 h2
      subst h1
      rw [List.filter_cons, if_neg (by simp)]
      rw [← h2]
      apply List.filter_congr
      intro y hy
      have := hl.1 y hy
      simp only [decide_eq_true_eq] at hx
      simp only [decide_eq_decide]
      constructor <;> intro <;> omega
    · rw [List.filter_cons, if_neg]
      · exact ih hl.2 h
      · have hb : b ∈ xs := by
          have : b ∈ List.filter (fun (i : Nat) => decide (a < (i : Int))) xs := by rw [h]; simp
          exact (List.mem_filter.mp this).1
        have := hl.1 b hb
        simp only [decide_eq_true_eq]
        omega

theorem recAt_of_mem_live (pg : Page) (i : Nat) (h : i ∈ pg.live) :
    ∃ rec, pg.recAt (i : Int) = some rec := by
  unfold Page.live at h
  have h2 := (List.mem_filter.mp h).2
  unfold Page.recAt
  rw [if_neg (by omega)]
  simp only [Int.toNat_ofNat]
  exact Option.isSome_iff_exists.mp h2

theorem rids_eq_ridsAfter (pg : Page) : pg.rids = pg.ridsAfter (-1) := by
  unfold Page.rids Page.ridsAfter
  congr 1
  symm
  rw [List.filter_eq_self]
  intro a _
  simp only [decide_eq_true_eq]
  omega

theorem nextRecord_eq (pg : Page) (cur : RID) :
    pg.nextRecord cur = match pg.ridsAfter cur.slotNo with
      | [] => .error ENDOFPAGE
      | r :: _ => .ok r := by
  unfold Page.nextRecord Page.ridsAfter
  rw [← List.filter_head?]
  cases List.filter (fun (i : Nat) => decide (cur.slotNo < (i : Int))) pg.live <;> rfl

theorem firstRecord_eq (pg : Page) :
    pg.firstRecord = match pg.rids with
      | [] => .error NORECORDS
      | r :: _ => .ok r := by
  unfold Page.firstRecord Page.rids
  cases pg.live <;> rfl

theorem ridsAfter_cons (pg : Page) (slot : Int) (r : RID) (R : List RID)
    (h : pg.ridsAfter slot = r :: R) :
    pg.ridsAfter r.slotNo = R ∧ r.pageNo = pg.curPage ∧
      ∃ rec, pg.getRecord r = .ok rec ∧ pg.recAt r.slotNo = some rec := by
  unfold Page.ridsAfter at h
  cases hf : List.filter (fun (i : Nat) => decide (slot < (i : Int))) pg.live with
  | nil => rw [hf] at h; simp at h
  | cons i t =>
    rw [hf, List.map_cons] at h
    injection h with h1 h2
    subst h1
    refine ⟨?_, rfl, ?_⟩
    · unfold Page.ridsAfter
      rw [filter_gt_tail (live_sorted pg) slot i t hf, h2]
    · have hi : i ∈ pg.live := by
        have : i ∈ List.filter (fun (i : Nat) => decide (slot < (i : Int))) pg.live := by
          rw [hf]; simp
        exact (List.mem_filter.mp this).1
      obtain ⟨rec, hrec⟩ := recAt_of_mem_live pg i hi
      exact ⟨rec, by unfold Page.getRecord; simp only [hrec], hrec⟩


/-! ### The buffer pool leaves the file alone -/

theorem sameFile_refl (e : Env) : e.sameFile e := ⟨rfl, rfl, rfl, rfl, rfl, rfl⟩

theorem sameFile_trans {e1 e2 e3 : Env} (h1 : e1.sameFile e2) (h2 : e2.sameFile e3) :
    e1.sameFile e3 :=
  ⟨h2.1.trans h1.1, h2.2.1.trans h1.2.1, h2.2.2.1.trans h1.2.2.1,
   h2.2.2.2.1.trans h1.2.2.2.1, h2.2.2.2.2.1.trans h1.2.2.2.2.1,
   h2.2.2.2.2.2.trans h1.2.2.2.2.2⟩

theorem samePred_refl (s : HeapFileScan) : s.samePred s := ⟨rfl, rfl, rfl, rfl, rfl⟩

theorem samePred_trans {s1 s2 s3 : HeapFileScan} (h1 : s1.samePred s2) (h2 : s2.samePred s3) :
    s1.samePred s3 :=
  ⟨h2.1.trans h1.1, h2.2.1.trans h1.2.1, h2.2.2.1.trans h1.2.2.1,
   h2.2.2.2.1.trans h1.2.2.2.1, h2.2.2.2.2.trans h1.2.2.2.2⟩

theorem pop_sameFile (e : Env) : e.sameFile e.pop.2 := by
  unfold Env.pop
  split <;> exact ⟨rfl, rfl, rfl, rfl, rfl, rfl⟩

theorem readPage_sameFile (e : Env) (q : Int) : e.sameFile (readPage e q).2 := by
  have h := pop_sameFile e
  unfold readPage
  simp only []
  split
  · exact h
  · split <;> exact h

theorem unPinPage_sameFile (e : Env) (q : Int) (d : Bool) : e.sameFile (unPinPage e q d).2 := by
  have h := pop_sameFile e
  unfold unPinPage
  simp only []
  split
  · exact h
  · split <;> exact h

theorem matchRec_congr {s s' : HeapFileScan} {e e' : Env} (hs : s.samePred s')
    (he : e'.fsub = e.fsub) (rec : Record) : s'.matchRec e' rec = s.matchRec e rec := by
  obtain ⟨a1, a2, a3, a4, a5⟩ := hs
  unfold HeapFileScan.matchRec
  rw [a1, a2, a3, a4, a5, he]

theorem pop_nil (e : Env) (hs : e.script = []) : e.pop = (OK, e) := by
  unfold Env.pop
  rw [hs]

theorem readPage_ok (e : Env) (q : Int) (hs : e.script = []) (hq : (e.pages q).isSome = true) :
    readPage e q = (OK, { e with pinCnt := Function.update e.pinCnt q (e.pinCnt q + 1),
                                 calls := e.calls ++ [.readPage q OK] }) := by
  unfold readPage
  rw [pop_nil e hs]
  simp only [ne_eq, not_true_eq_false, if_false]
  cases hp : e.pages q with
  | none => rw [hp] at hq; simp at hq
  | some pg => simp

theorem unPinPage_ok (e : Env) (q : Int) (d : Bool) (hs : e.script = [])
    (hq : e.pinCnt q ≠ 0) :
    unPinPage e q d = (OK, { e with pinCnt := Function.update e.pinCnt q (e.pinCnt q - 1),
                                    calls := e.calls ++ [.unPinPage q d OK] }) := by
  unfold unPinPage
  rw [pop_nil e hs]
  simp only [ne_eq, not_true_eq_false, if_false]
  rw [if_neg hq]


/-! ### Page chains -/

theorem isChain_head {pages : Int → Option Page} {last p : Int} {rest : List Int}
    (h : isChain pages last (p :: rest) = true) :
    ∃ pg, pages p = some pg ∧ pg.curPage = p ∧ p ≠ -1 := by
  cases rest with
  | nil =>
    unfold isChain at h
    cases hp : pages p with
    | none => simp [hp] at h
    | some pg =>
      simp only [hp, Bool.and_eq_true, decide_eq_true_eq] at h
      exact ⟨pg, rfl, h.2, h.1.2⟩
  | cons q rest2 =>
    unfold isChain at h
    cases hp : pages p with
    | none => simp [hp] at h
    | some pg =>
      simp only [hp, Bool.and_eq_true, decide_eq_true_eq] at h
      exact ⟨pg, rfl, h.1.2.1, h.1.1.2⟩

theorem isChain_single {pages : Int → Option Page} {last p : Int}
    (h : isChain pages last [p] = true) : p = last := by
  unfold isChain at h
  simp only [Bool.and_eq_true, decide_eq_true_eq] at h
  exact h.1.1

theorem isChain_cons {pages : Int → Option Page} {last p q : Int} {rest : List Int}
    (h : isChain pages last (p :: q :: rest) = true) :
    p ≠ last ∧ (∃ pg, pages p = some pg ∧ pg.nextPage = q) ∧
      isChain pages last (q :: rest) = true := by
  unfold isChain at h
  cases hp : pages p with
  | none => simp [hp] at h
  | some pg =>
    simp only [hp, Bool.and_eq_true, decide_eq_true_eq] at h
    exact ⟨h.1.1.1, ⟨pg, rfl, h.1.2.2⟩, h.2⟩


/-! ### `scanNext` on a well-formed chain -/

theorem advance_complete : ∀ (rest : List Int) (n : Nat) (e : Env) (s : HeapFileScan) (p : Int),
    ScanInv e s.toHeapFile p rest → rest.length + 1 ≤ n →
    ∃ res s' e', HeapFileScan.advance n e s = some (res, s', e') ∧ e.sameFile e' ∧
      s.samePred s' ∧ s'.curRec = s.curRec ∧
      (chainRids e.pages rest = [] → res = .error FILEEOF) ∧
      (∀ r R, chainRids e.pages rest = r :: R → res = .ok r ∧
        ∃ p' rest', ScanInv e' s'.toHeapFile p' rest' ∧ rest'.length < rest.length ∧
          ridsFrom e.pages p' rest' r.slotNo = R ∧ r.pageNo = p' ∧
          ∃ rec, recordAt e.pages r = some rec)
  | [], 0, _, _, _, _, hn => by simp at hn
  | [], n + 1, e, s, p, hinv, _ => by
    obtain ⟨pg, hpg, _, _⟩ := isChain_head hinv.chain
    have hlast := isChain_single hinv.chain
    refine ⟨.error FILEEOF, s, e, ?_, sameFile_refl e, samePred_refl s, rfl, fun _ => rfl, ?_⟩
    · simp only [HeapFileScan.advance, hinv.curPage, Env.deref, hpg]
      rw [if_pos (Or.inr (Or.inl (hinv.curPageNo.trans hlast)))]
    · intro r R h
      simp [chainRids] at h
  | q :: rest2, 0, _, _, _, _, hn => by simp at hn
  | q :: rest2, n + 1, e, s, p, hinv, hn => by
    obtain ⟨pg, hpg, _, hp1⟩ := isChain_head hinv.chain
    obtain ⟨hpl, ⟨pg', hpg', hnext⟩, hch⟩ := isChain_cons hinv.chain
    rw [hpg] at hpg'
    injection hpg' with hpg'
    subst hpg'
    obtain ⟨qg, hqg, hqcur, hq1⟩ := isChain_head hch
    have hcond : ¬ (pg.getNextPage = -1 ∨ s.curPageNo = e.hdr.lastPage ∨ s.curPageNo = -1) := by
      rw [hinv.curPageNo]
      unfold Page.getNextPage
      rw [hnext]
      tauto
    have hun := unPinPage_ok e p s.curDirtyFlag hinv.script hinv.pinned
    have hrd := readPage_ok
      { e with pinCnt := Function.update e.pinCnt p (e.pinCnt p - 1),
               calls := e.calls ++ [.unPinPage p s.curDirtyFlag OK] } q hinv.script
      (by simp [hqg])
    have hinv2 : ScanInv (readPage (unPinPage e p s.curDirtyFlag).2 q).2
        ({ s with curPage := some q, curPageNo := q } : HeapFileScan).toHeapFile q rest2 := by
      rw [hun, hrd]
      exact ⟨hinv.script, hch, rfl, rfl, by simp⟩
    have hsf : e.sameFile (readPage (unPinPage e p s.curDirtyFlag).2 q).2 :=
      sameFile_trans (unPinPage_sameFile e p _) (readPage_sameFile _ q)
    have hstep : HeapFileScan.advance (n + 1) e s =
        match qg.firstRecord with
        | .ok nextRid => some (.ok nextRid, { s with curPage := some q, curPageNo := q },
            (readPage (unPinPage e p s.curDirtyFlag).2 q).2)
        | .error _ => HeapFileScan.advance n (readPage (unPinPage e p s.curDirtyFlag).2 q).2
            { s with curPage := some q, curPageNo := q } := by
      simp only [HeapFileScan.advance, hinv.curPage, Env.deref, hpg]
      rw [if_neg hcond, hinv.curPageNo, hun]
      simp only [ne_eq, not_true_eq_false, if_false]
      have : pg.getNextPage = q := hnext
      rw [this, hrd]
      simp only [ne_eq, not_true_eq_false, if_false, hqg]
    rw [hstep, firstRecord_eq]
    cases hrids : qg.rids with
    | nil =>
      simp only []
      obtain ⟨res, s', e', h1, h2, h3, h4, h5, h6⟩ :=
        advance_complete rest2 n _ _ q hinv2 (by simp at hn; omega)
      refine ⟨res, s', e', h1, sameFile_trans hsf h2, h3, h4, ?_, ?_⟩
      · intro hc
        apply h5
        rw [hsf.1]
        simpa [chainRids, hqg, hrids] using hc
      · intro r R hc
        have hc2 : chainRids (readPage (unPinPage e p s.curDirtyFlag).2 q).2.pages rest2 = r :: R := by
          rw [hsf.1]
          simpa [chainRids, hqg, hrids] using hc
        obtain ⟨hr, p', rest', i1, i2, i3, i4, i5⟩ := h6 r R hc2
        refine ⟨hr, p', rest', i1, ?_, ?_, i4, ?_⟩
        · simp; omega
        · rw [← hsf.1]; exact i3
        · rw [← hsf.1]; exact i5
    | cons r0 R0 =>
      simp only []
      refine ⟨_, _, _, rfl, hsf, samePred_refl s, rfl, ?_, ?_⟩
      · intro hc
        simp [chainRids, hqg, hrids] at hc
      · intro r R hc
        simp only [chainRids, hqg, hrids, List.cons_append, List.cons.injEq] at hc
        obtain ⟨hr, hR⟩ := hc
        subst hr
        have h1 := rids_eq_ridsAfter qg
        rw [hrids] at h1
        obtain ⟨h2, h3, rec, _, h4⟩ := ridsAfter_cons qg (-1) r0 R0 h1.symm
        refine ⟨rfl, q, rest2, hinv2, by simp, ?_, ?_, rec, ?_⟩
        · unfold ridsFrom
          simp only [hqg, h2]
          exact hR
        · rw [h3, hqcur]
        · unfold recordAt
          rw [h3, hqcur, hqg]
          exact h4

theorem matches_of_recordAt (s : HeapFileScan) (e : Env) (r : RID) (rec : Record)
    (h : recordAt e.pages r = some rec) : s.matches e r = s.matchRec e rec := by
  unfold HeapFileScan.matches
  rw [h]

theorem matches_congr {s s' : HeapFileScan} {e e' : Env} (he : e.sameFile e')
    (hs : s.samePred s') (r : RID) : s'.matches e' r = s.matches e r := by
  unfold HeapFileScan.matches
  rw [he.1]
  cases recordAt e.pages r with
  | none => rfl
  | some rec => exact matchRec_congr hs he.2.2.1 rec

theorem ridsFrom_cons {pages : Int → Option Page} {p : Int} (rest : List Int) {slot : Int}
    {pg : Page} (hpg : pages p = some pg) (hcur : pg.curPage = p) {r : RID} {R : List RID}
    (h : pg.ridsAfter slot = r :: R) :
    ridsFrom pages p rest slot = r :: ridsFrom pages p rest r.slotNo ∧
      ∃ rec, pg.getRecord r = .ok rec ∧ recordAt pages r = some rec := by
  obtain ⟨h1, h2, rec, h3, h4⟩ := ridsAfter_cons pg slot r R h
  refine ⟨?_, rec, h3, ?_⟩
  · unfold ridsFrom
    simp only [hpg, h, h1, List.cons_append]
  · unfold recordAt
    rw [h2, hcur, hpg]
    exact h4

theorem scanLoop_complete : ∀ (n : Nat) (e : Env) (s : HeapFileScan) (p : Int)
    (rest : List Int) (tmp out : RID),
    ScanInv e s.toHeapFile p rest →
    (ridsFrom e.pages p rest tmp.slotNo).length + rest.length + 2 ≤ n →
    ∃ st out' s' e', HeapFileScan.scanLoop n e s tmp out = some (st, out', s', e') ∧
      e.sameFile e' ∧ s.samePred s' ∧
      ((ridsFrom e.pages p rest tmp.slotNo).dropWhile (fun r => !s.matches e r) = [] →
        st = FILEEOF ∧ out' = out) ∧
      (∀ r post,
        (ridsFrom e.pages p rest tmp.slotNo).dropWhile (fun r => !s.matches e r) = r :: post →
        st = OK ∧ out' = r ∧ s'.curRec = r ∧
        ∃ p' rest', ScanInv e' s'.toHeapFile p' rest' ∧
          ridsFrom e.pages p' rest' r.slotNo = post ∧
          post.length + rest'.length < (ridsFrom e.pages p rest tmp.slotNo).length + rest.length)
  | 0, _, _, _, _, _, _, _, hn => by simp at hn
  | n + 1, e, s, p, rest, tmp, out, hinv, hn => by
    obtain ⟨pg, hpg, hcur, _⟩ := isChain_head hinv.chain
    cases hR : pg.ridsAfter tmp.slotNo with
    | cons r R =>
      obtain ⟨hrf, rec, hget, hrec⟩ := ridsFrom_cons rest hpg hcur hR
      have hm := matches_of_recordAt s e r rec hrec
      have hstep : HeapFileScan.scanLoop (n + 1) e s tmp out =
          if s.matchRec e rec then some (OK, r, { s with curRec := r }, e)
          else HeapFileScan.scanLoop n e s r out := by
        simp only [HeapFileScan.scanLoop, hinv.curPage, Env.deref, hpg, nextRecord_eq, hR, hget]
      rw [hstep, hrf]
      rw [hrf] at hn
      cases hmr : s.matchRec e rec with
      | true =>
        simp only [if_true]
        refine ⟨_, _, _, _, rfl, sameFile_refl e, ⟨rfl, rfl, rfl, rfl, rfl⟩, ?_, ?_⟩
        · intro h
          rw [List.dropWhile_cons, hm, hmr] at h
          simp at h
        · intro r1 post h
          rw [List.dropWhile_cons, hm, hmr] at h
          simp only [Bool.not_true, Bool.false_eq_true, if_false, List.cons.injEq] at h
          obtain ⟨h1, h2⟩ := h
          subst h1
          refine ⟨rfl, rfl, rfl, p, rest, ⟨hinv.script, hinv.chain, hinv.curPage,
            hinv.curPageNo, hinv.pinned⟩, h2, ?_⟩
          rw [← h2]
          simp
      | false =>
        simp only [Bool.false_eq_true, if_false]
        obtain ⟨st, out', s', e', h1, h2, h3, h4, h5⟩ :=
          scanLoop_complete n e s p rest r out hinv (by simp at hn; omega)
        refine ⟨st, out', s', e', h1, h2, h3, ?_, ?_⟩
        · intro h
          rw [List.dropWhile_cons, hm, hmr] at h
          exact h4 (by simpa using h)
        · intro r1 post h
          rw [List.dropWhile_cons, hm, hmr] at h
          obtain ⟨i1, i2, i3, p', rest', i4, i5, i6⟩ := h5 r1 post (by simpa using h)
          refine ⟨i1, i2, i3, p', rest', i4, i5, ?_⟩
          simp only [List.length_cons]
          omega
    | nil =>
      have hrf : ridsFrom e.pages p rest tmp.slotNo = chainRids e.pages rest := by
        unfold ridsFrom
        simp only [hpg, hR, List.nil_append]
      rw [hrf] at hn ⊢
      obtain ⟨res, s1, e1, a1, a2, a3, a4, a5, a6⟩ :=
        advance_complete rest n e s p hinv (by omega)
      cases hc : chainRids e.pages rest with
      | nil =>
        have hres := a5 hc
        subst hres
        refine ⟨FILEEOF, out, s1, e1, ?_, a2, a3, fun _ => ⟨rfl, rfl⟩, ?_⟩
        · simp only [HeapFileScan.scanLoop, hinv.curPage, Env.deref, hpg, nextRecord_eq, hR, a1]
        · intro r post h
          simp at h
      | cons r R =>
        obtain ⟨hres, p', rest', b1, b2, b3, b4, rec, b5⟩ := a6 r R hc
        subst hres
        obtain ⟨pg', hpg', hcur', _⟩ := isChain_head b1.chain
        have hm := matches_of_recordAt s e r rec b5
        have hget : pg'.getRecord r = .ok rec := by
          unfold recordAt at b5
          rw [b4, ← a2.1, hpg'] at b5
          simp only [] at b5
          unfold Page.getRecord
          rw [b5]
        have hstep : HeapFileScan.scanLoop (n + 1) e s tmp out =
            if s1.matchRec e1 rec then some (OK, r, { s1 with curRec := r }, e1)
            else HeapFileScan.scanLoop n e1 s1 r out := by
          simp only [HeapFileScan.scanLoop, hinv.curPage, Env.deref, hpg, nextRecord_eq, hR, a1,
            b1.curPage, hpg', hget]
        rw [hstep, matchRec_congr a3 a2.2.2.1]
        rw [hc] at hn
        cases hmr : s.matchRec e rec with
        | true =>
          simp only [if_true]
          refine ⟨_, _, _, _, rfl, a2, ?_, ?_, ?_⟩
          · exact samePred_trans a3 ⟨rfl, rfl, rfl, rfl, rfl⟩
          · intro h
            rw [List.dropWhile_cons, hm, hmr] at h
            simp at h
          · intro r1 post h
            rw [List.dropWhile_cons, hm, hmr] at h
            simp only [Bool.not_true, Bool.false_eq_true, if_false, List.cons.injEq] at h
            obtain ⟨h1, h2⟩ := h
            subst h1
            refine ⟨rfl, rfl, rfl, p', rest', ⟨b1.script, b1.chain, b1.curPage,
              b1.curPageNo, b1.pinned⟩, b3.trans h2, ?_⟩
            rw [← h2]
            simp only [List.length_cons]
            omega
        | false =>
          simp only [Bool.false_eq_true, if_false]
          have hb3 : ridsFrom e1.pages p' rest' r.slotNo = R := by rw [a2.1]; exact b3
          obtain ⟨st, out', s', e', h1, h2, h3, h4, h5⟩ :=
            scanLoop_complete n e1 s1 p' rest' r out b1
              (by rw [hb3]; simp at hn; omega)
          rw [hb3] at h4 h5
          have hmfun : (fun r => !s1.matches e1 r) = (fun r => !s.matches e r) := by
            funext x
            rw [matches_congr a2 a3]
          rw [hmfun] at h4 h5
          refine ⟨st, out', s', e', h1, sameFile_trans a2 h2, samePred_trans a3 h3, ?_, ?_⟩
          · intro h
            rw [List.dropWhile_cons, hm, hmr] at h
            exact h4 (by simpa using h)
          · intro r1 post h
            rw [List.dropWhile_cons, hm, hmr] at h
            obtain ⟨i1, i2, i3, p2, rest2, i4, i5, i6⟩ := h5 r1 post (by simpa using h)
            refine ⟨i1, i2, i3, p2, rest2, i4, ?_, ?_⟩
            · rw [← a2.1]; exact i5
            · simp only [List.length_cons]
              omega


theorem dropWhile_not_nil {α : Type} (m : α → Bool) (l : List α)
    (h : l.dropWhile (fun r => !m r) = []) : l.filter m = [] := by
  induction l with
  | nil => rfl
  | cons a l ih =>
    rw [List.dropWhile_cons] at h
    cases hm : m a with
    | true => simp [hm] at h
    | false =>
      simp only [hm, Bool.not_false, if_true] at h
      rw [List.filter_cons, hm]
      simpa using ih h

theorem dropWhile_not_cons {α : Type} (m : α → Bool) (l : List α) (r : α) (post : List α)
    (h : l.dropWhile (fun r => !m r) = r :: post) : l.filter m = r :: post.filter m := by
  induction l with
  | nil => simp at h
  | cons a l ih =>
    rw [List.dropWhile_cons] at h
    cases hm : m a with
    | true =>
      simp only [hm, Bool.not_true, Bool.false_eq_true, if_false, List.cons.injEq] at h
      rw [List.filter_cons, hm, h.1, h.2]
      simp
    | false =>
      simp only [hm, Bool.not_false, if_true] at h
      rw [List.filter_cons, hm]
      simpa using ih h

theorem scanNext_eq_scanLoop {e : Env} {s : HeapFileScan} {p : Int} {rest : List Int}
    (hinv : ScanInv e s.toHeapFile p rest) (fuel : Nat) (out : RID) :
    HeapFileScan.scanNext fuel e s out = HeapFileScan.scanLoop fuel e s s.curRec out := by
  obtain ⟨pg, _, _, hp1⟩ := isChain_head hinv.chain
  unfold HeapFileScan.scanNext
  rw [if_neg (by rw [hinv.curPageNo]; exact hp1), if_neg (by rw [hinv.curPage]; simp)]

theorem scanAll_complete : ∀ (k fuel : Nat) (e : Env) (s : HeapFileScan) (p : Int)
    (rest : List Int),
    ScanInv e s.toHeapFile p rest →
    ((ridsFrom e.pages p rest s.curRec.slotNo).filter (s.matches e)).length + 1 ≤ k →
    (ridsFrom e.pages p rest s.curRec.slotNo).length + rest.length + 2 ≤ fuel →
    ∃ s' e', HeapFileScan.scanAll k fuel e s =
      some ((ridsFrom e.pages p rest s.curRec.slotNo).filter (s.matches e), FILEEOF, s', e')
  | 0, _, _, _, _, _, _, hk, _ => by simp at hk
  | k + 1, fuel, e, s, p, rest, hinv, hk, hfuel => by
    obtain ⟨st, out', s1, e1, h1, h2, h3, h4, h5⟩ :=
      scanLoop_complete fuel e s p rest s.curRec NULLRID hinv hfuel
    unfold HeapFileScan.scanAll
    rw [scanNext_eq_scanLoop hinv, h1]
    simp only []
    cases hd : (ridsFrom e.pages p rest s.curRec.slotNo).dropWhile (fun r => !s.matches e r) with
    | nil =>
      obtain ⟨i1, _⟩ := h4 hd
      subst i1
      rw [dropWhile_not_nil _ _ hd]
      exact ⟨s1, e1, by simp⟩
    | cons r post =>
      obtain ⟨i1, i2, i3, p', rest', i4, i5, i6⟩ := h5 r post hd
      subst i1 i2
      have hf := dropWhile_not_cons _ _ _ _ hd
      rw [hf] at hk ⊢
      have hm : s1.matches e1 = s.matches e := by
        funext x
        exact matches_congr h2 h3 x
      have hR : ridsFrom e1.pages p' rest' s1.curRec.slotNo = post := by
        rw [h2.1, i3]; exact i5
      obtain ⟨s2, e2, h6⟩ := scanAll_complete k fuel e1 s1 p' rest' i4
        (by rw [hR, hm]; simp at hk; omega) (by rw [hR]; omega)
      rw [hR, hm] at h6
      exact ⟨s2, e2, by simp [h6]⟩

theorem startScan_toHeapFile (s : HeapFileScan) (offset_ length_ : Int) (type_ : Datatype)
    (filter_ : Option (List Byte)) (op_ : Operator) :
    (s.startScan offset_ length_ type_ filter_ op_).2.toHeapFile = s.toHeapFile := by
  unfold HeapFileScan.startScan
  split
  · rfl
  · split <;> rfl

theorem open_scanInv (e : Env) (mem : HeapFileScan) (p : Int) (rest : List Int)
    (hfile : e.fileExists = true) (hscript : e.script = [])
    (hhdr : (e.pages e.firstPageNo).isSome = true)
    (hchain : isChain e.pages e.hdr.lastPage (p :: rest) = true)
    (hfirst : p = e.hdr.firstPage) :
    (HeapFileScan.open e mem).1 = OK ∧
    ScanInv (HeapFileScan.open e mem).2.2 (HeapFileScan.open e mem).2.1.toHeapFile p rest ∧
    (HeapFileScan.open e mem).2.1.curRec = NULLRID ∧
    (HeapFileScan.open e mem).2.1.filter = none ∧
    e.sameFile (HeapFileScan.open e mem).2.2 := by
  obtain ⟨pg, hpg, _, _⟩ := isChain_head hchain
  have h1 := readPage_ok { e with openCnt := e.openCnt + 1 } e.firstPageNo hscript hhdr
  have h2 := readPage_ok
    { e with openCnt := e.openCnt + 1,
             pinCnt := Function.update e.pinCnt e.firstPageNo (e.pinCnt e.firstPageNo + 1),
             calls := e.calls ++ [.readPage e.firstPageNo OK] } e.hdr.firstPage hscript
    (by rw [← hfirst]; simp [hpg])
  unfold HeapFileScan.open HeapFile.open
  rw [if_pos hfile]
  simp only [h1, ne_eq, not_true_eq_false, if_false, h2]
  subst hfirst
  exact ⟨trivial, ⟨hscript, hchain, rfl, rfl, by simp⟩, trivial, trivial,
    ⟨rfl, rfl, rfl, rfl, rfl, rfl⟩⟩


/-! ### No page and no record occurs twice in a chain -/

theorem isChain_unique {pages : Int → Option Page} {last : Int} :
    ∀ (l1 l2 : List Int) (p : Int), isChain pages last (p :: l1) = true →
      isChain pages last (p :: l2) = true → l1 = l2
  | [], [], _, _, _ => rfl
  | [], _ :: _, _, h1, h2 => absurd (isChain_single h1) (isChain_cons h2).1
  | _ :: _, [], _, h1, h2 => absurd (isChain_single h2) (isChain_cons h1).1
  | q1 :: l1, q2 :: l2, p, h1, h2 => by
    obtain ⟨_, ⟨pg1, hp1, hn1⟩, hc1⟩ := isChain_cons h1
    obtain ⟨_, ⟨pg2, hp2, hn2⟩, hc2⟩ := isChain_cons h2
    rw [hp1] at hp2
    injection hp2 with hp2
    subst hp2
    have hq : q1 = q2 := hn1.symm.trans hn2
    subst hq
    rw [isChain_unique l1 l2 q1 hc1 hc2]

theorem isChain_suffix {pages : Int → Option Page} {last : Int} :
    ∀ (a : List Int) (p : Int) (b : List Int), isChain pages last (a ++ p :: b) = true →
      isChain pages last (p :: b) = true
  | [], _, _, h => h
  | [x], p, b, h => (isChain_cons h).2.2
  | x :: y :: a, p, b, h => isChain_suffix (y :: a) p b (isChain_cons h).2.2

theorem isChain_nodup {pages : Int → Option Page} {last : Int} :
    ∀ (rest : List Int) (p : Int), isChain pages last (p :: rest) = true → (p :: rest).Nodup
  | [], _, _ => by simp
  | q :: rest, p, h => by
    rw [List.nodup_cons]
    refine ⟨fun hmem => ?_, isChain_nodup rest q (isChain_cons h).2.2⟩
    obtain ⟨a, b, hab⟩ := List.append_of_mem hmem
    have h2 : isChain pages last (p :: b) = true := by
      apply isChain_suffix (p :: a) p b
      rw [List.cons_append, ← hab]
      exact h
    have h3 := isChain_unique (q :: rest) b p h h2
    rw [hab] at h3
    have h4 := congrArg List.length h3
    simp at h4
    omega

theorem mem_chainRids {pages : Int → Option Page} {last : Int} {rid : RID} :
    ∀ (rest : List Int) (p : Int), isChain pages last (p :: rest) = true →
      rid ∈ chainRids pages (p :: rest) →
      rid.pageNo ∈ p :: rest ∧ ∃ rec, recordAt pages rid = some rec
  | [], p, h, hm => by
    obtain ⟨pg, hpg, hcur, _⟩ := isChain_head h
    simp only [chainRids, hpg, List.append_nil, Page.rids, List.mem_map] at hm
    obtain ⟨i, hi, hr⟩ := hm
    subst hr
    obtain ⟨rec, hrec⟩ := recAt_of_mem_live pg i hi
    exact ⟨by simp [hcur], rec, by unfold recordAt; simp only [hcur, hpg]; exact hrec⟩
  | q :: rest, p, h, hm => by
    obtain ⟨pg, hpg, hcur, _⟩ := isChain_head h
    rw [chainRids, List.mem_append] at hm
    cases hm with
    | inl hm =>
      simp only [hpg, Page.rids, List.mem_map] at hm
      obtain ⟨i, hi, hr⟩ := hm
      subst hr
      obtain ⟨rec, hrec⟩ := recAt_of_mem_live pg i hi
      exact ⟨by simp [hcur], rec, by unfold recordAt; simp only [hcur, hpg]; exact hrec⟩
    | inr hm =>
      obtain ⟨h1, h2⟩ := mem_chainRids rest q (isChain_cons h).2.2 hm
      exact ⟨List.mem_cons_of_mem _ h1, h2⟩

theorem rids_nodup (pg : Page) : pg.rids.Nodup := by
  unfold Page.rids
  apply List.Nodup.map
  · intro a b hab
    injection hab with _ h2
    exact Int.ofNat.inj h2
  · exact (live_sorted pg).imp (fun h => Nat.ne_of_lt h)

theorem chainRids_nodup {pages : Int → Option Page} {last : Int} :
    ∀ (rest : List Int) (p : Int), isChain pages last (p :: rest) = true →
      (chainRids pages (p :: rest)).Nodup
  | [], p, h => by
    obtain ⟨pg, hpg, _, _⟩ := isChain_head h
    simp only [chainRids, hpg, List.append_nil]
    exact rids_nodup pg
  | q :: rest, p, h => by
    obtain ⟨pg, hpg, hcur, _⟩ := isChain_head h
    have hnd := isChain_nodup (q :: rest) p h
    rw [List.nodup_cons] at hnd
    rw [chainRids, List.nodup_append]
    refine ⟨?_, chainRids_nodup rest q (isChain_cons h).2.2, ?_⟩
    · simp only [hpg]; exact rids_nodup pg
    · intro rid h1 h2
      simp only [hpg, Page.rids, List.mem_map] at h1
      obtain ⟨i, _, hr⟩ := h1
      have h3 := (mem_chainRids rest q (isChain_cons h).2.2 h2).1
      rw [← hr] at h3
      simp only [hcur] at h3
      exact hnd.1 h3


/-! ### The integer predicate with `=` -/

theorem wrap32_range (x : Int) : -2147483648 ≤ wrap32 x ∧ wrap32 x < 2147483648 := by
  unfold wrap32
  norm_num
  omega

theorem int32At_range (bs : List Byte) (off len : Int) :
    -2147483648 ≤ int32At bs off len ∧ int32At bs off len < 2147483648 :=
  wrap32_range _

theorem wrap32_sub_eq_zero (a f : Int) (ha : -2147483648 ≤ a ∧ a < 2147483648)
    (hf : -2147483648 ≤ f ∧ f < 2147483648) : wrap32 (a - f) = 0 ↔ a = f := by
  unfold wrap32
  norm_num
  omega

theorem signOf_eq_zero (x : Int) : signOf x = .zero ↔ x = 0 := by
  unfold signOf
  split
  · simp; omega
  · split <;> simp [*]

theorem matchRec_int_eq (s : HeapFileScan) (e : Env) (rec : Record) (flt : List Byte)
    (hf : s.filter = some flt) (ht : s.type = .INTEGER) (ho : s.op = .EQ)
    (hoff : s.offset = 0) (hlen : s.length = 4) :
    s.matchRec e rec = true ↔
      (4 ≤ rec.length ∧ int32At rec.data 0 4 = int32At flt 0 4) := by
  have h3 : wrap32 (wrap32 (0 + 4) - 1) = 3 := by decide
  unfold HeapFileScan.matchRec
  simp only [hf, ht, ho, hoff, hlen, h3]
  split
  · rename_i h
    simp only [Bool.false_eq_true, false_iff, not_and]
    intro h4
    omega
  · rename_i h
    simp only [applyOp, decide_eq_true_eq, signOf_eq_zero]
    rw [wrap32_sub_eq_zero _ _ (int32At_range rec.data 0 4) (int32At_range flt 0 4)]
    constructor
    · intro h2
      exact ⟨by omega, h2⟩
    · intro h2
      exact h2.2


/-! ### A filtered scan returns the matching records in chain order -/

/-- In terms of the verdict of `matchRec`: on a heap file whose data pages `ps` form a chain
from the header's first page to its last page, a freshly opened scan with an accepted
predicate returns, call after call, `OK` with the addresses of the records that `matchRec`
accepts, in page-chain order and within a page in slot order, and then `FILEEOF`; no address
occurs twice. -/
theorem scan_returns_matching (e : Env) (mem : HeapFileScan) (ps : List Int)
    (offset_ length_ : Int) (type_ : Datatype) (filter_ : Option (List Byte)) (op_ : Operator)
    (k fuel : Nat)
    (hfile : e.fileExists = true) (hscript : e.script = [])
    (hhdr : (e.pages e.firstPageNo).isSome = true)
    (hchain : isChain e.pages e.hdr.lastPage ps = true)
    (hfirst : ps.head? = some e.hdr.firstPage)
    (hacc : ((HeapFileScan.open e mem).2.1.startScan offset_ length_ type_ filter_ op_).1 = OK)
    (hk : (chainRids e.pages ps).length + 1 ≤ k)
    (hfuel : (chainRids e.pages ps).length + ps.length + 1 ≤ fuel) :
    (HeapFileScan.open e mem).1 = OK ∧
    (HeapFileScan.scanAll k fuel (HeapFileScan.open e mem).2.2
        ((HeapFileScan.open e mem).2.1.startScan offset_ length_ type_ filter_ op_).2).map
        (fun r => (r.1, r.2.1)) =
      some ((chainRids e.pages ps).filter
        (((HeapFileScan.open e mem).2.1.startScan offset_ length_ type_ filter_ op_).2.matches e),
        FILEEOF) ∧
    (chainRids e.pages ps).Nodup ∧
    (∀ (flt : List Byte) (rid : RID) (rec : Record),
      offset_ = 0 → length_ = 4 → type_ = .INTEGER → op_ = .EQ → filter_ = some flt →
      recordAt e.pages rid = some rec →
      (((HeapFileScan.open e mem).2.1.startScan offset_ length_ type_ filter_ op_).2.matches e rid
          = true ↔
        (4 ≤ rec.length ∧ int32At rec.data 0 4 = int32At flt 0 4))) := by
  cases ps with
  | nil => simp [isChain] at hchain
  | cons p rest =>
    simp only [List.head?_cons, Option.some.injEq] at hfirst
    obtain ⟨h1, h2, h3, h4, h5⟩ := open_scanInv e mem p rest hfile hscript hhdr hchain hfirst
    refine ⟨h1, ?_, chainRids_nodup rest p hchain, ?_⟩
    · have hinv : ScanInv (HeapFileScan.open e mem).2.2
          ((HeapFileScan.open e mem).2.1.startScan offset_ length_ type_ filter_ op_).2.toHeapFile
          p rest := by
        rw [startScan_toHeapFile]
        exact h2
      have hcur : ((HeapFileScan.open e mem).2.1.startScan offset_ length_ type_ filter_
          op_).2.curRec = NULLRID := by
        have := congrArg HeapFile.curRec
          (startScan_toHeapFile (HeapFileScan.open e mem).2.1 offset_ length_ type_ filter_ op_)
        exact this.trans h3
      have hR : ridsFrom (HeapFileScan.open e mem).2.2.pages p rest
          ((HeapFileScan.open e mem).2.1.startScan offset_ length_ type_ filter_
            op_).2.curRec.slotNo = chainRids e.pages (p :: rest) := by
        obtain ⟨pg, hpg, _, _⟩ := isChain_head hchain
        rw [hcur, h5.1]
        simp only [ridsFrom, chainRids, hpg, rids_eq_ridsAfter, NULLRID]
      have hm : ((HeapFileScan.open e mem).2.1.startScan offset_ length_ type_ filter_
          op_).2.matches (HeapFileScan.open e mem).2.2 =
          ((HeapFileScan.open e mem).2.1.startScan offset_ length_ type_ filter_
            op_).2.matches e := by
        funext x
        exact matches_congr h5 (samePred_refl _) x
      obtain ⟨s', e', h6⟩ := scanAll_complete k fuel _ _ p rest hinv
        (by
          rw [hR]
          exact le_trans (Nat.succ_le_succ (List.length_filter_le _ _)) hk)
        (by rw [hR]; simp at hfuel; omega)
      rw [h6, hR, hm]
      rfl
    · intro flt rid rec ho hl ht hop hflt hrec
      subst ho hl ht hop hflt
      rw [matches_of_recordAt _ _ _ _ hrec]
      have hs := startScan_accepted (HeapFileScan.open e mem).2.1 0 4 .INTEGER flt .EQ
        (by rw [hacc]; decide)
      rw [hs]
      exact matchRec_int_eq _ e rec flt rfl rfl rfl rfl rfl

theorem scan_returns_matching_witness :
    (HeapFileScan.scanAll 4 6 (HeapFileScan.open exFile exScan).2.2
        ((HeapFileScan.open exFile exScan).2.1.startScan 0 4 .INTEGER (some [7, 0, 0, 0])
          .EQ).2).map (fun r => (r.1, r.2.1)) =
      some ([⟨2, 0⟩, ⟨3, 0⟩], FILEEOF) :=
  (scan_returns_matching exFile exScan [2, 3] 0 4 .INTEGER (some [7, 0, 0, 0]) .EQ 4 6
    (by decide) (by decide) (by decide) (by decide) (by decide) (by decide) (by decide)
    (by decide)).2.1.trans (by decide)



/-! ### What `scanNext` returns in any state -/

theorem advance_sound : ∀ (n : Nat) (e : Env) (s : HeapFileScan) (res : Except Status RID)
    (s' : HeapFileScan) (e' : Env),
    HeapFileScan.advance n e s = some (res, s', e') →
    e.sameFile e' ∧ res ≠ .error OK ∧
      ∀ r, res = .ok r → ∃ pn pg, s'.curPage = some pn ∧ e'.pages pn = some pg ∧
        pg.firstRecord = .ok r
  | 0, _, _, _, _, _, h => by simp [HeapFileScan.advance] at h
  | n + 1, e, s, res, s', e', h => by
    simp only [HeapFileScan.advance] at h
    split at h
    · simp at h
    · rename_i pg hpg
      split at h
      · simp only [Option.some.injEq, Prod.mk.injEq] at h
        obtain ⟨h1, _, h3⟩ := h
        subst h1 h3
        exact ⟨sameFile_refl e, by simp, fun r hr => by simp at hr⟩
      · split at h
        · rename_i hne
          simp only [Option.some.injEq, Prod.mk.injEq] at h
          obtain ⟨h1, _, h3⟩ := h
          subst h1 h3
          exact ⟨unPinPage_sameFile e _ _, by simpa using hne, fun r hr => by simp at hr⟩
        · have hsf : e.sameFile
              (readPage (unPinPage e s.curPageNo s.curDirtyFlag).2 pg.getNextPage).2 :=
            sameFile_trans (unPinPage_sameFile e _ _) (readPage_sameFile _ _)
          split at h
          · rename_i hne
            simp only [Option.some.injEq, Prod.mk.injEq] at h
            obtain ⟨h1, _, h3⟩ := h
            subst h1 h3
            exact ⟨hsf, by simpa using hne, fun r hr => by simp at hr⟩
          · split at h
            · simp at h
            · rename_i q hq
              split at h
              · rename_i nextRid hfr
                simp only [Option.some.injEq, Prod.mk.injEq] at h
                obtain ⟨h1, h2, h3⟩ := h
                subst h1 h2 h3
                refine ⟨hsf, by simp, fun r hr => ?_⟩
                injection hr with hr
                subst hr
                exact ⟨_, q, rfl, hq, hfr⟩
              · obtain ⟨i1, i2, i3⟩ := advance_sound n _ _ _ _ _ h
                exact ⟨sameFile_trans hsf i1, i2, i3⟩

theorem option_cases {α : Type} (o : Option α) : o = none ∨ ∃ x, o = some x := by
  cases o with
  | none => exact Or.inl rfl
  | some x => exact Or.inr ⟨x, rfl⟩

theorem nextRecord_pageNo (pg : Page) (cur r : RID) (h : pg.nextRecord cur = .ok r) :
    r.pageNo = pg.curPage := by
  unfold Page.nextRecord at h
  split at h
  · injection h with h
    rw [← h]
  · simp at h

theorem firstRecord_pageNo (pg : Page) (r : RID) (h : pg.firstRecord = .ok r) :
    r.pageNo = pg.curPage := by
  unfold Page.firstRecord at h
  split at h
  · injection h with h
    rw [← h]
  · simp at h

theorem getRecord_ok (pg : Page) (r : RID) (rec : Record) (h : pg.getRecord r = .ok rec) :
    pg.recAt r.slotNo = some rec := by
  unfold Page.getRecord at h
  split at h
  · rename_i r1 h1
    injection h with h
    rw [h1, h]
  · simp at h

theorem scanLoop_sound : ∀ (n : Nat) (e : Env) (s : HeapFileScan) (tmp out : RID)
    (st : Status) (r : RID) (s' : HeapFileScan) (e' : Env),
    HeapFileScan.scanLoop n e s tmp out = some (st, r, s', e') →
    e.sameFile e' ∧
      (st = OK → s'.curRec = r ∧ ∃ pn pg rec, s'.curPage = some pn ∧
        e'.pages pn = some pg ∧ pg.recAt r.slotNo = some rec ∧ r.pageNo = pg.curPage)
  | 0, _, _, _, _, _, _, _, _, h => by simp [HeapFileScan.scanLoop] at h
  | n + 1, e, s, tmp, out, st, r, s', e', h => by
    have body : ∀ (s1 : HeapFileScan) (e1 : Env) (nextRid : RID), e.sameFile e1 →
        (∀ pn pg, s1.curPage = some pn → e1.pages pn = some pg → nextRid.pageNo = pg.curPage) →
        (match e1.deref s1.curPage with
          | none => none
          | some q =>
            match q.getRecord nextRid with
            | .error st => some (st, out, s1, e1)
            | .ok rec =>
              if s1.matchRec e1 rec then some (OK, nextRid, { s1 with curRec := nextRid }, e1)
              else HeapFileScan.scanLoop n e1 s1 nextRid out) = some (st, r, s', e') →
        e.sameFile e' ∧
          (st = OK → s'.curRec = r ∧ ∃ pn pg rec, s'.curPage = some pn ∧
            e'.pages pn = some pg ∧ pg.recAt r.slotNo = some rec ∧ r.pageNo = pg.curPage) := by
      intro s1 e1 nextRid hsf hpn hb
      rcases option_cases s1.curPage with hp | ⟨pn, hp⟩
      · simp [hp, Env.deref] at hb
      · simp only [hp, Env.deref] at hb
        rcases option_cases (e1.pages pn) with hq | ⟨q, hq⟩
        · simp [hq] at hb
        ·
          simp only [hq] at hb
          cases hg : q.getRecord nextRid with
          | error st1 =>
            simp only [hg, Option.some.injEq, Prod.mk.injEq] at hb
            obtain ⟨h1, _, _, h4⟩ := hb
            subst h4
            refine ⟨hsf, fun hok => ?_⟩
            rw [← h1] at hok
            unfold Page.getRecord at hg
            split at hg
            · simp at hg
            · injection hg with hg
              rw [← hg] at hok
              simp at hok
          | ok rec =>
            simp only [hg] at hb
            split at hb
            · simp only [Option.some.injEq, Prod.mk.injEq] at hb
              obtain ⟨_, h2, h3, h4⟩ := hb
              subst h2 h3 h4
              exact ⟨hsf, fun _ => ⟨rfl, pn, q, rec, rfl, hq, getRecord_ok q _ rec hg,
                hpn pn q hp hq⟩⟩
            · obtain ⟨i1, i2⟩ := scanLoop_sound n e1 s1 nextRid out st r s' e' hb
              exact ⟨sameFile_trans hsf i1, i2⟩
    simp only [HeapFileScan.scanLoop] at h
    rcases option_cases s.curPage with hp | ⟨pn, hp⟩
    · simp [hp, Env.deref] at h
    · simp only [hp, Env.deref] at h
      rcases option_cases (e.pages pn) with hq | ⟨pg, hq⟩
      · simp [hq] at h
      ·
        simp only [hq] at h
        cases hnr : pg.nextRecord tmp with
        | ok nextRid =>
          simp only [hnr] at h
          apply body s e nextRid (sameFile_refl e)
          · intro pn1 pg1 h1 h2
            rw [hp] at h1
            injection h1 with h1
            subst h1
            rw [hq] at h2
            injection h2 with h2
            subst h2
            exact nextRecord_pageNo _ _ _ hnr
          · simpa only [hp, Env.deref, hq] using h
        | error st1 =>
          simp only [hnr] at h
          cases ha : HeapFileScan.advance n e s with
          | none => simp [ha] at h
          | some x =>
            obtain ⟨res, s1, e1⟩ := x
            obtain ⟨a1, a3, a2⟩ := advance_sound n e s res s1 e1 ha
            cases res with
            | error st2 =>
              simp only [ha, Option.some.injEq, Prod.mk.injEq] at h
              obtain ⟨h1, _, _, h4⟩ := h
              subst h4
              refine ⟨a1, fun hok => ?_⟩
              rw [h1, hok] at a3
              exact absurd rfl a3
            | ok nextRid =>
              simp only [ha] at h
              obtain ⟨pn2, pg2, b1, b2, b3⟩ := a2 nextRid rfl
              apply body s1 e1 nextRid a1
              · intro pn1 pg1 h1 h2
                rw [b1] at h1
                injection h1 with h1
                subst h1
                rw [b2] at h2
                injection h2 with h2
                subst h2
                exact firstRecord_pageNo _ _ b3
              · exact h


theorem scanNext_sound (fuel : Nat) (e : Env) (s : HeapFileScan) (out : RID)
    (st : Status) (r : RID) (s' : HeapFileScan) (e' : Env)
    (h : HeapFileScan.scanNext fuel e s out = some (st, r, s', e')) :
    e.sameFile e' ∧
      (st = OK → s'.curRec = r ∧ ∃ pn pg rec, s'.curPage = some pn ∧
        e'.pages pn = some pg ∧ pg.recAt r.slotNo = some rec ∧ r.pageNo = pg.curPage) := by
  unfold HeapFileScan.scanNext at h
  split at h
  · simp only [Option.some.injEq, Prod.mk.injEq] at h
    obtain ⟨h1, _, _, h4⟩ := h
    subst h4
    exact ⟨sameFile_refl e, fun hok => by rw [← h1] at hok; simp at hok⟩
  · split at h
    · have hsf := readPage_sameFile e s.curPageNo
      generalize readPage e s.curPageNo = x at h hsf
      obtain ⟨st1, e1⟩ := x
      simp only [] at h
      split at h
      · rename_i hne
        simp only [Option.some.injEq, Prod.mk.injEq] at h
        obtain ⟨h1, _, _, h4⟩ := h
        subst h4
        exact ⟨hsf, fun hok => by rw [← h1] at hok; exact absurd hok hne⟩
      · obtain ⟨i1, i2⟩ := scanLoop_sound fuel _ _ _ _ _ _ _ _ h
        exact ⟨sameFile_trans hsf i1, i2⟩
    · exact scanLoop_sound fuel _ _ _ _ _ _ _ _ h

/-! ### Deleting the record under the cursor -/

theorem isChain_mem {pages : Int → Option Page} {last : Int} {ps : List Int} {p : Int}
    (h : isChain pages last ps = true) (hp : p ∈ ps) :
    ∃ pg, pages p = some pg ∧ pg.curPage = p := by
  obtain ⟨a, b, hab⟩ := List.append_of_mem hp
  rw [hab] at h
  obtain ⟨pg, h1, h2, _⟩ := isChain_head (isChain_suffix a p b h)
  exact ⟨pg, h1, h2⟩

theorem recAt_set_none (pg : Page) (i : Int) :
    ({ pg with slot := pg.slot.set i.toNat none } : Page).recAt i = none := by
  unfold Page.recAt
  split
  · rfl
  · simp only [List.getD_eq_getElem?_getD, List.getElem?_set]
    split
    · split <;> rfl
    · rename_i h
      exact absurd trivial h

theorem deleteRecord_live (e : Env) (s : HeapFileScan) (pn : Int) (pg : Page) (rec : Record)
    (hp : s.curPage = some pn) (hpg : e.pages pn = some pg)
    (hrec : pg.recAt s.curRec.slotNo = some rec) :
    HeapFileScan.deleteRecord e s =
      some (OK, { s with curDirtyFlag := true, hdrDirtyFlag := true },
        { e.setPage pn { pg with slot := pg.slot.set s.curRec.slotNo.toNat none } with
          hdr := { e.hdr with recCnt := e.hdr.recCnt - 1 } }) := by
  unfold HeapFileScan.deleteRecord
  simp only [hp, Env.deref, hpg, Page.deleteRecord, hrec]
  rfl


theorem scanAll_fresh (e : Env) (mem s : HeapFileScan) (p : Int) (rest : List Int)
    (k fuel : Nat) (hs : s.toHeapFile = (HeapFileScan.open e mem).2.1.toHeapFile)
    (hfile : e.fileExists = true) (hscript : e.script = [])
    (hhdr : (e.pages e.firstPageNo).isSome = true)
    (hchain : isChain e.pages e.hdr.lastPage (p :: rest) = true)
    (hfirst : p = e.hdr.firstPage)
    (hk : (chainRids e.pages (p :: rest)).length + 1 ≤ k)
    (hfuel : (chainRids e.pages (p :: rest)).length + rest.length + 2 ≤ fuel) :
    (HeapFileScan.scanAll k fuel (HeapFileScan.open e mem).2.2 s).map (fun r => (r.1, r.2.1)) =
      some ((chainRids e.pages (p :: rest)).filter (s.matches e), FILEEOF) := by
  have hopen := open_scanInv e mem p rest hfile hscript hhdr hchain hfirst
  have hinv : ScanInv (HeapFileScan.open e mem).2.2 s.toHeapFile p rest := by
    rw [hs]
    exact hopen.2.1
  have hcur : s.curRec = NULLRID := (congrArg HeapFile.curRec hs).trans hopen.2.2.1
  have hsf := hopen.2.2.2.2
  have hR : ridsFrom (HeapFileScan.open e mem).2.2.pages p rest s.curRec.slotNo =
      chainRids e.pages (p :: rest) := by
    obtain ⟨pg, hpg, _, _⟩ := isChain_head hchain
    rw [hcur, hsf.1]
    simp only [ridsFrom, chainRids, hpg, rids_eq_ridsAfter, NULLRID]
  have hm : s.matches (HeapFileScan.open e mem).2.2 = s.matches e :=
    funext (fun x => matches_congr hsf (samePred_refl s) x)
  obtain ⟨s', e', h6⟩ := scanAll_complete k fuel _ s p rest hinv
    (by rw [hR]; exact le_trans (Nat.succ_le_succ (List.length_filter_le _ _)) hk)
    (by rw [hR]; exact hfuel)
  rw [h6, hR, hm]
  rfl

theorem filter_matches_unfiltered (s : HeapFileScan) (e : Env) (ps : List Int)
    (hf : s.filter = none) (hchain : isChain e.pages e.hdr.lastPage ps = true) :
    (chainRids e.pages ps).filter (s.matches e) = chainRids e.pages ps := by
  cases ps with
  | nil => rfl
  | cons p rest =>
    rw [List.filter_eq_self]
    intro rid hrid
    obtain ⟨_, rec, hrec⟩ := mem_chainRids rest p hchain hrid
    rw [matches_of_recordAt s e rid rec hrec]
    unfold HeapFileScan.matchRec
    rw [hf]

theorem open_filter_none (e : Env) (mem : HeapFileScan) :
    (HeapFileScan.open e mem).2.1.filter = none := by
  unfold HeapFileScan.open
  rfl

/-- C6: after a `scanNext` that returned `OK` with `r`, `deleteRecord` returns `OK`, lowers
the record count by one, sets both dirty flags and leaves the cursor (`curPage`,
`curPageNo`, `curRec = r`) where it was; and when the data pages `ps` form the chain of the
file and the cursor stands on one of them, a fresh unfiltered scan of the file returns all
records of the chain, then `FILEEOF`, and `r` is not among them. -/
theorem deleteRecord_after_scanNext (fuel : Nat) (e : Env) (s : HeapFileScan) (out r : RID)
    (s1 : HeapFileScan) (e1 : Env)
    (hscan : HeapFileScan.scanNext fuel e s out = some (OK, r, s1, e1)) :
    ∃ s2 e2, HeapFileScan.deleteRecord e1 s1 = some (OK, s2, e2) ∧
      HeapFile.getRecCnt e2 s2.toHeapFile = HeapFile.getRecCnt e1 s1.toHeapFile - 1 ∧
      s2.curDirtyFlag = true ∧ s2.hdrDirtyFlag = true ∧
      s2.curPage = s1.curPage ∧ s2.curPageNo = s1.curPageNo ∧ s2.curRec = s1.curRec ∧
      s1.curRec = r ∧
      ∀ (ps : List Int) (mem : HeapFileScan) (k fuel2 : Nat),
        e2.fileExists = true → e2.script = [] → (e2.pages e2.firstPageNo).isSome = true →
        isChain e2.pages e2.hdr.lastPage ps = true → ps.head? = some e2.hdr.firstPage →
        (∃ pn, pn ∈ ps ∧ s1.curPage = some pn) →
        (chainRids e2.pages ps).length + 1 ≤ k →
        (chainRids e2.pages ps).length + ps.length + 1 ≤ fuel2 →
        (HeapFileScan.scanAll k fuel2 (HeapFileScan.open e2 mem).2.2
            (HeapFileScan.open e2 mem).2.1).map (fun x => (x.1, x.2.1)) =
          some (chainRids e2.pages ps, FILEEOF) ∧
        r ∉ chainRids e2.pages ps := by
  obtain ⟨_, hok⟩ := scanNext_sound fuel e s out OK r s1 e1 hscan
  obtain ⟨hcur, pn, pg, rec, hp, hpg, hrec, hpno⟩ := hok rfl
  rw [← hcur] at hrec
  obtain ⟨s2, e2, hdel, hs2, hcnt, hpage⟩ : ∃ s2 e2,
      HeapFileScan.deleteRecord e1 s1 = some (OK, s2, e2) ∧
      s2 = { s1 with curDirtyFlag := true, hdrDirtyFlag := true } ∧
      e2.hdr.recCnt = e1.hdr.recCnt - 1 ∧
      e2.pages pn = some { pg with slot := pg.slot.set s1.curRec.slotNo.toNat none } :=
    ⟨_, _, deleteRecord_live e1 s1 pn pg rec hp hpg hrec, rfl, rfl, by simp [Env.setPage]⟩
  refine ⟨s2, e2, hdel, hcnt, by rw [hs2], by rw [hs2], by rw [hs2], by rw [hs2], by rw [hs2],
    hcur, ?_⟩
  intro ps mem k fuel2 hfile hscript hhdr hchain hfirst hcurs hk hfuel
  cases ps with
  | nil => simp [isChain] at hchain
  | cons p rest =>
    simp only [List.head?_cons, Option.some.injEq] at hfirst
    constructor
    · rw [scanAll_fresh e2 mem _ p rest k fuel2 rfl hfile hscript hhdr hchain hfirst hk
        (by simp only [List.length_cons] at hfuel; omega)]
      rw [filter_matches_unfiltered _ _ _ (open_filter_none _ mem) hchain]
    · intro hmem
      obtain ⟨_, rec2, hrec2⟩ := mem_chainRids rest p hchain hmem
      obtain ⟨pn2, hpn2, hp2⟩ := hcurs
      rw [hp] at hp2
      injection hp2 with hp2
      subst hp2
      obtain ⟨pg2, hpg2, hcur2⟩ := isChain_mem hchain hpn2
      rw [hpage] at hpg2
      injection hpg2 with hpg2
      have hpn : r.pageNo = pn := by
        rw [hpno, ← hcur2, ← hpg2]
      unfold recordAt at hrec2
      rw [hpn, hpage] at hrec2
      simp only [] at hrec2
      rw [← hcur, recAt_set_none] at hrec2
      simp at hrec2

theorem deleteRecord_after_scanNext_witness :
    ∃ s2 e2,
      HeapFileScan.deleteRecord (HeapFileScan.open exFile exScan).2.2
        { (HeapFileScan.open exFile exScan).2.1 with curRec := ⟨2, 0⟩ } = some (OK, s2, e2) ∧
      HeapFile.getRecCnt e2 s2.toHeapFile = 2 ∧ s2.curRec = ⟨2, 0⟩ := by
  obtain ⟨s2, e2, h1, h2, _, _, _, _, h3, _⟩ :=
    deleteRecord_after_scanNext 6 (HeapFileScan.open exFile exScan).2.2
      (HeapFileScan.open exFile exScan).2.1 NULLRID ⟨2, 0⟩
      { (HeapFileScan.open exFile exScan).2.1 with curRec := ⟨2, 0⟩ }
      (HeapFileScan.open exFile exScan).2.2 rfl
  exact ⟨s2, e2, h1, h2, h3⟩


/-! ### `insertRecord`, case by case -/

theorem allocPage_fail (e : Env) (h : (allocPage e).1 ≠ OK) : e.sameFile (allocPage e).2.2 := by
  have hp := pop_sameFile e
  unfold allocPage at h ⊢
  simp only [] at h ⊢
  split
  · exact hp
  · rename_i hne
    rw [if_neg hne] at h
    exact absurd rfl h

theorem allocPage_ok (e : Env) (h : (allocPage e).1 = OK) :
    (allocPage e).2.1 = e.nextPageNo ∧
    (allocPage e).2.2.pages = Function.update e.pages e.nextPageNo (some ⟨[], 0, 0⟩) ∧
    (allocPage e).2.2.hdr = e.hdr ∧ (allocPage e).2.2.fsub = e.fsub ∧
    (allocPage e).2.2.nextPageNo = e.nextPageNo + 1 ∧
    (allocPage e).2.2.fileExists = e.fileExists ∧
    (allocPage e).2.2.firstPageNo =
      (if e.firstPageNo = -1 then e.nextPageNo else e.firstPageNo) ∧
    (allocPage e).2.2.script = e.script.tail ∧
    (allocPage e).2.2.pinCnt e.nextPageNo ≠ 0 := by
  obtain ⟨p1, p2, p3, p4, p5, p6⟩ := pop_sameFile e
  have hs : e.pop.2.script = e.script.tail := by
    unfold Env.pop
    split <;> simp [*]
  unfold allocPage at h ⊢
  simp only [] at h ⊢
  split
  · rename_i hne
    rw [if_pos hne] at h
    exact absurd h hne
  · refine ⟨p4, by rw [p1, p4], p2, p3, by rw [p4], p5, by rw [p6, p4], hs, ?_⟩
    show Function.update e.pop.2.pinCnt e.pop.2.nextPageNo
      (e.pop.2.pinCnt e.pop.2.nextPageNo + 1) e.nextPageNo ≠ 0
    rw [p4, Function.update_same]
    omega

theorem init_insertRecord (n : Int) (rec : Record)
    (hlen : rec.length ≤ (PAGESIZE : Int) - (DPFIXED : Int)) :
    (Page.init n).insertRecord rec = .ok (⟨n, 0⟩, ⟨[some rec], -1, n⟩) := by
  unfold Record.length at hlen
  unfold Page.insertRecord Page.init Page.used
  simp only [List.map_nil, List.sum_nil, Nat.zero_add]
  rw [if_neg]
  · rfl
  · have : (DPFIXED : Int) ≤ PAGESIZE := by decide
    omega

theorem pop_script (e : Env) : e.pop.2.script = e.script.tail := by
  unfold Env.pop
  split <;> simp [*]

theorem pop_pinCnt (e : Env) : e.pop.2.pinCnt = e.pinCnt := by
  unfold Env.pop
  split <;> rfl

theorem unPinPage_script (e : Env) (q : Int) (d : Bool) :
    (unPinPage e q d).2.script = e.script.tail := by
  have h := pop_script e
  unfold unPinPage
  simp only []
  split
  · exact h
  · split <;> exact h

theorem readPage_script (e : Env) (q : Int) : (readPage e q).2.script = e.script.tail := by
  have h := pop_script e
  unfold readPage
  simp only []
  split
  · exact h
  · split <;> exact h

theorem unPinPage_pinCnt_other (e : Env) (q x : Int) (d : Bool) (hx : x ≠ q) :
    (unPinPage e q d).2.pinCnt x = e.pinCnt x := by
  have h := pop_pinCnt e
  unfold unPinPage
  simp only []
  split
  · simp only [h]
  · split
    · simp only [h]
    · simp only [h, Function.update_noteq hx]

theorem not_oversize (rec : Record) (hlen : rec.length ≤ (PAGESIZE : Int) - (DPFIXED : Int)) :
    ¬ toUnsigned rec.length > (PAGESIZE : Int) - (DPFIXED : Int) := by
  rw [toUnsigned_length]
  omega

theorem insertRecord_fits (e : Env) (h : InsertFileScan) (rec : Record) (out : RID)
    (pn : Int) (pg pg1 : Page) (rid : RID)
    (hlen : rec.length ≤ (PAGESIZE : Int) - (DPFIXED : Int))
    (hcur : h.curPage = some pn) (hpg : e.pages pn = some pg)
    (hins : pg.insertRecord rec = .ok (rid, pg1)) :
    InsertFileScan.insertRecord e h rec out =
      some (OK, rid, { h with curDirtyFlag := true, hdrDirtyFlag := true },
        { e.setPage pn pg1 with hdr := { e.hdr with recCnt := e.hdr.recCnt + 1 } }) := by
  unfold InsertFileScan.insertRecord
  rw [if_neg (not_oversize rec hlen)]
  simp only [hcur, reduceCtorEq, if_false, Env.deref, hpg, hins]
  rfl

theorem insertRecord_allocFail (e : Env) (h : InsertFileScan) (rec : Record) (out : RID)
    (pn : Int) (pg : Page) (st : Status)
    (hlen : rec.length ≤ (PAGESIZE : Int) - (DPFIXED : Int))
    (hcur : h.curPage = some pn) (hpg : e.pages pn = some pg)
    (hins : pg.insertRecord rec = .error st) (halloc : (allocPage e).1 ≠ OK) :
    InsertFileScan.insertRecord e h rec out =
      some ((allocPage e).1, out, h, (allocPage e).2.2) := by
  unfold InsertFileScan.insertRecord
  rw [if_neg (not_oversize rec hlen)]
  simp only [hcur, reduceCtorEq, if_false, Env.deref, hpg, hins]
  rw [if_pos halloc]

theorem insertRecord_grow (e : Env) (h : InsertFileScan) (rec : Record) (out : RID)
    (pn : Int) (pg : Page) (st : Status)
    (hlen : rec.length ≤ (PAGESIZE : Int) - (DPFIXED : Int))
    (hcur : h.curPage = some pn) (hpg : e.pages pn = some pg)
    (hins : pg.insertRecord rec = .error st) (halloc : (allocPage e).1 = OK) :
    ∃ e', InsertFileScan.insertRecord e h rec out =
        some (OK, ⟨e.nextPageNo, 0⟩,
          { h with curPage := some e.nextPageNo, curPageNo := e.nextPageNo,
                   curDirtyFlag := true, hdrDirtyFlag := true }, e') ∧
      e'.hdr = { e.hdr with pageCnt := e.hdr.pageCnt + 1, lastPage := e.nextPageNo,
                            recCnt := e.hdr.recCnt + 1 } ∧
      e'.pages = Function.update
        (Function.update e.pages pn (some (pg.setNextPage e.nextPageNo)))
        e.nextPageNo (some ⟨[some rec], -1, e.nextPageNo⟩) ∧
      e'.nextPageNo = e.nextPageNo + 1 ∧ e'.fileExists = e.fileExists ∧ e'.fsub = e.fsub ∧
      e'.firstPageNo = (if e.firstPageNo = -1 then e.nextPageNo else e.firstPageNo) ∧
      e'.script = e.script.tail.tail ∧
      (h.curPageNo ≠ e.nextPageNo → e'.pinCnt e.nextPageNo ≠ 0) := by
  obtain ⟨a1, a2, a3, a4, a5, a6, a7, a8, a9⟩ := allocPage_ok e halloc
  have hinit := init_insertRecord e.nextPageNo rec hlen
  unfold InsertFileScan.insertRecord
  rw [if_neg (not_oversize rec hlen)]
  simp only [hcur, reduceCtorEq, if_false, Env.deref, hpg, hins]
  rw [if_neg (by rw [halloc]; simp)]
  simp only [a1, hinit]
  refine ⟨_, rfl, ?_, ?_, ?_, ?_, ?_, ?_, ?_, ?_⟩
  · simp only [Env.setPage]
    rw [(unPinPage_sameFile _ _ _).2.1]
    simp only [a3]
  · simp only [Env.setPage]
    rw [(unPinPage_sameFile _ _ _).1]
    simp only [a2]
    funext x
    by_cases hx : x = e.nextPageNo
    · subst hx
      simp [Function.update]
    · by_cases hx2 : x = pn
      · subst hx2
        simp [Function.update, hx]
      · simp [Function.update, hx, hx2]
  · simp only [Env.setPage]
    rw [(unPinPage_sameFile _ _ _).2.2.2.1]
    simp only [a5]
  · simp only [Env.setPage]
    rw [(unPinPage_sameFile _ _ _).2.2.2.2.1]
    simp only [a6]
  · simp only [Env.setPage]
    rw [(unPinPage_sameFile _ _ _).2.2.1]
    simp only [a4]
  · simp only [Env.setPage]
    rw [(unPinPage_sameFile _ _ _).2.2.2.2.2]
    simp only [a7]
  · simp only [Env.setPage]
    rw [unPinPage_script]
    simp only [a8]
  · intro hne
    simp only [Env.setPage]
    rw [unPinPage_pinCnt_other _ _ _ _ (Ne.symm hne)]
    exact a9


/-! ### `HeapFile::getRecord` finds a stored record -/

theorem getRecord_of_recordAt (e : Env) (h : HeapFile) (rid : RID) (rec junk : Record)
    (hrec : recordAt e.pages rid = some rec) (hscript : e.script = [])
    (hcur : h.curPage = some h.curPageNo) (hpin : e.pinCnt h.curPageNo ≠ 0) :
    ∃ h' e', HeapFile.getRecord e h rid junk = some (OK, rec, h', e') ∧ e.sameFile e' := by
  unfold recordAt at hrec
  rcases option_cases (e.pages rid.pageNo) with hpg | ⟨pg, hpg⟩
  · rw [hpg] at hrec
    simp at hrec
  · rw [hpg] at hrec
    simp only [] at hrec
    have hget : pg.getRecord rid = .ok rec := by
      unfold Page.getRecord
      rw [hrec]
    unfold HeapFile.getRecord
    by_cases hc : h.curPageNo = rid.pageNo
    · rw [if_pos ⟨by rw [hcur]; simp, hc⟩]
      simp only [hcur, Env.deref, hc, hpg, hget]
      exact ⟨_, _, rfl, sameFile_refl e⟩
    · rw [if_neg (fun hx => hc hx.2)]
      have hun := unPinPage_ok e h.curPageNo h.curDirtyFlag hscript hpin
      have hrd := readPage_ok
        { e with pinCnt := Function.update e.pinCnt h.curPageNo (e.pinCnt h.curPageNo - 1),
                 calls := e.calls ++ [.unPinPage h.curPageNo h.curDirtyFlag OK] } rid.pageNo
        hscript (by simp [hpg])
      simp only [hun, ne_eq, not_true_eq_false, if_false, hrd, Env.deref, hpg, hget]
      exact ⟨_, _, rfl, ⟨rfl, rfl, rfl, rfl, rfl, rfl⟩⟩

/-! ### `insertRecord` grows the chain -/

/-- The chain-growth path of `insertRecord`: when the record is not oversize, the page
`curPage` points to rejects it and `allocPage` succeeds with a page number not yet in use,
`insertRecord` returns `OK` with an address on the new page, the header's `pageCnt` is one
higher, the header's `lastPage` and the cursor are the new page, the old page links to the
new page, the record is stored at the returned address and every record stored before is
still stored at its address; when moreover `curPageNo` named the page `curPage` pointed to,
`getRecord` returns the earlier records. -/
theorem insertRecord_grows_chain (e : Env) (h : InsertFileScan) (rec : Record) (out : RID)
    (pn : Int) (pg : Page) (st : Status)
    (hlen : rec.length ≤ (PAGESIZE : Int) - (DPFIXED : Int))
    (hcur : h.curPage = some pn) (hpg : e.pages pn = some pg)
    (hrej : pg.insertRecord rec = .error st) (halloc : (allocPage e).1 = OK)
    (hfresh : e.pages e.nextPageNo = none) :
    ∃ rid h' e', InsertFileScan.insertRecord e h rec out = some (OK, rid, h', e') ∧
      e'.hdr.pageCnt = e.hdr.pageCnt + 1 ∧
      rid.pageNo = (allocPage e).2.1 ∧ e'.hdr.lastPage = rid.pageNo ∧
      h'.curPageNo = rid.pageNo ∧ h'.curPage = some rid.pageNo ∧
      (e'.pages pn).map Page.getNextPage = some rid.pageNo ∧
      recordAt e'.pages rid = some rec ∧
      e'.hdr.recCnt = e.hdr.recCnt + 1 ∧
      (∀ rid0 rec0, recordAt e.pages rid0 = some rec0 → recordAt e'.pages rid0 = some rec0) ∧
      (∀ (rid0 : RID) (rec0 junk : Record), recordAt e.pages rid0 = some rec0 →
        e'.script = [] → h.curPageNo = pn →
        ∃ h'' e'', HeapFile.getRecord e' h' rid0 junk = some (OK, rec0, h'', e'')) := by
  obtain ⟨e', h1, h2, h3, _, _, _, _, _, h9⟩ :=
    insertRecord_grow e h rec out pn pg st hlen hcur hpg hrej halloc
  have hne : pn ≠ e.nextPageNo := by
    intro hx
    rw [hx, hfresh] at hpg
    simp at hpg
  have hold : ∀ rid0 rec0, recordAt e.pages rid0 = some rec0 →
      recordAt e'.pages rid0 = some rec0 := by
    intro rid0 rec0 hr
    unfold recordAt at hr ⊢
    rw [h3]
    by_cases hx : rid0.pageNo = e.nextPageNo
    · rw [hx, hfresh] at hr
      simp at hr
    · rw [Function.update_noteq hx]
      by_cases hx2 : rid0.pageNo = pn
      · rw [hx2, Function.update_same]
        rw [hx2, hpg] at hr
        exact hr
      · rw [Function.update_noteq hx2]
        exact hr
  refine ⟨_, _, e', h1, ?_, (allocPage_ok e halloc).1.symm, ?_, rfl, rfl, ?_, ?_, ?_, hold, ?_⟩
  · rw [h2]
  · rw [h2]
  · rw [h3, Function.update_noteq hne, Function.update_same]
    rfl
  · unfold recordAt
    rw [h3]
    simp only [Function.update_same]
    rfl
  · rw [h2]
  · intro rid0 rec0 junk hr hs hno
    obtain ⟨h'', e'', hg, _⟩ := getRecord_of_recordAt e'
      { h with curPage := some e.nextPageNo, curPageNo := e.nextPageNo,
               curDirtyFlag := true, hdrDirtyFlag := true }
      rid0 rec0 junk (hold rid0 rec0 hr) hs rfl (h9 (by rw [hno]; exact hne))
    exact ⟨h'', e'', hg⟩

theorem recLong_length : recLong.data.length = 1001 := by
  unfold recLong
  simp only [List.length_replicate]

theorem used_singleton (r : Record) (n c : Int) :
    (⟨[some r], n, c⟩ : Page).used = r.data.length := by
  unfold Page.used
  simp

theorem recLong_insert_rejected :
    (⟨[some recLong], -1, 2⟩ : Page).insertRecord recSeven = .error NOSPACE := by
  have h2 : recSeven.data.length = 4 := rfl
  unfold Page.insertRecord
  rw [used_singleton, recLong_length, h2, if_pos (by decide)]

theorem insertRecord_grows_chain_witness :
    ∃ rid h' e', InsertFileScan.insertRecord exFull exIns recSeven NULLRID =
        some (OK, rid, h', e') ∧
      e'.hdr.pageCnt = exFull.hdr.pageCnt + 1 ∧ rid.pageNo = (allocPage exFull).2.1 ∧
      e'.hdr.lastPage = rid.pageNo := by
  obtain ⟨rid, h', e', h1, h2, h3, h4, _⟩ :=
    insertRecord_grows_chain exFull exIns recSeven NULLRID 2 ⟨[some recLong], -1, 2⟩ NOSPACE
      (by decide) rfl rfl recLong_insert_rejected rfl rfl
  exact ⟨rid, h', e', h1, h2, h3, h4⟩



/-! ### Slots of a page under insertion and deletion -/

theorem firstFree_le (l : List (Option Record)) : firstFree l ≤ l.length := by
  induction l with
  | nil => simp [firstFree]
  | cons a l ih =>
    cases a with
    | none => simp [firstFree]
    | some x => simp [firstFree, ih]

theorem firstFree_getD (l : List (Option Record)) : l.getD (firstFree l) none = none := by
  induction l with
  | nil => simp [firstFree]
  | cons a l ih =>
    cases a with
    | none => simp [firstFree]
    | some x => simpa [firstFree] using ih

theorem putSlot_getD_same (l : List (Option Record)) (r : Record) :
    (putSlot l (firstFree l) r).getD (firstFree l) none = some r := by
  induction l with
  | nil => simp [firstFree, putSlot]
  | cons a l ih =>
    cases a with
    | none => simp [firstFree, putSlot]
    | some x => simpa [firstFree, putSlot] using ih

theorem putSlot_getD_other (l : List (Option Record)) (r : Record) (i : Nat)
    (hi : i ≠ firstFree l) :
    (putSlot l (firstFree l) r).getD i none = l.getD i none := by
  induction l generalizing i with
  | nil =>
    simp only [firstFree] at hi
    cases i with
    | zero => exact absurd rfl hi
    | succ j => simp [firstFree, putSlot]
  | cons a l ih =>
    cases a with
    | none =>
      simp only [firstFree] at hi
      cases i with
      | zero => exact absurd rfl hi
      | succ j => simp [firstFree, putSlot]
    | some x =>
      cases i with
      | zero => simp [firstFree, putSlot]
      | succ j =>
        simp only [firstFree, ne_eq, add_left_inj] at hi
        simpa [firstFree, putSlot] using ih j hi

theorem insertRecord_recAt (pg pg1 : Page) (rec : Record) (rid : RID)
    (h : pg.insertRecord rec = .ok (rid, pg1)) :
    rid.pageNo = pg.curPage ∧ pg1.recAt rid.slotNo = some rec ∧
      pg1.curPage = pg.curPage ∧ pg1.nextPage = pg.nextPage ∧
      ∀ i x, pg.recAt i = some x → pg1.recAt i = some x := by
  unfold Page.insertRecord at h
  split at h
  · simp at h
  · simp only [Except.ok.injEq, Prod.mk.injEq] at h
    obtain ⟨h1, h2⟩ := h
    subst h1 h2
    refine ⟨rfl, ?_, rfl, rfl, ?_⟩
    · unfold Page.recAt
      rw [if_neg (by simp)]
      simp only [Int.toNat_ofNat]
      exact putSlot_getD_same pg.slot rec
    · intro i x hx
      unfold Page.recAt at hx ⊢
      split at hx
      · simp at hx
      · rename_i hi
        rw [if_neg hi]
        simp only []
        rw [putSlot_getD_other]
        · exact hx
        · intro hc
          rw [hc, firstFree_getD] at hx
          simp at hx

theorem deleteRecord_recAt (pg pg1 : Page) (d : RID) (h : pg.deleteRecord d = .ok pg1) :
    pg1.curPage = pg.curPage ∧ pg1.nextPage = pg.nextPage ∧
      ∀ i x, i ≠ d.slotNo → pg.recAt i = some x → pg1.recAt i = some x := by
  unfold Page.deleteRecord at h
  split at h
  · rename_i x0 hx0
    injection h with h
    subst h
    refine ⟨rfl, rfl, ?_⟩
    intro i x hi hx
    unfold Page.recAt at hx hx0 ⊢
    split at hx
    · simp at hx
    · rename_i hi0
      split at hx0
      · simp at hx0
      · rename_i hd0
        rw [if_neg hi0]
        simp only [List.getD_eq_getElem?_getD, List.getElem?_set] at hx ⊢
        rw [if_neg (by omega)]
        exact hx
  · simp at h


/-! ### A stored record stays where it is -/

theorem getRecord_sameFile (e : Env) (h : HeapFile) (rid : RID) (junk : Record)
    (st : Status) (rec : Record) (h' : HeapFile) (e' : Env)
    (hg : HeapFile.getRecord e h rid junk = some (st, rec, h', e')) : e.sameFile e' := by
  unfold HeapFile.getRecord at hg
  split at hg
  · split at hg
    · simp at hg
    · split at hg <;>
      · simp only [Option.some.injEq, Prod.mk.injEq] at hg
        rw [← hg.2.2.2]
        exact sameFile_refl e
  · have h1 := unPinPage_sameFile e h.curPageNo h.curDirtyFlag
    generalize unPinPage e h.curPageNo h.curDirtyFlag = x at hg h1
    obtain ⟨st1, e1⟩ := x
    simp only [] at hg h1
    split at hg
    · simp only [Option.some.injEq, Prod.mk.injEq] at hg
      rw [← hg.2.2.2]
      exact h1
    · have h2 := readPage_sameFile e1 rid.pageNo
      generalize readPage e1 rid.pageNo = y at hg h2
      obtain ⟨st2, e2⟩ := y
      simp only [] at hg h2
      split at hg
      · simp only [Option.some.injEq, Prod.mk.injEq] at hg
        rw [← hg.2.2.2]
        exact sameFile_trans h1 h2
      · split at hg
        · simp at hg
        · split at hg <;>
          · simp only [Option.some.injEq, Prod.mk.injEq] at hg
            rw [← hg.2.2.2]
            exact sameFile_trans h1 h2

theorem stored_sameFile {rid : RID} {rec : Record} {e e' : Env} (hs : Stored rid rec e)
    (hsf : e.sameFile e') : Stored rid rec e' := by
  unfold Stored at hs ⊢
  rw [hsf.1, hsf.2.2.2.1]
  exact hs

theorem deleteRecord_stored {rid : RID} {rec : Record} {e : Env} {s : HeapFileScan}
    {st : Status} {s' : HeapFileScan} {e' : Env} (hs : Stored rid rec e)
    (hd : HeapFileScan.deleteRecord e s = some (st, s', e'))
    (hne : ¬ (s.curPage = some rid.pageNo ∧ s.curRec.slotNo = rid.slotNo)) :
    Stored rid rec e' := by
  unfold HeapFileScan.deleteRecord at hd
  split at hd
  · rename_i pn pg hp hpg
    simp only [Option.some.injEq, Prod.mk.injEq] at hd
    obtain ⟨_, _, h3⟩ := hd
    rw [← h3]
    rcases hdel : pg.deleteRecord s.curRec with st1 | pg1
    · exact hs
    · obtain ⟨_, _, hkeep⟩ := deleteRecord_recAt pg pg1 s.curRec hdel
      unfold Stored at hs ⊢
      refine ⟨?_, hs.2⟩
      have hs1 := hs.1
      unfold recordAt at hs1 ⊢
      simp only [Env.setPage]
      by_cases hx : rid.pageNo = pn
      · rw [hx, Function.update_same]
        simp only []
        simp only [hp, Env.deref] at hpg
        rw [hx, hpg] at hs1
        apply hkeep _ _ _ hs1
        intro hc
        exact hne ⟨by rw [hp, hx], hc.symm⟩
      · rw [Function.update_noteq hx]
        exact hs1
  · simp at hd


theorem insertRecord_oversize_iff (rec : Record) :
    toUnsigned rec.length > (PAGESIZE : Int) - (DPFIXED : Int) ↔
      rec.length > (PAGESIZE : Int) - (DPFIXED : Int) := by
  rw [toUnsigned_length]

theorem insertRecord_null (e : Env) (h : InsertFileScan) (rec : Record) (out : RID)
    (hlen : rec.length ≤ (PAGESIZE : Int) - (DPFIXED : Int)) (hcur : h.curPage = none) :
    InsertFileScan.insertRecord e h rec out =
      if (readPage e e.hdr.lastPage).1 = OK then
        InsertFileScan.insertRecord (readPage e e.hdr.lastPage).2
          { h with curPageNo := e.hdr.lastPage, curPage := some e.hdr.lastPage } rec out
      else none := by
  by_cases hok : (readPage e e.hdr.lastPage).1 = OK
  · rw [if_pos hok]
    have hn := not_oversize rec hlen
    unfold InsertFileScan.insertRecord
    simp only [hn, hcur, if_true, hok, reduceCtorEq, if_false]
  · rw [if_neg hok]
    unfold InsertFileScan.insertRecord
    rw [if_neg (not_oversize rec hlen)]
    simp only [hcur, if_true, hok, if_false]

theorem insertRecord_stored_core {rid : RID} {rec0 : Record} {e : Env} {h : InsertFileScan}
    {rec : Record} {out : RID} {st : Status} {out' : RID} {h' : InsertFileScan} {e' : Env}
    (pn : Int) (hcur : h.curPage = some pn)
    (hlen : rec.length ≤ (PAGESIZE : Int) - (DPFIXED : Int))
    (hs : Stored rid rec0 e)
    (hstep : InsertFileScan.insertRecord e h rec out = some (st, out', h', e')) :
    Stored rid rec0 e' := by
  rcases option_cases (e.pages pn) with hpg | ⟨pg, hpg⟩
  · unfold InsertFileScan.insertRecord at hstep
    rw [if_neg (not_oversize rec hlen)] at hstep
    simp [hcur, Env.deref, hpg] at hstep
  · rcases hins : pg.insertRecord rec with st1 | ⟨rid1, pg1⟩
    · by_cases halloc : (allocPage e).1 = OK
      · obtain ⟨e2, h1, _, h3, h4, _⟩ :=
          insertRecord_grow e h rec out pn pg st1 hlen hcur hpg hins halloc
        rw [h1] at hstep
        simp only [Option.some.injEq, Prod.mk.injEq] at hstep
        rw [← hstep.2.2.2]
        unfold Stored at hs ⊢
        refine ⟨?_, by rw [h4]; omega⟩
        have hs1 := hs.1
        unfold recordAt at hs1 ⊢
        rw [h3, Function.update_noteq (by omega)]
        by_cases hx : rid.pageNo = pn
        · rw [hx, Function.update_same]
          rw [hx, hpg] at hs1
          exact hs1
        · rw [Function.update_noteq hx]
          exact hs1
      · rw [insertRecord_allocFail e h rec out pn pg st1 hlen hcur hpg hins halloc] at hstep
        simp only [Option.some.injEq, Prod.mk.injEq] at hstep
        rw [← hstep.2.2.2]
        exact stored_sameFile hs (allocPage_fail e halloc)
    · rw [insertRecord_fits e h rec out pn pg pg1 rid1 hlen hcur hpg hins] at hstep
      simp only [Option.some.injEq, Prod.mk.injEq] at hstep
      rw [← hstep.2.2.2]
      obtain ⟨_, _, _, _, hkeep⟩ := insertRecord_recAt pg pg1 rec rid1 hins
      unfold Stored at hs ⊢
      refine ⟨?_, hs.2⟩
      have hs1 := hs.1
      unfold recordAt at hs1 ⊢
      simp only [Env.setPage]
      by_cases hx : rid.pageNo = pn
      · rw [hx, Function.update_same]
        rw [hx, hpg] at hs1
        exact hkeep _ _ hs1
      · rw [Function.update_noteq hx]
        exact hs1

theorem insertRecord_stored {rid : RID} {rec0 : Record} {e : Env} {h : InsertFileScan}
    {rec : Record} {out : RID} {st : Status} {out' : RID} {h' : InsertFileScan} {e' : Env}
    (hs : Stored rid rec0 e)
    (hstep : InsertFileScan.insertRecord e h rec out = some (st, out', h', e')) :
    Stored rid rec0 e' := by
  by_cases hbig : rec.length > (PAGESIZE : Int) - (DPFIXED : Int)
  · rw [insertRecord_big e h rec out hbig] at hstep
    simp only [Option.some.injEq, Prod.mk.injEq] at hstep
    rw [← hstep.2.2.2]
    exact hs
  · have hlen : rec.length ≤ (PAGESIZE : Int) - (DPFIXED : Int) := by omega
    rcases option_cases h.curPage with hcur | ⟨pn, hcur⟩
    · rw [insertRecord_null e h rec out hlen hcur] at hstep
      split at hstep
      · exact insertRecord_stored_core e.hdr.lastPage rfl hlen
          (stored_sameFile hs (readPage_sameFile e _)) hstep
      · simp at hstep
    · exact insertRecord_stored_core pn hcur hlen hs hstep

theorem later_stored {rid : RID} {rec : Record} {e e' : Env} (hl : Later rid e e')
    (hs : Stored rid rec e) : Stored rid rec e' := by
  induction hl with
  | refl => exact hs
  | insert h rec1 out st out' h' _ hstep ih => exact insertRecord_stored ih hstep
  | delete s st s' _ hstep hne ih => exact deleteRecord_stored ih hstep hne
  | getRecord h rid0 junk st rec1 h' _ hstep ih =>
    exact stored_sameFile ih (getRecord_sameFile _ _ _ _ _ _ _ _ hstep)
  | scanNext fuel s out st out' s' _ hstep ih =>
    exact stored_sameFile ih (scanNext_sound _ _ _ _ _ _ _ _ hstep).1


/-! ### Round trip: `getRecord` returns what `insertRecord` stored -/

theorem getRecord_direct (e : Env) (h : HeapFile) (rid : RID) (rec junk : Record)
    (hcur : h.curPage = some rid.pageNo) (hno : h.curPageNo = rid.pageNo)
    (hrec : recordAt e.pages rid = some rec) :
    HeapFile.getRecord e h rid junk = some (OK, rec, h, e) := by
  unfold recordAt at hrec
  rcases option_cases (e.pages rid.pageNo) with hpg | ⟨pg, hpg⟩
  · rw [hpg] at hrec
    simp at hrec
  · rw [hpg] at hrec
    simp only [] at hrec
    have hget : pg.getRecord rid = .ok rec := by
      unfold Page.getRecord
      rw [hrec]
    unfold HeapFile.getRecord
    rw [if_pos ⟨by rw [hcur]; simp, hno⟩]
    simp only [hcur, Env.deref, hpg, hget]

theorem insertRecord_ok_stored (e : Env) (h : InsertFileScan) (rec : Record) (out rid : RID)
    (h' : InsertFileScan) (e' : Env) (pn : Int)
    (hcur : h.curPage = some pn) (hno : h.curPageNo = pn)
    (hown : ∀ pg, e.pages pn = some pg → pg.curPage = pn)
    (halloc : ∀ n, e.nextPageNo ≤ n → e.pages n = none)
    (hins : InsertFileScan.insertRecord e h rec out = some (OK, rid, h', e')) :
    Stored rid rec e' ∧ h'.curPage = some rid.pageNo ∧ h'.curPageNo = rid.pageNo := by
  by_cases hbig : rec.length > (PAGESIZE : Int) - (DPFIXED : Int)
  · rw [insertRecord_big e h rec out hbig] at hins
    simp at hins
  · have hlen : rec.length ≤ (PAGESIZE : Int) - (DPFIXED : Int) := by omega
    rcases option_cases (e.pages pn) with hpg | ⟨pg, hpg⟩
    · unfold InsertFileScan.insertRecord at hins
      rw [if_neg (not_oversize rec hlen)] at hins
      simp [hcur, Env.deref, hpg] at hins
    · have hlt : pn < e.nextPageNo := by
        by_contra hc
        rw [halloc pn (by omega)] at hpg
        simp at hpg
      rcases hi : pg.insertRecord rec with st1 | ⟨rid1, pg1⟩
      · by_cases hal : (allocPage e).1 = OK
        · obtain ⟨e2, h1, _, h3, h4, _⟩ :=
            insertRecord_grow e h rec out pn pg st1 hlen hcur hpg hi hal
          rw [h1] at hins
          simp only [Option.some.injEq, Prod.mk.injEq, true_and] at hins
          obtain ⟨i1, i2, i3⟩ := hins
          subst i1 i2 i3
          refine ⟨⟨?_, by rw [h4]; simp⟩, rfl, rfl⟩
          unfold recordAt
          rw [h3]
          simp only [Function.update_same]
          rfl
        · rw [insertRecord_allocFail e h rec out pn pg st1 hlen hcur hpg hi hal] at hins
          simp only [Option.some.injEq, Prod.mk.injEq] at hins
          exact absurd hins.1 hal
      · rw [insertRecord_fits e h rec out pn pg pg1 rid1 hlen hcur hpg hi] at hins
        simp only [Option.some.injEq, Prod.mk.injEq, true_and] at hins
        obtain ⟨i1, i2, i3⟩ := hins
        subst i1 i2 i3
        obtain ⟨j1, j2, _⟩ := insertRecord_recAt pg pg1 rec rid1 hi
        have hp : rid1.pageNo = pn := j1.trans (hown pg hpg)
        refine ⟨⟨?_, by rw [hp]; exact hlt⟩, by rw [hp]; exact hcur, by rw [hp]; exact hno⟩
        unfold recordAt
        simp only [Env.setPage, hp, Function.update_same]
        exact j2

/-- The round trip for a cursor in order (`curPageNo` names the page `curPage` points to): a
record for which `insertRecord` returned `OK` is returned by `HeapFile::getRecord` at the
returned address, unchanged, immediately after the insert, and after any further inserts,
cursor movements and deletes that do not delete that address it is still stored there and
every heap file object with a pinned cursor page in order gets it back with `OK`. -/
theorem getRecord_roundtrip (e : Env) (h : InsertFileScan) (rec : Record) (out rid : RID)
    (h' : InsertFileScan) (e' : Env) (pn : Int)
    (hcur : h.curPage = some pn) (hno : h.curPageNo = pn)
    (hown : ∀ pg, e.pages pn = some pg → pg.curPage = pn)
    (halloc : ∀ n, e.nextPageNo ≤ n → e.pages n = none)
    (hins : InsertFileScan.insertRecord e h rec out = some (OK, rid, h', e')) :
    (∀ junk, HeapFile.getRecord e' h' rid junk = some (OK, rec, h', e')) ∧
    ∀ e'', Later rid e' e'' →
      recordAt e''.pages rid = some rec ∧
      ∀ (g : HeapFile) (junk : Record), e''.script = [] → g.curPage = some g.curPageNo →
        e''.pinCnt g.curPageNo ≠ 0 →
        ∃ g' e3, HeapFile.getRecord e'' g rid junk = some (OK, rec, g', e3) := by
  obtain ⟨hst, hc1, hc2⟩ :=
    insertRecord_ok_stored e h rec out rid h' e' pn hcur hno hown halloc hins
  refine ⟨fun junk => getRecord_direct e' h' rid rec junk hc1 hc2 hst.1, ?_⟩
  intro e'' hl
  have hst2 := later_stored hl hst
  refine ⟨hst2.1, fun g junk hs hg hp => ?_⟩
  obtain ⟨g', e3, h1, _⟩ := getRecord_of_recordAt e'' g rid rec junk hst2.1 hs hg hp
  exact ⟨g', e3, h1⟩

theorem getRecord_roundtrip_witness :
    HeapFile.getRecord
        { exFile.setPage 3 ⟨[some recSeven, some recFive], -1, 3⟩ with
          hdr := { exFile.hdr with recCnt := exFile.hdr.recCnt + 1 } }
        { exInsFile with curDirtyFlag := true, hdrDirtyFlag := true } ⟨3, 1⟩ recSeven =
      some (OK, recFive, { exInsFile with curDirtyFlag := true, hdrDirtyFlag := true },
        { exFile.setPage 3 ⟨[some recSeven, some recFive], -1, 3⟩ with
          hdr := { exFile.hdr with recCnt := exFile.hdr.recCnt + 1 } }) :=
  (getRecord_roundtrip exFile exInsFile recFive NULLRID ⟨3, 1⟩
    { exInsFile with curDirtyFlag := true, hdrDirtyFlag := true }
    { exFile.setPage 3 ⟨[some recSeven, some recFive], -1, 3⟩ with
      hdr := { exFile.hdr with recCnt := exFile.hdr.recCnt + 1 } } 3 rfl rfl
    (by intro pg hpg; injection hpg with hpg; rw [← hpg])
    (by
      intro n hn
      have h4 : (4 : Int) ≤ n := hn
      show (if n = 1 then _ else if n = 2 then _ else if n = 3 then _ else none) = none
      rw [if_neg (by omega), if_neg (by omega), if_neg (by omega)])
    rfl).1 recSeven



/-! ### Counting the records of a chain -/

theorem live_length (l : List (Option Record)) :
    ((List.range l.length).filter (fun (i : Nat) => (l.getD i none).isSome)).length =
      l.countP Option.isSome := by
  induction l with
  | nil => rfl
  | cons a l ih =>
    rw [List.length_cons, List.range_succ_eq_map, List.filter_cons, List.filter_map,
      List.countP_cons]
    have hf : ((fun (i : Nat) => ((a :: l).getD i none).isSome) ∘ Nat.succ) =
        (fun (i : Nat) => (l.getD i none).isSome) := by
      funext i
      simp
    rw [hf]
    cases a with
    | none => simpa using ih
    | some x => simpa using ih

theorem rids_length (pg : Page) : pg.rids.length = pg.slot.countP Option.isSome := by
  unfold Page.rids Page.live
  rw [List.length_map, live_length]

theorem putSlot_countP (l : List (Option Record)) (r : Record) :
    (putSlot l (firstFree l) r).countP Option.isSome = l.countP Option.isSome + 1 := by
  induction l with
  | nil => simp [firstFree, putSlot]
  | cons a l ih =>
    cases a with
    | none => simp [firstFree, putSlot]
    | some x => simpa [firstFree, putSlot] using ih

theorem insertRecord_rids_length (pg pg1 : Page) (rec : Record) (rid : RID)
    (h : pg.insertRecord rec = .ok (rid, pg1)) : pg1.rids.length = pg.rids.length + 1 := by
  unfold Page.insertRecord at h
  split at h
  · simp at h
  · simp only [Except.ok.injEq, Prod.mk.injEq] at h
    rw [← h.2, rids_length, rids_length]
    exact putSlot_countP pg.slot rec

theorem chainRids_append (pages : Int → Option Page) (a b : List Int) :
    chainRids pages (a ++ b) = chainRids pages a ++ chainRids pages b := by
  induction a with
  | nil => rfl
  | cons x a ih =>
    show _ ++ chainRids pages (a ++ b) = (_ ++ chainRids pages a) ++ chainRids pages b
    rw [ih, List.append_assoc]

theorem chainRids_congr (pages pages' : Int → Option Page) (ps : List Int)
    (h : ∀ p, p ∈ ps → pages' p = pages p) : chainRids pages' ps = chainRids pages ps := by
  induction ps with
  | nil => rfl
  | cons x ps ih =>
    simp only [chainRids]
    rw [h x (List.mem_cons_self _ _), ih (fun p hp => h p (List.mem_cons_of_mem _ hp))]


/-! ### Chains under updates of the pages -/

theorem isChain_mk_single {pages : Int → Option Page} {last p : Int} {pg : Page}
    (h1 : p = last) (h2 : p ≠ -1) (h3 : pages p = some pg) (h4 : pg.curPage = p) :
    isChain pages last [p] = true := by
  subst h1
  unfold isChain
  simp [h3, h4, h2]

theorem isChain_mk_cons {pages : Int → Option Page} {last p q : Int} {rest : List Int}
    {pg : Page} (h1 : p ≠ last) (h2 : p ≠ -1) (h3 : pages p = some pg) (h4 : pg.curPage = p)
    (h5 : pg.nextPage = q) (h6 : isChain pages last (q :: rest) = true) :
    isChain pages last (p :: q :: rest) = true := by
  unfold isChain
  simp [h1, h2, h3, h4, h5, h6]

theorem isChain_transfer {pages pages' : Int → Option Page} {last : Int} :
    ∀ (ps : List Int), isChain pages last ps = true →
      (∀ p, p ∈ ps → ∀ pg, pages p = some pg →
        ∃ pg', pages' p = some pg' ∧ pg'.curPage = pg.curPage ∧ pg'.nextPage = pg.nextPage) →
      isChain pages' last ps = true
  | [], h, _ => by simp [isChain] at h
  | [p], h, ht => by
    obtain ⟨pg, h1, h2, h3⟩ := isChain_head h
    obtain ⟨pg', i1, i2, _⟩ := ht p (List.mem_cons_self _ _) pg h1
    exact isChain_mk_single (isChain_single h) h3 i1 (i2.trans h2)
  | p :: q :: rest, h, ht => by
    obtain ⟨pg, h1, h2, h3⟩ := isChain_head h
    obtain ⟨h4, ⟨pg2, h5, h6⟩, h7⟩ := isChain_cons h
    rw [h1] at h5
    injection h5 with h5
    subst h5
    obtain ⟨pg', i1, i2, i3⟩ := ht p (List.mem_cons_self _ _) pg h1
    exact isChain_mk_cons h4 h3 i1 (i2.trans h2) (i3.trans h6)
      (isChain_transfer (q :: rest) h7 (fun x hx => ht x (List.mem_cons_of_mem _ hx)))

theorem isChain_snoc {pages pages' : Int → Option Page} {last new : Int}
    (hnew : new ≠ -1) (hQ : ∃ Q, pages' new = some Q ∧ Q.curPage = new)
    (hL : ∃ pgl, pages' last = some pgl ∧ pgl.curPage = last ∧ pgl.nextPage = new) :
    ∀ (init : List Int), isChain pages last (init ++ [last]) = true →
      (∀ p, p ∈ init ++ [last] → p ≠ new) → (∀ p, p ∈ init → pages' p = pages p) →
      isChain pages' new (init ++ [last] ++ [new]) = true
  | [], h, hne, _ => by
    obtain ⟨Q, q1, q2⟩ := hQ
    obtain ⟨pgl, l1, l2, l3⟩ := hL
    obtain ⟨_, _, _, h3⟩ := isChain_head h
    exact isChain_mk_cons (hne last (by simp)) h3 l1 l2 l3 (isChain_mk_single rfl hnew q1 q2)
  | [a], h, hne, hsame => by
    obtain ⟨pg, h1, h2, h3⟩ := isChain_head h
    obtain ⟨h4, ⟨pg2, h5, h6⟩, h7⟩ := isChain_cons h
    rw [h1] at h5
    injection h5 with h5
    subst h5
    have ih := isChain_snoc hnew hQ hL [] h7 (fun p hp => hne p (List.mem_cons_of_mem _ hp))
      (fun p hp => by simp at hp)
    exact isChain_mk_cons (hne a (by simp)) h3
      ((hsame a (by simp)).trans h1) h2 h6 ih
  | a :: b :: init, h, hne, hsame => by
    obtain ⟨pg, h1, h2, h3⟩ := isChain_head h
    obtain ⟨h4, ⟨pg2, h5, h6⟩, h7⟩ := isChain_cons h
    rw [h1] at h5
    injection h5 with h5
    subst h5
    have ih := isChain_snoc hnew hQ hL (b :: init) h7
      (fun p hp => hne p (List.mem_cons_of_mem _ hp))
      (fun p hp => hsame p (List.mem_cons_of_mem _ hp))
    exact isChain_mk_cons (hne a (by simp)) h3
      ((hsame a (by simp)).trans h1) h2 h6 ih


/-! ### The invariant of an `InsertFileScan` -/

theorem isChain_nodup_list {pages : Int → Option Page} {last : Int} {ps : List Int}
    (h : isChain pages last ps = true) : ps.Nodup := by
  cases ps with
  | nil => simp [isChain] at h
  | cons p rest => exact isChain_nodup rest p h

theorem insInv_last {e : Env} {h : HeapFile} {init : List Int} (hinv : InsInv e h init) :
    (∃ pg, e.pages e.hdr.lastPage = some pg ∧ pg.curPage = e.hdr.lastPage) ∧
      e.hdr.lastPage ∉ init ∧ e.hdr.lastPage < e.nextPageNo := by
  refine ⟨isChain_mem hinv.chain (by simp), ?_, hinv.fresh _ (by simp)⟩
  have hnd := isChain_nodup_list hinv.chain
  rw [List.nodup_append] at hnd
  intro hmem
  exact hnd.2.2 hmem (by simp)

theorem insInv_sameFile {e e' : Env} {h : HeapFile} {init : List Int} (hinv : InsInv e h init)
    (hsf : e.sameFile e') : InsInv e' h init := by
  obtain ⟨s1, s2, _, s4, s5, s6⟩ := hsf
  exact ⟨by rw [s1, s2]; exact hinv.chain, by rw [s2]; exact hinv.first,
    by rw [s2]; exact hinv.curPage, by rw [s2, s4]; exact hinv.fresh,
    by rw [s1, s2]; exact hinv.count, by rw [s2]; exact hinv.pageCount,
    by rw [s1, s6]; exact hinv.hdrPage, by rw [s6]; exact hinv.hdrNo,
    by rw [s4]; exact hinv.nextPos, by rw [s5]; exact hinv.file⟩

theorem insInv_fits {e : Env} {h : HeapFile} {init : List Int} (hinv : InsInv e h init)
    (pg pg1 : Page) (rec : Record) (rid : RID) (hpg : e.pages e.hdr.lastPage = some pg)
    (hins : pg.insertRecord rec = .ok (rid, pg1)) :
    InsInv { e.setPage e.hdr.lastPage pg1 with
             hdr := { e.hdr with recCnt := e.hdr.recCnt + 1 } }
      { h with curDirtyFlag := true, hdrDirtyFlag := true } init := by
  obtain ⟨_, hnot, _⟩ := insInv_last hinv
  obtain ⟨_, _, k1, k2, _⟩ := insertRecord_recAt pg pg1 rec rid hins
  have hlen := insertRecord_rids_length pg pg1 rec rid hins
  refine ⟨?_, hinv.first, hinv.curPage, hinv.fresh, ?_, hinv.pageCount, ?_, hinv.hdrNo,
    hinv.nextPos, hinv.file⟩
  · apply isChain_transfer _ hinv.chain
    intro p _ pg0 hp0
    simp only [Env.setPage]
    by_cases hx : p = e.hdr.lastPage
    · subst hx
      rw [hpg] at hp0
      injection hp0 with hp0
      subst hp0
      exact ⟨pg1, by rw [Function.update_same], k1, k2⟩
    · exact ⟨pg0, by rw [Function.update_noteq hx]; exact hp0, rfl, rfl⟩
  · show e.hdr.recCnt + 1 =
      ((chainRids (Function.update e.pages e.hdr.lastPage (some pg1))
        (init ++ [e.hdr.lastPage])).length : Int)
    have hc := hinv.count
    rw [chainRids_append] at hc ⊢
    have hcg : chainRids (Function.update e.pages e.hdr.lastPage (some pg1)) init =
        chainRids e.pages init := by
      apply chainRids_congr
      intro p hp
      apply Function.update_noteq
      intro hx
      rw [hx] at hp
      exact hnot hp
    rw [hcg]
    simp only [chainRids, Function.update_same, hpg, List.append_nil, List.length_append] at hc ⊢
    rw [hc, hlen]
    push_cast
    ring
  · show ((Function.update e.pages e.hdr.lastPage (some pg1)) e.firstPageNo).isSome = true
    by_cases hx : e.firstPageNo = e.hdr.lastPage
    · rw [hx, Function.update_same]
      rfl
    · rw [Function.update_noteq hx]
      exact hinv.hdrPage

theorem insInv_grow {e : Env} {h : HeapFile} {init : List Int} (hinv : InsInv e h init)
    (pg : Page) (rec : Record) (hpg : e.pages e.hdr.lastPage = some pg) (e' : Env)
    (h' : HeapFile) (hcur : h'.curPage = some e.nextPageNo)
    (h2 : e'.hdr = { e.hdr with pageCnt := e.hdr.pageCnt + 1, lastPage := e.nextPageNo,
                                recCnt := e.hdr.recCnt + 1 })
    (h3 : e'.pages = Function.update
        (Function.update e.pages e.hdr.lastPage (some (pg.setNextPage e.nextPageNo)))
        e.nextPageNo (some ⟨[some rec], -1, e.nextPageNo⟩))
    (h4 : e'.nextPageNo = e.nextPageNo + 1) (h5 : e'.fileExists = e.fileExists)
    (h7 : e'.firstPageNo = (if e.firstPageNo = -1 then e.nextPageNo else e.firstPageNo)) :
    InsInv e' h' (init ++ [e.hdr.lastPage]) := by
  obtain ⟨⟨pg0, hpg0, hcur0⟩, hnot, hlt⟩ := insInv_last hinv
  rw [hpg] at hpg0
  injection hpg0 with hpg0
  subst hpg0
  have hlast : e'.hdr.lastPage = e.nextPageNo := by rw [h2]
  have hne : e.hdr.lastPage ≠ e.nextPageNo := by omega
  have hnew : ∀ p, p ∈ init ++ [e.hdr.lastPage] → p ≠ e.nextPageNo := by
    intro p hp
    have := hinv.fresh p hp
    omega
  have hsame : ∀ p, p ∈ init → e'.pages p = e.pages p := by
    intro p hp
    rw [h3, Function.update_noteq (hnew p (by simp [hp])), Function.update_noteq]
    intro hx
    rw [hx] at hp
    exact hnot hp
  have hfirst7 : e'.firstPageNo = e.firstPageNo := by rw [h7, if_neg hinv.hdrNo]
  refine ⟨?_, ?_, ?_, ?_, ?_, ?_, ?_, ?_, ?_, ?_⟩
  · rw [hlast]
    apply isChain_snoc (by have := hinv.nextPos; omega) ?_ ?_ init hinv.chain hnew hsame
    · exact ⟨_, by rw [h3, Function.update_same], rfl⟩
    · refine ⟨pg.setNextPage e.nextPageNo, ?_, hcur0, rfl⟩
      rw [h3, Function.update_noteq hne, Function.update_same]
  · have hf := hinv.first
    rw [hlast, h2]
    cases init with
    | nil => simpa using hf
    | cons a init => simpa using hf
  · rw [hlast]
    exact hcur
  · intro p hp
    rw [hlast] at hp
    rw [h4]
    rw [List.mem_append, List.mem_singleton] at hp
    cases hp with
    | inl hp =>
      have := hinv.fresh p hp
      omega
    | inr hp => omega
  · rw [hlast, chainRids_append, h2]
    have hc := hinv.count
    have hcg : chainRids e'.pages (init ++ [e.hdr.lastPage]) =
        chainRids e.pages (init ++ [e.hdr.lastPage]) := by
      rw [chainRids_append, chainRids_append, chainRids_congr e.pages e'.pages init hsame]
      simp only [chainRids, h3, Function.update_noteq hne, Function.update_same, hpg]
      rfl
    rw [hcg]
    simp only [chainRids, h3, Function.update_same, List.length_append, List.append_nil]
    rw [hc]
    have hq : (⟨[some rec], -1, e.nextPageNo⟩ : Page).rids.length = 1 := rfl
    rw [hq]
    push_cast
    ring
  · rw [hlast, h2]
    have hp := hinv.pageCount
    simp only [List.length_append, List.length_singleton] at hp ⊢
    rw [hp]
    push_cast
    ring
  · rw [hfirst7, h3]
    by_cases hx : e.firstPageNo = e.nextPageNo
    · rw [hx, Function.update_same]
      rfl
    · rw [Function.update_noteq hx]
      by_cases hx2 : e.firstPageNo = e.hdr.lastPage
      · rw [hx2, Function.update_same]
        rfl
      · rw [Function.update_noteq hx2]
        exact hinv.hdrPage
  · rw [hfirst7]
    exact hinv.hdrNo
  · rw [h4]
    have := hinv.nextPos
    omega
  · rw [h5]
    exact hinv.file


theorem insert_step {e : Env} {h : InsertFileScan} {init : List Int}
    (hinv : InsInv e h init) (rec : Record) (out : RID) :
    ∃ st out' h' e' init', InsertFileScan.insertRecord e h rec out = some (st, out', h', e') ∧
      InsInv e' h' init' ∧
      e'.hdr.recCnt = e.hdr.recCnt + (if st = OK then 1 else 0) := by
  by_cases hbig : rec.length > (PAGESIZE : Int) - (DPFIXED : Int)
  · exact ⟨INVALIDRECLEN, out, h, e, init, insertRecord_big e h rec out hbig, hinv,
      by simp⟩
  · have hlen : rec.length ≤ (PAGESIZE : Int) - (DPFIXED : Int) := by omega
    obtain ⟨⟨pg, hpg, _⟩, _, _⟩ := insInv_last hinv
    rcases hi : pg.insertRecord rec with st1 | ⟨rid1, pg1⟩
    · by_cases hal : (allocPage e).1 = OK
      · obtain ⟨e2, h1, h2, h3, h4, h5, _, h7, _⟩ :=
          insertRecord_grow e h rec out e.hdr.lastPage pg st1 hlen hinv.curPage hpg hi hal
        refine ⟨OK, _, _, e2, init ++ [e.hdr.lastPage], h1,
          insInv_grow hinv pg rec hpg e2 _ rfl h2 h3 h4 h5 h7, ?_⟩
        rw [h2]
        simp
      · refine ⟨(allocPage e).1, out, h, (allocPage e).2.2, init,
          insertRecord_allocFail e h rec out e.hdr.lastPage pg st1 hlen hinv.curPage hpg hi hal,
          insInv_sameFile hinv (allocPage_fail e hal), ?_⟩
        rw [if_neg hal, (allocPage_fail e hal).2.1]
        simp
    · refine ⟨OK, rid1, _, _, init,
        insertRecord_fits e h rec out e.hdr.lastPage pg pg1 rid1 hlen hinv.curPage hpg hi,
        insInv_fits hinv pg pg1 rec rid1 hpg hi, ?_⟩
      simp

theorem insertAll_count : ∀ (recs : List Record) (e : Env) (h : InsertFileScan)
    (init : List Int), InsInv e h init →
    ∃ sts h' e' init', InsertFileScan.insertAll e h recs = some (sts, h', e') ∧
      sts.length = recs.length ∧ InsInv e' h' init' ∧
      e'.hdr.recCnt = e.hdr.recCnt + (sts.count OK : Int)
  | [], e, h, init, hinv => ⟨[], h, e, init, rfl, rfl, hinv, by simp⟩
  | rec :: recs, e, h, init, hinv => by
    obtain ⟨st, out', h1, e1, init1, a1, a2, a3⟩ := insert_step hinv rec NULLRID
    obtain ⟨sts, h2, e2, init2, b1, b2, b3, b4⟩ := insertAll_count recs e1 h1 init1 a2
    refine ⟨st :: sts, h2, e2, init2, ?_, by simp [b2], b3, ?_⟩
    · simp only [InsertFileScan.insertAll, a1, b1, Option.map_some']
    · rw [b4, a3, List.count_cons]
      by_cases hst : st = OK
      · simp [hst]
        ring
      · have : (st == OK) = false := by simpa using hst
        simp [hst, this]


/-! ### A freshly created heap file -/

theorem createHeapFile_ok (e0 : Env) (name : String)
    (hcreate : (createHeapFile e0 name).1 = OK) :
    (createHeapFile e0 name).2.fileExists = true ∧
    (createHeapFile e0 name).2.firstPageNo = 1 ∧
    (createHeapFile e0 name).2.nextPageNo = 3 ∧
    (createHeapFile e0 name).2.hdr = ⟨name, 2, 2, 1, 0⟩ ∧
    ((createHeapFile e0 name).2.pages 1).isSome = true ∧
    (createHeapFile e0 name).2.pages 2 = some (Page.init 2) := by
  generalize hx : createHeapFile e0 name = x at hcreate ⊢
  unfold createHeapFile at hx
  split at hx
  · rw [← hx] at hcreate
    simp at hcreate
  · dsimp only at hx
    split at hx
    · rename_i hne
      rw [← hx] at hcreate
      exact absurd hcreate hne
    · rename_i h1
      split at hx
      · rename_i hne
        rw [← hx] at hcreate
        exact absurd hcreate hne
      · rename_i h2
        split at hx
        · rename_i hne
          rw [← hx] at hcreate
          exact absurd hcreate hne
        · split at hx
          · rename_i hne
            rw [← hx] at hcreate
            exact absurd hcreate hne
          · obtain ⟨a1, a2, a3, a4, a5, a6, a7, a8, a9⟩ := allocPage_ok _ (not_not.mp h1)
            obtain ⟨b1, b2, b3, b4, b5, b6, b7, b8, b9⟩ := allocPage_ok _ (not_not.mp h2)
            rw [← hx]
            dsimp only
            refine ⟨?_, ?_, ?_, ?_, ?_, ?_⟩
            · rw [(unPinPage_sameFile _ _ _).2.2.2.2.1, (unPinPage_sameFile _ _ _).2.2.2.2.1]
              dsimp only [Env.setPage]
              rw [b6]
              dsimp only
              rw [a6]
              rfl
            · rw [(unPinPage_sameFile _ _ _).2.2.2.2.2, (unPinPage_sameFile _ _ _).2.2.2.2.2]
              dsimp only [Env.setPage]
              rw [b7]
              dsimp only
              rw [a7]
              rfl
            · rw [(unPinPage_sameFile _ _ _).2.2.2.1, (unPinPage_sameFile _ _ _).2.2.2.1]
              dsimp only [Env.setPage]
              rw [b5]
              dsimp only
              rw [a5]
              rfl
            · rw [(unPinPage_sameFile _ _ _).2.1, (unPinPage_sameFile _ _ _).2.1]
              dsimp only [Env.setPage]
              rw [b1]
              dsimp only
              rw [a5]
              rfl
            · rw [(unPinPage_sameFile _ _ _).1, (unPinPage_sameFile _ _ _).1]
              dsimp only [Env.setPage]
              rw [b1, b2]
              dsimp only
              rw [a5, a2]
              simp [Function.update, Env.createFile]
            · rw [(unPinPage_sameFile _ _ _).1, (unPinPage_sameFile _ _ _).1]
              dsimp only [Env.setPage]
              rw [b1]
              dsimp only
              rw [a5]
              simp [Function.update, Env.createFile]


theorem heapFile_open_spec (e : Env) (mem : HeapFile) :
    e.sameFile (HeapFile.open e mem).2.2 ∧
      ((HeapFile.open e mem).1 = OK →
        (HeapFile.open e mem).2.1.curPage = some e.hdr.firstPage ∧
        (HeapFile.open e mem).2.1.curPageNo = e.hdr.firstPage) := by
  generalize hx : HeapFile.open e mem = x
  unfold HeapFile.open at hx
  split at hx
  · dsimp only at hx
    have h1 : e.sameFile (readPage { e with openCnt := e.openCnt + 1 } e.firstPageNo).2 :=
      sameFile_trans ⟨rfl, rfl, rfl, rfl, rfl, rfl⟩ (readPage_sameFile _ _)
    split at hx
    · rename_i hne
      rw [← hx]
      exact ⟨h1, fun hok => absurd hok hne⟩
    · have h2 := sameFile_trans h1 (readPage_sameFile
        (readPage { e with openCnt := e.openCnt + 1 } e.firstPageNo).2
        (readPage { e with openCnt := e.openCnt + 1 } e.firstPageNo).2.hdr.firstPage)
      split at hx
      · rename_i hne
        rw [← hx]
        exact ⟨h2, fun hok => absurd hok hne⟩
      · rw [← hx]
        exact ⟨h2, fun _ => ⟨by rw [h1.2.1], by rw [h1.2.1]⟩⟩
  · rw [← hx]
    exact ⟨sameFile_refl e, fun hok => by simp at hok⟩

theorem insertFileScan_open_spec (e : Env) (mem : InsertFileScan)
    (hfl : e.hdr.firstPage = e.hdr.lastPage)
    (hok : (InsertFileScan.open e mem).1 = OK) :
    e.sameFile (InsertFileScan.open e mem).2.2 ∧
      (InsertFileScan.open e mem).2.1.curPage = some e.hdr.lastPage := by
  obtain ⟨h1, h2⟩ := heapFile_open_spec e mem
  generalize hx : InsertFileScan.open e mem = x at hok ⊢
  unfold InsertFileScan.open at hx
  generalize HeapFile.open e mem = y at hx h1 h2
  obtain ⟨st, h, e1⟩ := y
  dsimp only at hx h1 h2
  split at hx
  · have h3 := sameFile_trans h1 (unPinPage_sameFile e1 h.curPageNo h.curDirtyFlag)
    have h4 := sameFile_trans h3 (readPage_sameFile
      (unPinPage e1 h.curPageNo h.curDirtyFlag).2
      (unPinPage e1 h.curPageNo h.curDirtyFlag).2.hdr.lastPage)
    rw [← hx] at hok ⊢
    dsimp only at hok ⊢
    refine ⟨h4, ?_⟩
    rw [if_pos hok, h3.2.1]
  · rename_i hc
    rw [← hx] at hok ⊢
    dsimp only at hok ⊢
    obtain ⟨i1, i2⟩ := h2 hok
    exact ⟨h1, by rw [i1, hfl]⟩


/-! ### Inserts into a fresh file are counted and found by a scan -/

theorem insInv_created (e0 : Env) (name : String) (mem : InsertFileScan)
    (hcreate : (createHeapFile e0 name).1 = OK)
    (hopen : (InsertFileScan.open (createHeapFile e0 name).2 mem).1 = OK) :
    InsInv (InsertFileScan.open (createHeapFile e0 name).2 mem).2.2
      (InsertFileScan.open (createHeapFile e0 name).2 mem).2.1 [] ∧
    (InsertFileScan.open (createHeapFile e0 name).2 mem).2.2.hdr.recCnt = 0 := by
  obtain ⟨c1, c2, c3, c4, c5, c6⟩ := createHeapFile_ok e0 name hcreate
  obtain ⟨o1, o2⟩ := insertFileScan_open_spec (createHeapFile e0 name).2 mem
    (by rw [c4]) hopen
  have hl : (createHeapFile e0 name).2.hdr.lastPage = 2 := by rw [c4]
  have hf : (createHeapFile e0 name).2.hdr.firstPage = 2 := by rw [c4]
  have hinv : InsInv (createHeapFile e0 name).2
      (InsertFileScan.open (createHeapFile e0 name).2 mem).2.1 [] := by
    refine ⟨?_, ?_, o2, ?_, ?_, ?_, ?_, ?_, ?_, c1⟩
    · rw [hl]
      exact isChain_mk_single rfl (by decide) c6 rfl
    · rw [hl, hf]
      rfl
    · intro p hp
      rw [hl] at hp
      simp only [List.nil_append, List.mem_singleton] at hp
      rw [c3, hp]
      decide
    · rw [hl, c4]
      simp only [List.nil_append, chainRids, c6]
      rfl
    · rw [hl, c4]
      rfl
    · rw [c2]
      exact c5
    · rw [c2]
      decide
    · rw [c3]
      decide
  refine ⟨insInv_sameFile hinv o1, ?_⟩
  rw [o1.2.1, c4]

/-- C2: after any sequence of `insertRecord` calls on an `InsertFileScan` over a freshly
created heap file (buffer-pool failures allowed), every call returns, `getRecCnt()` equals
the number of calls that returned `OK`, and an unfiltered scan of the file (with no
buffer-pool failure scheduled) returns exactly that many records and then `FILEEOF`. -/
theorem insert_count_and_scan (e0 : Env) (name : String) (mem : InsertFileScan)
    (recs : List Record)
    (hcreate : (createHeapFile e0 name).1 = OK)
    (hopen : (InsertFileScan.open (createHeapFile e0 name).2 mem).1 = OK) :
    ∃ sts h e,
      InsertFileScan.insertAll (InsertFileScan.open (createHeapFile e0 name).2 mem).2.2
        (InsertFileScan.open (createHeapFile e0 name).2 mem).2.1 recs = some (sts, h, e) ∧
      sts.length = recs.length ∧
      HeapFile.getRecCnt e h = (sts.count OK : Int) ∧
      ∀ (smem : HeapFileScan) (k fuel : Nat), e.script = [] → sts.count OK + 1 ≤ k →
        sts.count OK + e.hdr.pageCnt.toNat + 1 ≤ fuel →
        ∃ rids, (HeapFileScan.scanAll k fuel (HeapFileScan.open e smem).2.2
            (HeapFileScan.open e smem).2.1).map (fun x => (x.1, x.2.1)) =
            some (rids, FILEEOF) ∧
          rids.length = sts.count OK := by
  obtain ⟨hinv, hzero⟩ := insInv_created e0 name mem hcreate hopen
  obtain ⟨sts, h, e, init, a1, a2, a3, a4⟩ := insertAll_count recs _ _ [] hinv
  rw [hzero, zero_add] at a4
  refine ⟨sts, h, e, a1, a2, a4, ?_⟩
  intro smem k fuel hs hk hfuel
  obtain ⟨p, rest, hps⟩ : ∃ p rest, init ++ [e.hdr.lastPage] = p :: rest := by
    cases init with
    | nil => exact ⟨_, _, rfl⟩
    | cons a l => exact ⟨a, l ++ [e.hdr.lastPage], rfl⟩
  have hchain := a3.chain
  have hfirst := a3.first
  have hcount := a3.count
  have hpc := a3.pageCount
  rw [hps] at hchain hfirst hcount hpc
  simp only [List.head?_cons, Option.some.injEq] at hfirst
  have hlen : (chainRids e.pages (p :: rest)).length = sts.count OK := by
    rw [a4] at hcount
    exact_mod_cast hcount.symm
  have hpages : e.hdr.pageCnt.toNat = rest.length + 1 := by
    rw [hpc]
    simp
  refine ⟨chainRids e.pages (p :: rest), ?_, hlen⟩
  rw [scanAll_fresh e smem _ p rest k fuel rfl a3.file hs a3.hdrPage hchain hfirst
    (by rw [hlen]; exact hk) (by rw [hlen]; omega)]
  rw [filter_matches_unfiltered _ _ _ (open_filter_none e smem) hchain]


theorem insert_count_and_scan_witness :
    (createHeapFile exEnv "f").1 = OK ∧
    ∃ sts h e,
      InsertFileScan.insertAll (InsertFileScan.open (createHeapFile exEnv "f").2 exHeapFile).2.2
        (InsertFileScan.open (createHeapFile exEnv "f").2 exHeapFile).2.1
        [recSeven, recBig, recFive] = some (sts, h, e) ∧
      sts.length = 3 ∧ HeapFile.getRecCnt e h = (sts.count OK : Int) := by
  obtain ⟨sts, h, e, h1, h2, h3, _⟩ :=
    insert_count_and_scan exEnv "f" exHeapFile [recSeven, recBig, recFive] (by decide)
      (by decide)
  exact ⟨by decide, sts, h, e, h1, h2, h3⟩

/-! ### `matchRec` on strings -/

theorem lexSign_eq_zero : ∀ (a b : List Byte), lexSign a b = .zero ↔ a = b
  | [], [] => by simp [lexSign]
  | [], _ :: _ => by simp [lexSign]
  | _ :: _, [] => by simp [lexSign]
  | x :: a, y :: b => by
    have ih := lexSign_eq_zero a b
    simp only [lexSign, List.cons.injEq]
    split
    · rename_i h
      simp only [reduceCtorEq, false_iff, not_and]
      intro hxy
      exact absurd h (by rw [hxy]; exact lt_irrefl _)
    · split
      · rename_i h
        simp only [reduceCtorEq, false_iff, not_and]
        intro hxy
        exact absurd h (by rw [hxy]; exact lt_irrefl _)
      · rename_i h1 h2
        have hxy : x = y := le_antisymm (not_lt.mp h2) (not_lt.mp h1)
        rw [ih]
        exact ⟨fun h => ⟨hxy, h⟩, fun h => h.2⟩

theorem strncmp_sign : ∀ (n : Nat) (a b : List Byte), n ≤ a.length → n ≤ b.length →
    signOf (strncmp a b n) = lexSign (cstr (a.take n)) (cstr (b.take n))
  | 0, a, b, _, _ => by simp [strncmp, signOf, cstr, lexSign]
  | n + 1, [], _, ha, _ => by simp at ha
  | n + 1, _ :: _, [], _, hb => by simp at hb
  | n + 1, x :: a, y :: b, ha, hb => by
    have ih := strncmp_sign n a b (by simpa using ha) (by simpa using hb)
    simp only [strncmp, List.headD_cons, List.tail_cons, List.take_succ_cons, cstr]
    by_cases hxy : x = y
    · subst hxy
      simp only [ne_eq, not_true_eq_false, if_false]
      by_cases h0 : x = 0
      · simp [h0, signOf, lexSign]
      · simp only [h0, if_false, lexSign, lt_irrefl]
        exact ih
    · rw [if_pos hxy]
      have hv : (x.val : Int) ≠ (y.val : Int) := by
        intro h
        exact hxy (Fin.ext (by exact_mod_cast h))
      have hhead : ∀ (l : List Byte) (z : Byte), ∃ t, (if z = 0 then [0] else z :: cstr l) = z :: t := by
        intro l z
        by_cases hz : z = 0
        · exact ⟨[], by rw [if_pos hz, hz]⟩
        · exact ⟨cstr l, by rw [if_neg hz]⟩
      obtain ⟨t1, h1⟩ := hhead (a.take n) x
      obtain ⟨t2, h2⟩ := hhead (b.take n) y
      rw [h1, h2]
      simp only [lexSign, signOf]
      by_cases hlt : x < y
      · have : (x.val : Int) < (y.val : Int) := by exact_mod_cast hlt
        rw [if_pos hlt, if_pos (by omega)]
      · have hgt : y < x := lt_of_le_of_ne (not_lt.mp hlt) (Ne.symm hxy)
        have : (y.val : Int) < (x.val : Int) := by exact_mod_cast hgt
        rw [if_neg hlt, if_pos hgt, if_neg (by omega), if_neg (by omega)]


theorem cstr_no_zero : ∀ (l : List Byte), (0 : Byte) ∉ l → cstr l = l
  | [], _ => rfl
  | b :: bs, h => by
    simp only [List.mem_cons, not_or] at h
    simp only [cstr]
    rw [if_neg (fun hb => h.1 hb.symm), cstr_no_zero bs h.2]

theorem zero_mem_cstr : ∀ (l : List Byte), (0 : Byte) ∈ l → (0 : Byte) ∈ cstr l
  | [], h => by simp at h
  | b :: bs, h => by
    simp only [cstr]
    by_cases hb : b = 0
    · rw [if_pos hb]
      simp
    · rw [if_neg hb]
      simp only [List.mem_cons] at h ⊢
      rcases h with h | h
      · exact absurd h.symm hb
      · exact Or.inr (zero_mem_cstr bs h)

theorem cstr_eq_iff (a b : List Byte) (ha : (0 : Byte) ∉ a) : cstr a = cstr b ↔ a = b := by
  constructor
  · intro h
    rw [cstr_no_zero a ha] at h
    have hb : (0 : Byte) ∉ b := fun hb => ha (by rw [h]; exact zero_mem_cstr b hb)
    rw [cstr_no_zero b hb] at h
    exact h
  · intro h
    rw [h]

theorem startScan_ok_bounds (s : HeapFileScan) (offset_ length_ : Int) (type_ : Datatype)
    (flt : List Byte) (op_ : Operator)
    (h : (s.startScan offset_ length_ type_ (some flt) op_).1 = OK) :
    0 ≤ offset_ ∧ 1 ≤ length_ := by
  unfold HeapFileScan.startScan at h
  simp only [reduceCtorEq, if_false] at h
  split at h
  · exact Status.noConfusion h
  · rename_i hc
    constructor
    · by_contra hn
      exact hc (Or.inl (Or.inl (not_le.mp hn)))
    · by_contra hn
      exact hc (Or.inl (Or.inr (by omega)))

theorem matchRec_string_core (s : HeapFileScan) (e : Env) (rec : Record) (flt : List Byte)
    (htype : s.type = .STRING) (hflt : s.filter = some flt)
    (hoff : 0 ≤ s.offset) (hlen : 1 ≤ s.length)
    (hin : s.offset + s.length ≤ rec.length) (hfl : s.length ≤ (flt.length : Int)) :
    s.matchRec e rec = applyOp s.op
      (lexSign (cstr (bytesAt rec.data s.offset s.length)) (cstr (flt.take s.length.toNat))) := by
  have hr := rec.hlen
  have h31 : (2:Nat)^31 = 2147483648 := by norm_num
  unfold Record.length at hin
  have hguard : ¬ (wrap32 (wrap32 (s.offset + s.length) - 1) ≥ rec.length) := by
    unfold wrap32 Record.length
    have h32 : (2:Int)^32 = 4294967296 := by norm_num
    have h31i : (2:Int)^31 = 2147483648 := by norm_num
    rw [h32, h31i]
    omega
  unfold HeapFileScan.matchRec
  rw [hflt]
  simp only []
  rw [if_neg hguard, htype]
  simp only []
  rw [strncmp_sign]
  · rfl
  · rw [List.length_drop]
    omega
  · omega


/-- C11 (as amended): for a STRING predicate that `startScan` accepted and a record that holds
the whole field, `matchRec` applies `op` to the sign of the lexicographic, byte by byte
comparison of the two `length`-byte sequences read as C strings, that is, each cut off after
its first zero byte (`strncmp`); with `EQ` it returns true exactly when the two sequences
agree up to and including the first zero byte, and, when the field of the record holds no
zero byte, exactly when the two `length`-byte sequences are identical. -/
theorem matchRec_string (s0 : HeapFileScan) (e : Env) (rec : Record) (offset_ length_ : Int)
    (flt : List Byte) (op_ : Operator)
    (hacc : (s0.startScan offset_ length_ .STRING (some flt) op_).1 = OK)
    (hin : offset_ + length_ ≤ rec.length) (hfl : length_ ≤ (flt.length : Int)) :
    (s0.startScan offset_ length_ .STRING (some flt) op_).2.matchRec e rec =
      applyOp op_ (lexSign (cstr (bytesAt rec.data offset_ length_))
        (cstr (flt.take length_.toNat))) ∧
    (op_ = .EQ →
      ((s0.startScan offset_ length_ .STRING (some flt) op_).2.matchRec e rec = true ↔
        cstr (bytesAt rec.data offset_ length_) = cstr (flt.take length_.toNat))) ∧
    (op_ = .EQ → (0 : Byte) ∉ bytesAt rec.data offset_ length_ →
      ((s0.startScan offset_ length_ .STRING (some flt) op_).2.matchRec e rec = true ↔
        bytesAt rec.data offset_ length_ = flt.take length_.toNat)) := by
  obtain ⟨hoff, hlen⟩ := startScan_ok_bounds s0 offset_ length_ .STRING flt op_ hacc
  have hs := startScan_accepted s0 offset_ length_ .STRING flt op_ (by rw [hacc]; decide)
  rw [hs]
  have hcore := matchRec_string_core
    { s0 with offset := offset_, length := length_, type := .STRING, filter := some flt,
              op := op_ } e rec flt rfl rfl hoff hlen hin hfl
  simp only [] at hcore ⊢
  have heq : op_ = .EQ →
      (applyOp op_ (lexSign (cstr (bytesAt rec.data offset_ length_))
        (cstr (flt.take length_.toNat))) = true ↔
        cstr (bytesAt rec.data offset_ length_) = cstr (flt.take length_.toNat)) := by
    intro hop
    rw [hop]
    simp only [applyOp, decide_eq_true_eq]
    exact lexSign_eq_zero _ _
  refine ⟨hcore, ?_, ?_⟩
  · intro hop
    rw [hcore]
    exact heq hop
  · intro hop hz
    rw [hcore]
    exact (heq hop).trans (cstr_eq_iff _ _ hz)

theorem matchRec_string_witness :
    (exScan.startScan 0 1 .STRING (some [97]) .EQ).2.matchRec exEnv recZeroMid = true :=
  ((matchRec_string exScan exEnv recZeroMid 0 1 [97] .EQ (by decide) (by decide)
    (by decide)).2.2 rfl (by decide)).mpr (by decide)

/-- C11 (as stated) fails: `startScan` accepts the predicate `(0, 3, STRING, EQ, [97, 0, 99])`, the
record `[97, 0, 98]` holds the whole field and its three bytes differ from those of the filter,
yet `matchRec` returns true: `strncmp` stops at the zero byte. -/
theorem matchRec_string_zero_byte :
    (exScan.startScan 0 3 .STRING (some [97, 0, 99]) .EQ).1 = OK ∧
    (0 : Int) + 3 ≤ recZeroMid.length ∧
    bytesAt recZeroMid.data 0 3 ≠ List.take 3 [97, 0, 99] ∧
    (exScan.startScan 0 3 .STRING (some [97, 0, 99]) .EQ).2.matchRec exEnv recZeroMid = true := by
  decide

/-! ### The bound check of `matchRec` -/

theorem matchRec_outside (s : HeapFileScan) (e : Env) (rec : Record) (flt : List Byte)
    (hflt : s.filter = some flt)
    (hsum : s.offset + s.length ≤ 2147483647) (hout : s.offset + s.length > rec.length) :
    s.matchRec e rec = false := by
  have hguard : wrap32 (wrap32 (s.offset + s.length) - 1) ≥ rec.length := by
    unfold wrap32
    have h32 : (2:Int)^32 = 4294967296 := by norm_num
    have h31i : (2:Int)^31 = 2147483648 := by norm_num
    rw [h32, h31i]
    omega
  unfold HeapFileScan.matchRec
  rw [hflt]
  simp only []
  rw [if_pos hguard]

/-- C12: `startScan` accepts the predicate `(2147483646, 4, INTEGER, EQ, 0)`; for the record
of four bytes `recSeven` the field lies outside the record (`offset + length` is
`2147483650`, the record has 4 bytes), but `offset + length - 1` computed in `int` wraps to
`-2147483647`, the bound check of line 428 lets the record through, and `matchRec` answers
from bytes that are not in the record (none of the record's bytes is at the offset; the
model reads the missing bytes as zero, the code reads adjacent memory): it returns true. -/
theorem matchRec_bound_overflow :
    (exScan.startScan 2147483646 4 .INTEGER (some [0, 0, 0, 0]) .EQ).1 = OK ∧
    (2147483646 : Int) + 4 > recSeven.length ∧
    wrap32 (wrap32 (2147483646 + 4) - 1) = -2147483647 ∧
    (exScan.startScan 2147483646 4 .INTEGER (some [0, 0, 0, 0]) .EQ).2.matchRec exEnv recSeven
      = true ∧
    bytesAt recSeven.data 2147483646 4 = [] := by
  decide

/-! ### A scan without predicate -/

theorem startScan_none (s : HeapFileScan) (offset_ length_ : Int) (type_ : Datatype)
    (op_ : Operator) :
    s.startScan offset_ length_ type_ none op_ = (OK, { s with filter := none }) := by
  unfold HeapFileScan.startScan
  rw [if_pos rfl]

theorem matchRec_no_filter (s : HeapFileScan) (e : Env) (rec : Record) (hf : s.filter = none) :
    s.matchRec e rec = true := by
  unfold HeapFileScan.matchRec
  rw [hf]

theorem scanAll_unfiltered (e : Env) (mem s : HeapFileScan) (ps : List Int) (k fuel : Nat)
    (hs : s.toHeapFile = (HeapFileScan.open e mem).2.1.toHeapFile) (hf : s.filter = none)
    (hfile : e.fileExists = true) (hscript : e.script = [])
    (hhdr : (e.pages e.firstPageNo).isSome = true)
    (hchain : isChain e.pages e.hdr.lastPage ps = true)
    (hfirst : ps.head? = some e.hdr.firstPage)
    (hk : (chainRids e.pages ps).length + 1 ≤ k)
    (hfuel : (chainRids e.pages ps).length + ps.length + 1 ≤ fuel) :
    (HeapFileScan.scanAll k fuel (HeapFileScan.open e mem).2.2 s).map (fun r => (r.1, r.2.1)) =
      some (chainRids e.pages ps, FILEEOF) := by
  cases ps with
  | nil => simp [isChain] at hchain
  | cons p rest =>
    simp only [List.head?_cons, Option.some.injEq] at hfirst
    rw [scanAll_fresh e mem s p rest k fuel hs hfile hscript hhdr hchain hfirst hk
      (by simp only [List.length_cons] at hfuel; omega)]
    rw [filter_matches_unfiltered s e _ hf hchain]

/-- C13: `startScan` with a null filter returns `OK` for all values of the other arguments
and leaves the scan without predicate (`filter = NULL`, the rest of the object as before);
`matchRec` then returns true for every record, as it does on a newly constructed
`HeapFileScan`; and on a file whose data pages `ps` form the chain from the header's first
page to its last page, a scan from the start of the file, after such a `startScan` (whatever
predicate the object carried before) or with no `startScan` at all, returns the addresses of
all records of the chain and then `FILEEOF`. -/
theorem startScan_null_filter (s : HeapFileScan) (offset_ length_ : Int) (type_ : Datatype)
    (op_ : Operator) :
    s.startScan offset_ length_ type_ none op_ = (OK, { s with filter := none }) ∧
    (∀ (e : Env) (rec : Record),
      (s.startScan offset_ length_ type_ none op_).2.matchRec e rec = true) ∧
    (∀ (e e' : Env) (mem : HeapFileScan) (rec : Record),
      (HeapFileScan.open e mem).2.1.matchRec e' rec = true) ∧
    (∀ (e : Env) (mem : HeapFileScan) (ps : List Int) (k fuel : Nat),
      e.fileExists = true → e.script = [] → (e.pages e.firstPageNo).isSome = true →
      isChain e.pages e.hdr.lastPage ps = true → ps.head? = some e.hdr.firstPage →
      (chainRids e.pages ps).length + 1 ≤ k →
      (chainRids e.pages ps).length + ps.length + 1 ≤ fuel →
      (s.toHeapFile = (HeapFileScan.open e mem).2.1.toHeapFile →
        (HeapFileScan.scanAll k fuel (HeapFileScan.open e mem).2.2
            (s.startScan offset_ length_ type_ none op_).2).map (fun r => (r.1, r.2.1)) =
          some (chainRids e.pages ps, FILEEOF)) ∧
      (HeapFileScan.scanAll k fuel (HeapFileScan.open e mem).2.2
          (HeapFileScan.open e mem).2.1).map (fun r => (r.1, r.2.1)) =
        some (chainRids e.pages ps, FILEEOF)) := by
  have h1 := startScan_none s offset_ length_ type_ op_
  refine ⟨h1, ?_, ?_, ?_⟩
  · intro e rec
    rw [h1]
    exact matchRec_no_filter _ e rec rfl
  · intro e e' mem rec
    exact matchRec_no_filter _ e' rec (open_filter_none e mem)
  · intro e mem ps k fuel hfile hscript hhdr hchain hfirst hk hfuel
    constructor
    · intro hs
      rw [h1]
      exact scanAll_unfiltered e mem _ ps k fuel hs rfl hfile hscript hhdr hchain hfirst hk hfuel
    · exact scanAll_unfiltered e mem _ ps k fuel rfl (open_filter_none e mem) hfile hscript hhdr
        hchain hfirst hk hfuel

theorem startScan_null_filter_witness :
    (HeapFileScan.scanAll 4 6 (HeapFileScan.open exFile exScan).2.2
        (((HeapFileScan.open exFile exScan).2.1.startScan 0 4 .INTEGER (some [7, 0, 0, 0])
          .EQ).2.startScan (-1) 0 (.other 9) none (.other 9)).2).map (fun r => (r.1, r.2.1)) =
      some ([⟨2, 0⟩, ⟨2, 1⟩, ⟨3, 0⟩], FILEEOF) :=
  (((startScan_null_filter
      ((HeapFileScan.open exFile exScan).2.1.startScan 0 4 .INTEGER (some [7, 0, 0, 0]) .EQ).2
      (-1) 0 (.other 9) (.other 9)).2.2.2 exFile exScan [2, 3] 4 6
    (by decide) (by decide) (by decide) (by decide) (by decide) (by decide) (by decide)).1
    (by decide)).trans (by decide)

/-! ### The record count after a failed delete -/

/-- C14: on a freshly created file, after one insert, a scan positioned by `scanNext` on the
record and a first `deleteRecord` (all `OK`, record count 0), a second `deleteRecord` fails
in the page (`INVALIDSLOTNO`, the slot is empty) and still decrements the header's `recCnt`:
it is `-1` while the data pages of the file hold no record. -/
theorem deleteRecord_twice_recCnt :
    exDeleteTwice = some ([OK, OK, OK, OK, OK, OK, INVALIDSLOTNO], 0, -1, [], true) := by
  decide

/-! ### Inserting after the cursor was moved -/

/-- C15: on a file of two data pages (2 and 3, `lastPage = 3`) a constructed `InsertFileScan`
stands on page 3; after `getRecord` of the address (2, 0) moved the cursor to page 2,
`insertRecord` returns `OK` with the address (2, 2): the record is on page 2 while the
header's `lastPage` is still 3. -/
theorem insertRecord_after_getRecord :
    exInsertAfterGet = some ([OK, OK, OK], 3, ⟨2, 2⟩, 3) := by
  decide

/-! ### The scan stops at the header's last page -/

theorem pop_calls (e : Env) : e.pop.2.calls = e.calls := by
  unfold Env.pop
  split <;> rfl

theorem readPage_calls (e : Env) (q : Int) :
    (readPage e q).2.calls = e.calls ++ [.readPage q (readPage e q).1] := by
  have h := pop_calls e
  unfold readPage
  simp only []
  split
  · simp only [h]
  · split <;> simp only [h]

theorem unPinPage_calls (e : Env) (q : Int) (d : Bool) :
    (unPinPage e q d).2.calls = e.calls ++ [.unPinPage q d (unPinPage e q d).1] := by
  have h := pop_calls e
  unfold unPinPage
  simp only []
  split
  · simp only [h]
  · split <;> simp only [h]

theorem isChain_next {pages : Int → Option Page} {last : Int} {ps : List Int} {p : Int}
    {pg : Page} (h : isChain pages last ps = true) (hp : p ∈ ps) (hpg : pages p = some pg)
    (hne : p ≠ last) : pg.nextPage ∈ ps := by
  obtain ⟨a, b, hab⟩ := List.append_of_mem hp
  subst hab
  have hs := isChain_suffix a p b h
  cases b with
  | nil => exact absurd (isChain_single hs) hne
  | cons q rest =>
    obtain ⟨_, ⟨pg1, h1, h2⟩, _⟩ := isChain_cons hs
    rw [hpg] at h1
    injection h1 with h1
    subst h1
    rw [h2]
    simp

theorem pins_refl (ps : List Int) (e : Env) :
    ∃ new, e.calls = e.calls ++ new ∧ ∀ c ∈ new, BufCall.pinsWithin ps c = true :=
  ⟨[], by simp, by simp⟩

theorem pins_trans {ps : List Int} {c1 c2 c3 : List BufCall}
    (h1 : ∃ new, c2 = c1 ++ new ∧ ∀ c ∈ new, BufCall.pinsWithin ps c = true)
    (h2 : ∃ new, c3 = c2 ++ new ∧ ∀ c ∈ new, BufCall.pinsWithin ps c = true) :
    ∃ new, c3 = c1 ++ new ∧ ∀ c ∈ new, BufCall.pinsWithin ps c = true := by
  obtain ⟨n1, e1, p1⟩ := h1
  obtain ⟨n2, e2, p2⟩ := h2
  refine ⟨n1 ++ n2, by rw [e2, e1, List.append_assoc], ?_⟩
  intro c hc
  rcases List.mem_append.mp hc with h | h
  · exact p1 c h
  · exact p2 c h

theorem unPinPage_pins (ps : List Int) (e : Env) (q : Int) (d : Bool) :
    ∃ new, (unPinPage e q d).2.calls = e.calls ++ new ∧
      ∀ c ∈ new, BufCall.pinsWithin ps c = true :=
  ⟨_, unPinPage_calls e q d, by simp [BufCall.pinsWithin]⟩

theorem readPage_pins (ps : List Int) (e : Env) (q : Int) (hq : q ∈ ps) :
    ∃ new, (readPage e q).2.calls = e.calls ++ new ∧
      ∀ c ∈ new, BufCall.pinsWithin ps c = true :=
  ⟨_, readPage_calls e q, by simp [BufCall.pinsWithin, hq]⟩

theorem advance_pins (ps : List Int) : ∀ (n : Nat) (e : Env) (s : HeapFileScan)
    (res : Except Status RID) (s' : HeapFileScan) (e' : Env),
    isChain e.pages e.hdr.lastPage ps = true → s.curPage = some s.curPageNo →
    s.curPageNo ∈ ps → HeapFileScan.advance n e s = some (res, s', e') →
    (∃ new, e'.calls = e.calls ++ new ∧ ∀ c ∈ new, BufCall.pinsWithin ps c = true) ∧
      s'.curPage = some s'.curPageNo ∧ s'.curPageNo ∈ ps
  | 0, _, _, _, _, _, _, _, _, h => by simp [HeapFileScan.advance] at h
  | n + 1, e, s, res, s', e', hchain, hcur, hmem, h => by
    simp only [HeapFileScan.advance] at h
    split at h
    · simp at h
    · rename_i pg hpg
      rw [hcur] at hpg
      simp only [Env.deref] at hpg
      split at h
      · simp only [Option.some.injEq, Prod.mk.injEq] at h
        obtain ⟨_, h2, h3⟩ := h
        subst h2 h3
        exact ⟨pins_refl ps e, hcur, hmem⟩
      · rename_i hguard
        simp only [not_or] at hguard
        have hnext : pg.getNextPage ∈ ps := isChain_next hchain hmem hpg hguard.2.1
        have hu := unPinPage_pins ps e s.curPageNo s.curDirtyFlag
        split at h
        · simp only [Option.some.injEq, Prod.mk.injEq] at h
          obtain ⟨_, h2, h3⟩ := h
          subst h2 h3
          exact ⟨hu, hcur, hmem⟩
        · have hr := pins_trans hu
            (readPage_pins ps (unPinPage e s.curPageNo s.curDirtyFlag).2 pg.getNextPage hnext)
          have hsf : e.sameFile
              (readPage (unPinPage e s.curPageNo s.curDirtyFlag).2 pg.getNextPage).2 :=
            sameFile_trans (unPinPage_sameFile e _ _) (readPage_sameFile _ _)
          split at h
          · simp only [Option.some.injEq, Prod.mk.injEq] at h
            obtain ⟨_, h2, h3⟩ := h
            subst h2 h3
            exact ⟨hr, hcur, hmem⟩
          · split at h
            · simp at h
            · split at h
              · simp only [Option.some.injEq, Prod.mk.injEq] at h
                obtain ⟨_, h2, h3⟩ := h
                subst h2 h3
                exact ⟨hr, rfl, hnext⟩
              · obtain ⟨i1, i2⟩ := advance_pins ps n _ _ _ _ _
                  (by rw [hsf.1, hsf.2.1]; exact hchain) rfl hnext h
                exact ⟨pins_trans hr i1, i2⟩

theorem scanLoop_pins (ps : List Int) : ∀ (n : Nat) (e : Env) (s : HeapFileScan)
    (tmp out : RID) (st : Status) (r : RID) (s' : HeapFileScan) (e' : Env),
    isChain e.pages e.hdr.lastPage ps = true → s.curPage = some s.curPageNo →
    s.curPageNo ∈ ps → HeapFileScan.scanLoop n e s tmp out = some (st, r, s', e') →
    (∃ new, e'.calls = e.calls ++ new ∧ ∀ c ∈ new, BufCall.pinsWithin ps c = true) ∧
      s'.curPage = some s'.curPageNo ∧ s'.curPageNo ∈ ps
  | 0, _, _, _, _, _, _, _, _, _, _, _, h => by simp [HeapFileScan.scanLoop] at h
  | n + 1, e, s, tmp, out, st, r, s', e', hchain, hcur, hmem, h => by
    have body : ∀ (s1 : HeapFileScan) (e1 : Env) (nextRid : RID), e.sameFile e1 →
        (∃ new, e1.calls = e.calls ++ new ∧ ∀ c ∈ new, BufCall.pinsWithin ps c = true) →
        s1.curPage = some s1.curPageNo → s1.curPageNo ∈ ps →
        (match e1.deref s1.curPage with
          | none => none
          | some q =>
            match q.getRecord nextRid with
            | .error st => some (st, out, s1, e1)
            | .ok rec =>
              if s1.matchRec e1 rec then some (OK, nextRid, { s1 with curRec := nextRid }, e1)
              else HeapFileScan.scanLoop n e1 s1 nextRid out) = some (st, r, s', e') →
        (∃ new, e'.calls = e.calls ++ new ∧ ∀ c ∈ new, BufCall.pinsWithin ps c = true) ∧
          s'.curPage = some s'.curPageNo ∧ s'.curPageNo ∈ ps := by
      intro s1 e1 nextRid hsf hpins hc1 hm1 hb
      split at hb
      · simp at hb
      · split at hb
        · simp only [Option.some.injEq, Prod.mk.injEq] at hb
          obtain ⟨_, _, h3, h4⟩ := hb
          subst h3 h4
          exact ⟨hpins, hc1, hm1⟩
        · split at hb
          · simp only [Option.some.injEq, Prod.mk.injEq] at hb
            obtain ⟨_, _, h3, h4⟩ := hb
            subst h3 h4
            exact ⟨hpins, hc1, hm1⟩
          · obtain ⟨i1, i2⟩ := scanLoop_pins ps n e1 s1 nextRid out st r s' e'
              (by rw [hsf.1, hsf.2.1]; exact hchain) hc1 hm1 hb
            exact ⟨pins_trans hpins i1, i2⟩
    simp only [HeapFileScan.scanLoop] at h
    split at h
    · simp at h
    · rename_i pg hpg
      cases hnr : pg.nextRecord tmp with
      | ok nextRid =>
        simp only [hnr] at h
        exact body s e nextRid (sameFile_refl e) (pins_refl ps e) hcur hmem h
      | error st1 =>
        simp only [hnr] at h
        cases ha : HeapFileScan.advance n e s with
        | none => simp [ha] at h
        | some x =>
          obtain ⟨res, s1, e1⟩ := x
          obtain ⟨a1, a2, a3⟩ := advance_pins ps n e s res s1 e1 hchain hcur hmem ha
          obtain ⟨b1, _, _⟩ := advance_sound n e s res s1 e1 ha
          cases res with
          | error st2 =>
            simp only [ha, Option.some.injEq, Prod.mk.injEq] at h
            obtain ⟨_, _, h3, h4⟩ := h
            subst h3 h4
            exact ⟨a1, a2, a3⟩
          | ok nextRid =>
            simp only [ha] at h
            exact body s1 e1 nextRid b1 a1 a2 a3 h

theorem scanNext_pins (ps : List Int) (fuel : Nat) (e : Env) (s : HeapFileScan) (out : RID)
    (st : Status) (r : RID) (s' : HeapFileScan) (e' : Env)
    (hchain : isChain e.pages e.hdr.lastPage ps = true) (hcur : s.curPage = some s.curPageNo)
    (hmem : s.curPageNo ∈ ps)
    (h : HeapFileScan.scanNext fuel e s out = some (st, r, s', e')) :
    (∃ new, e'.calls = e.calls ++ new ∧ ∀ c ∈ new, BufCall.pinsWithin ps c = true) ∧
      s'.curPage = some s'.curPageNo ∧ s'.curPageNo ∈ ps := by
  unfold HeapFileScan.scanNext at h
  split at h
  · simp only [Option.some.injEq, Prod.mk.injEq] at h
    obtain ⟨_, _, h3, h4⟩ := h
    subst h3 h4
    exact ⟨pins_refl ps e, hcur, hmem⟩
  · rw [if_neg (by rw [hcur]; simp)] at h
    exact scanLoop_pins ps fuel e s _ _ _ _ _ _ hchain hcur hmem h

theorem scanAll_pins (ps : List Int) : ∀ (k fuel : Nat) (e : Env) (s : HeapFileScan)
    (rids : List RID) (st : Status) (s' : HeapFileScan) (e' : Env),
    isChain e.pages e.hdr.lastPage ps = true → s.curPage = some s.curPageNo →
    s.curPageNo ∈ ps → HeapFileScan.scanAll k fuel e s = some (rids, st, s', e') →
    ∃ new, e'.calls = e.calls ++ new ∧ ∀ c ∈ new, BufCall.pinsWithin ps c = true
  | 0, _, _, _, _, _, _, _, _, _, _, h => by simp [HeapFileScan.scanAll] at h
  | k + 1, fuel, e, s, rids, st, s', e', hchain, hcur, hmem, h => by
    unfold HeapFileScan.scanAll at h
    cases hn : HeapFileScan.scanNext fuel e s NULLRID with
    | none => simp [hn] at h
    | some x =>
      obtain ⟨st1, rid, s1, e1⟩ := x
      obtain ⟨a1, a2, a3⟩ := scanNext_pins ps fuel e s NULLRID st1 rid s1 e1 hchain hcur hmem hn
      obtain ⟨b1, _⟩ := scanNext_sound fuel e s NULLRID st1 rid s1 e1 hn
      simp only [hn] at h
      split at h
      · cases hr : HeapFileScan.scanAll k fuel e1 s1 with
        | none => simp [hr] at h
        | some y =>
          obtain ⟨rids2, st2, s2, e2⟩ := y
          simp only [hr, Option.map_some', Option.some.injEq, Prod.mk.injEq] at h
          obtain ⟨_, _, _, h4⟩ := h
          subst h4
          exact pins_trans a1 (scanAll_pins ps k fuel e1 s1 rids2 st2 s2 e2
            (by rw [b1.1, b1.2.1]; exact hchain) a2 a3 hr)
      · simp only [Option.some.injEq, Prod.mk.injEq] at h
        obtain ⟨_, _, _, h4⟩ := h
        subst h4
        exact a1

theorem scanNext_at_lastPage (fuel : Nat) (e : Env) (s : HeapFileScan) (out : RID)
    (pn : Int) (pg : Page)
    (hcur : s.curPage = some pn) (hpg : e.pages pn = some pg)
    (hlast : s.curPageNo = e.hdr.lastPage)
    (hend : pg.ridsAfter s.curRec.slotNo = []) :
    HeapFileScan.scanNext (fuel + 2) e s out = some (FILEEOF, out, s, e) := by
  unfold HeapFileScan.scanNext
  split
  · rfl
  · rw [if_neg (by rw [hcur]; simp)]
    have hnr : pg.nextRecord s.curRec = .error ENDOFPAGE := by
      rw [nextRecord_eq, hend]
    simp only [HeapFileScan.scanLoop, hcur, Env.deref, hpg, hnr, HeapFileScan.advance, hlast,
      true_or, or_true, if_true]

theorem scanOpen_spec (e : Env) (mem : HeapFileScan) :
    e.sameFile (HeapFileScan.open e mem).2.2 ∧
      ((HeapFileScan.open e mem).1 = OK →
        (HeapFileScan.open e mem).2.1.curPage = some e.hdr.firstPage ∧
        (HeapFileScan.open e mem).2.1.curPageNo = e.hdr.firstPage) :=
  heapFile_open_spec e mem.toHeapFile

/-- C16: when `curPageNo` is the header's `lastPage` and the current page holds no record
after the scan position, `scanNext` returns `FILEEOF` with the scan object and the whole
environment unchanged (no `unPinPage`, no `readPage`, same `curPageNo`), whatever the
next-page link of that page is; when no page is pinned (`curPage = NULL`) the only call is
the `readPage` of `curPageNo` itself.  Hence, on a file whose data pages `ps` form the chain
from the header's first page to its last page, every `readPage` that a scan from the start
of the file issues, in any number of `scanNext` calls and whatever buffer-pool calls fail,
names a page of `ps`; and with no failure scheduled the scan runs to `FILEEOF`. -/
theorem scanNext_stops_at_lastPage (fuel : Nat) (e : Env) (s : HeapFileScan) (out : RID)
    (pn : Int) (pg : Page)
    (hcur : s.curPage = some pn) (hpg : e.pages pn = some pg)
    (hlast : s.curPageNo = e.hdr.lastPage)
    (hend : pg.ridsAfter s.curRec.slotNo = []) :
    HeapFileScan.scanNext (fuel + 2) e s out = some (FILEEOF, out, s, e) ∧
    (∀ (s0 : HeapFileScan), s0.curPage = none → s0.curPageNo = pn → pn ≠ -1 →
      pn = e.hdr.lastPage → pg.ridsAfter s0.curRec.slotNo = [] →
      (readPage e pn).1 = OK →
      HeapFileScan.scanNext (fuel + 2) e s0 out =
        some (FILEEOF, out, { s0 with curPage := some pn }, (readPage e pn).2) ∧
      (readPage e pn).2.calls = e.calls ++ [.readPage pn OK]) ∧
    (∀ (e0 : Env) (mem s1 : HeapFileScan) (ps : List Int) (k fuel2 : Nat),
      isChain e0.pages e0.hdr.lastPage ps = true → ps.head? = some e0.hdr.firstPage →
      (HeapFileScan.open e0 mem).1 = OK →
      s1.toHeapFile = (HeapFileScan.open e0 mem).2.1.toHeapFile →
      (∀ (rids : List RID) (st : Status) (s' : HeapFileScan) (e' : Env),
        HeapFileScan.scanAll k fuel2 (HeapFileScan.open e0 mem).2.2 s1 = some (rids, st, s', e') →
        ∃ new, e'.calls = (HeapFileScan.open e0 mem).2.2.calls ++ new ∧
          ∀ c ∈ new, BufCall.pinsWithin ps c = true) ∧
      (e0.script = [] → e0.fileExists = true → (e0.pages e0.firstPageNo).isSome = true →
        (chainRids e0.pages ps).length + 1 ≤ k →
        (chainRids e0.pages ps).length + ps.length + 1 ≤ fuel2 →
        (HeapFileScan.scanAll k fuel2 (HeapFileScan.open e0 mem).2.2 s1).map
            (fun r => (r.1, r.2.1)) =
          some ((chainRids e0.pages ps).filter (s1.matches e0), FILEEOF))) := by
  refine ⟨scanNext_at_lastPage fuel e s out pn pg hcur hpg hlast hend, ?_, ?_⟩
  · intro s0 hnull hno hne hl hend0 hok
    subst hno
    have hsf := readPage_sameFile e s0.curPageNo
    have hc := readPage_calls e s0.curPageNo
    rw [hok] at hc
    refine ⟨?_, hc⟩
    unfold HeapFileScan.scanNext
    rw [if_neg hne, if_pos hnull]
    generalize readPage e s0.curPageNo = x at hok hsf
    obtain ⟨st1, e1⟩ := x
    simp only [] at hok ⊢
    rw [if_neg (by rw [hok]; simp)]
    have h := scanNext_at_lastPage fuel e1 { s0 with curPage := some s0.curPageNo } out
      s0.curPageNo pg rfl (by rw [hsf.1]; exact hpg) (by rw [hsf.2.1]; exact hl) hend0
    unfold HeapFileScan.scanNext at h
    rw [if_neg (by exact hne), if_neg (by simp)] at h
    exact h
  · intro e0 mem s1 ps k fuel2 hchain hfirst hopen hs1
    obtain ⟨hsf, hop⟩ := scanOpen_spec e0 mem
    obtain ⟨hc1, hc2⟩ := hop hopen
    cases ps with
    | nil => simp [isChain] at hchain
    | cons p rest =>
      simp only [List.head?_cons, Option.some.injEq] at hfirst
      constructor
      · intro rids st s' e' hrun
        have hcp : s1.curPage = some s1.curPageNo := by
          have a := congrArg HeapFile.curPage hs1
          have b := congrArg HeapFile.curPageNo hs1
          rw [a, b, hc1, hc2]
        have hm : s1.curPageNo ∈ p :: rest := by
          have b := congrArg HeapFile.curPageNo hs1
          rw [b, hc2, ← hfirst]
          simp
        exact scanAll_pins (p :: rest) k fuel2 _ s1 rids st s' e'
          (by rw [hsf.1, hsf.2.1]; exact hchain) hcp hm hrun
      · intro hscript hfile hhdr hk hfuel
        exact scanAll_fresh e0 mem s1 p rest k fuel2 hs1 hfile hscript hhdr hchain hfirst hk
          (by simp only [List.length_cons] at hfuel; omega)

theorem scanNext_stops_at_lastPage_witness :
    (exStray.pages 2).map Page.getNextPage = some 3 ∧
    (HeapFileScan.scanNext 2 exStray exStrayScan NULLRID).map
      (fun r => (r.1, r.2.2.1.curPageNo, r.2.2.2.calls)) = some (FILEEOF, 2, []) :=
  ⟨by decide,
   by rw [(scanNext_stops_at_lastPage 0 exStray exStrayScan NULLRID 2
        ⟨[some recSeven, some recFive], 3, 2⟩ (by decide) (by decide) (by decide)
        (by decide)).1]; rfl⟩

/-! ### `endScan` releases the cursor pin once -/

theorem endScan_null (e : Env) (s : HeapFileScan) (h : s.curPage = none) :
    HeapFileScan.endScan e s = (OK, s, e) := by
  unfold HeapFileScan.endScan
  rw [if_neg (by rw [h]; simp)]

theorem endScan_pinned (e : Env) (s : HeapFileScan) (h : s.curPage ≠ none) :
    HeapFileScan.endScan e s =
      ((unPinPage e s.curPageNo s.curDirtyFlag).1,
       { s with curPage := none, curPageNo := 0, curDirtyFlag := false },
       (unPinPage e s.curPageNo s.curDirtyFlag).2) := by
  unfold HeapFileScan.endScan
  rw [if_pos h]

theorem endScan_curPage (e : Env) (s : HeapFileScan) :
    (HeapFileScan.endScan e s).2.1.curPage = none ∧
    (HeapFileScan.endScan e s).2.1.headerPageNo = s.headerPageNo ∧
    (HeapFileScan.endScan e s).2.1.hdrDirtyFlag = s.hdrDirtyFlag := by
  rcases option_cases s.curPage with h | ⟨pn, h⟩
  · rw [endScan_null e s h]
    exact ⟨h, rfl, rfl⟩
  · rw [endScan_pinned e s (by rw [h]; simp)]
    exact ⟨rfl, rfl, rfl⟩

theorem heapFile_close_null (e : Env) (h : HeapFile) (hn : h.curPage = none) :
    (HeapFile.close e h).1 = h ∧
    (HeapFile.close e h).2.calls =
      e.calls ++ [.unPinPage h.headerPageNo h.hdrDirtyFlag
        (unPinPage e h.headerPageNo h.hdrDirtyFlag).1] := by
  unfold HeapFile.close
  rw [if_neg (by rw [hn]; simp)]
  exact ⟨rfl, unPinPage_calls e _ _⟩

/-- C17: with a page pinned (`curPage` non-null) `endScan` issues the one call
`unPinPage(curPageNo, curDirtyFlag)`, returns its status and leaves `curPage = NULL`,
`curPageNo = 0`, `curDirtyFlag = false`; with no page pinned it returns `OK` and changes
neither the object nor the environment.  After any `endScan` a second `endScan` is such a
no-op, and the destructors of `HeapFileScan` and of `HeapFile` issue one call only, the
`unPinPage` of the header page. -/
theorem endScan_unpins_once (e : Env) (s : HeapFileScan) :
    (s.curPage ≠ none →
      HeapFileScan.endScan e s =
        ((unPinPage e s.curPageNo s.curDirtyFlag).1,
         { s with curPage := none, curPageNo := 0, curDirtyFlag := false },
         (unPinPage e s.curPageNo s.curDirtyFlag).2) ∧
      (HeapFileScan.endScan e s).2.2.calls =
        e.calls ++ [.unPinPage s.curPageNo s.curDirtyFlag (HeapFileScan.endScan e s).1]) ∧
    (s.curPage = none → HeapFileScan.endScan e s = (OK, s, e)) ∧
    HeapFileScan.endScan (HeapFileScan.endScan e s).2.2 (HeapFileScan.endScan e s).2.1 =
      (OK, (HeapFileScan.endScan e s).2.1, (HeapFileScan.endScan e s).2.2) ∧
    (HeapFileScan.close (HeapFileScan.endScan e s).2.2 (HeapFileScan.endScan e s).2.1).2.calls =
      (HeapFileScan.endScan e s).2.2.calls ++
        [.unPinPage s.headerPageNo s.hdrDirtyFlag
          (unPinPage (HeapFileScan.endScan e s).2.2 s.headerPageNo s.hdrDirtyFlag).1] ∧
    (HeapFile.close (HeapFileScan.endScan e s).2.2
        (HeapFileScan.endScan e s).2.1.toHeapFile).2.calls =
      (HeapFileScan.endScan e s).2.2.calls ++
        [.unPinPage s.headerPageNo s.hdrDirtyFlag
          (unPinPage (HeapFileScan.endScan e s).2.2 s.headerPageNo s.hdrDirtyFlag).1] := by
  obtain ⟨hnull, hno, hflag⟩ := endScan_curPage e s
  have hclose := (heapFile_close_null (HeapFileScan.endScan e s).2.2
    (HeapFileScan.endScan e s).2.1.toHeapFile hnull).2
  rw [hno, hflag] at hclose
  refine ⟨fun h => ?_, endScan_null e s, endScan_null _ _ hnull, ?_, hclose⟩
  · rw [endScan_pinned e s h]
    exact ⟨rfl, unPinPage_calls e _ _⟩
  · unfold HeapFileScan.close
    rw [endScan_null _ _ hnull]
    exact hclose

theorem endScan_unpins_once_witness :
    (HeapFileScan.endScan exStray exStrayScan).1 = OK ∧
    (HeapFileScan.endScan exStray exStrayScan).2.2.calls = [.unPinPage 2 false OK] ∧
    (HeapFileScan.close (HeapFileScan.endScan exStray exStrayScan).2.2
        (HeapFileScan.endScan exStray exStrayScan).2.1).2.calls =
      [.unPinPage 2 false OK, .unPinPage 1 false OK] :=
  ⟨by decide,
   ((endScan_unpins_once exStray exStrayScan).1 (by decide)).2.trans (by decide),
   (endScan_unpins_once exStray exStrayScan).2.2.2.1.trans (by decide)⟩

/-! ### The cursor after a failed `readPage` -/

/-- C18: when `readPage` fails after the current page was unpinned, `HeapFile::getRecord`,
`scanNext` and `resetScan` return the error with `curPage` still non-null while the page
that `curPageNo` names is not pinned: the cursor invariant holds before each call and not
after it. -/
theorem cursor_after_failed_readPage :
    exGetRecordFail = some ⟨BUFFEREXCEEDED, true, false, some 2, 3, 0⟩ ∧
    exScanNextFail = some ⟨BUFFEREXCEEDED, true, false, some 2, 2, 0⟩ ∧
    exResetScanFail = some ⟨BUFFEREXCEEDED, true, false, some 3, 2, 0⟩ :=
  ⟨by decide, by decide, by decide⟩

/-! ### The dirty flag of the page that chain growth links -/

set_option maxRecDepth 100000 in
theorem exGrowFresh_eq :
    exGrowFresh = some ⟨OK, false, OK, ⟨3, 0⟩, some (-1), some 3,
      [.allocPage 3 OK, .unPinPage 2 false OK]⟩ := by
  decide

/-- C19: a freshly constructed `InsertFileScan` has `curDirtyFlag = false`; when its tail
page (page 2) is full, `insertRecord` allocates page 3, sets the next-page link of page 2 to
3 and releases page 2 with `unPinPage(2, false)`: the page it has just changed is unpinned
as clean. -/
theorem growth_unpins_clean :
    exGrowFresh = some ⟨OK, false, OK, ⟨3, 0⟩, some (-1), some 3,
      [.allocPage 3 OK, .unPinPage 2 false OK]⟩ :=
  exGrowFresh_eq

/-! ### `HeapFile::getRecord` with no page pinned -/

theorem getRecord_null_unpins (e : Env) (h : HeapFile) (rid : RID) (rec : Record)
    (st : Status) (r : Record) (h' : HeapFile) (e' : Env) (hn : h.curPage = none)
    (hget : HeapFile.getRecord e h rid rec = some (st, r, h', e')) :
    ∃ rest, e'.calls =
      e.calls ++ .unPinPage h.curPageNo h.curDirtyFlag
        (unPinPage e h.curPageNo h.curDirtyFlag).1 :: rest := by
  have hu := unPinPage_calls e h.curPageNo h.curDirtyFlag
  unfold HeapFile.getRecord at hget
  rw [if_neg (by rw [hn]; simp)] at hget
  generalize unPinPage e h.curPageNo h.curDirtyFlag = x at hget hu
  obtain ⟨st1, e1⟩ := x
  simp only [] at hget hu
  split at hget
  · simp only [Option.some.injEq, Prod.mk.injEq] at hget
    obtain ⟨_, _, _, h4⟩ := hget
    subst h4
    exact ⟨[], by rw [hu]⟩
  · have hr := readPage_calls e1 rid.pageNo
    generalize readPage e1 rid.pageNo = y at hget hr
    obtain ⟨st2, e2⟩ := y
    simp only [] at hget hr
    have hall : e2.calls = e.calls ++ .unPinPage h.curPageNo h.curDirtyFlag st1 ::
        [.readPage rid.pageNo st2] := by
      rw [hr, hu, List.append_assoc]
      rfl
    split at hget
    · simp only [Option.some.injEq, Prod.mk.injEq] at hget
      obtain ⟨_, _, _, h4⟩ := hget
      subst h4
      exact ⟨_, hall⟩
    · split at hget
      · simp at hget
      · split at hget
        · simp only [Option.some.injEq, Prod.mk.injEq] at hget
          obtain ⟨_, _, _, h4⟩ := hget
          subst h4
          exact ⟨_, hall⟩
        · simp only [Option.some.injEq, Prod.mk.injEq] at hget
          obtain ⟨_, _, _, h4⟩ := hget
          subst h4
          exact ⟨_, hall⟩

/-- C20: after `endScan` (`curPage = NULL`, `curPageNo = 0`), `HeapFile::getRecord` for the
address (2, 0) of a stored record starts with `unPinPage(0, false)`; no such page is pinned,
the call fails, and `getRecord` returns that error (`PAGENOTPINNED`) without a `readPage`
and without the record. -/
theorem getRecord_after_endScan :
    exGetAfterEndScan =
      some ⟨OK, none, 0, PAGENOTPINNED, false, [.unPinPage 0 false PAGENOTPINNED]⟩ := by
  decide

/-! ### What `matchRec` accepts, in the words of the specification -/

theorem cmpSign_eq_zero (a f : Int) : cmpSign a f = .zero ↔ a = f := by
  unfold cmpSign
  split
  · simp; omega
  · split <;> simp [*]

theorem signOf_sub (a f : Int) : signOf (a - f) = cmpSign a f := by
  unfold signOf cmpSign
  by_cases h1 : a < f
  · rw [if_pos (by omega), if_pos h1]
  · rw [if_neg (by omega), if_neg h1]
    by_cases h2 : a = f
    · rw [if_pos (by omega), if_pos h2]
    · rw [if_neg (by omega), if_neg h2]

theorem wrap32_id (x : Int) (h1 : -2147483648 ≤ x) (h2 : x ≤ 2147483647) : wrap32 x = x := by
  unfold wrap32
  norm_num
  omega

theorem matchRec_eq_holds (s : HeapFileScan) (e : Env) (rec : Record) (flt : List Byte)
    (hflt : s.filter = some flt) (hoff : 0 ≤ s.offset) (hlen : 1 ≤ s.length)
    (hfl : s.length ≤ (flt.length : Int)) (hr : s.inRange rec = true) :
    s.matchRec e rec = s.holds cstr e rec := by
  have hrec := rec.hlen
  have h31 : (2:Nat)^31 = 2147483648 := by norm_num
  unfold HeapFileScan.inRange at hr
  rw [hflt] at hr
  simp only [Bool.and_eq_true, Bool.or_eq_true, decide_eq_true_eq] at hr
  obtain ⟨hsum, hdiff⟩ := hr
  unfold HeapFileScan.matchRec HeapFileScan.holds
  rw [hflt]
  simp only []
  by_cases hin : s.offset + s.length ≤ rec.length
  · have hguard : ¬ (wrap32 (wrap32 (s.offset + s.length) - 1) ≥ rec.length) := by
      rw [wrap32_id _ (by omega) hsum, wrap32_id _ (by omega) (by omega)]
      omega
    rw [if_neg hguard, decide_eq_true hin, Bool.true_and]
    cases ht : s.type with
    | FLOAT => rfl
    | other c => rfl
    | STRING =>
      simp only []
      unfold Record.length at hin
      rw [strncmp_sign _ _ _ (by rw [List.length_drop]; omega) (by omega)]
      rfl
    | INTEGER =>
      simp only []
      have hra := int32At_range rec.data s.offset s.length
      have hrf := int32At_range flt 0 s.length
      rcases hdiff with (((h | h) | h) | h) | h
      · exact absurd ht h
      · rw [h]
        simp only [applyOp, signOf_eq_zero, cmpSign_eq_zero, wrap32_sub_eq_zero _ _ hra hrf]
      · rw [h]
        simp only [applyOp, ne_eq, signOf_eq_zero, cmpSign_eq_zero,
          wrap32_sub_eq_zero _ _ hra hrf]
      · omega
      · rw [wrap32_id _ h.1 h.2, signOf_sub]
  · have hguard : wrap32 (wrap32 (s.offset + s.length) - 1) ≥ rec.length := by
      rw [wrap32_id _ (by omega) hsum, wrap32_id _ (by omega) (by omega)]
      omega
    rw [if_pos hguard, decide_eq_false hin, Bool.false_and]

theorem holds_cstr_id (s : HeapFileScan) (e : Env) (rec : Record)
    (h : s.type ≠ .STRING) : s.holds cstr e rec = s.holds id e rec := by
  unfold HeapFileScan.holds
  cases hf : s.filter with
  | none => rfl
  | some flt =>
    simp only []
    cases ht : s.type with
    | STRING => exact absurd ht h
    | INTEGER => rfl
    | FLOAT => rfl
    | other c => rfl

theorem holdsAt_of_recordAt (str : List Byte → List Byte) (s : HeapFileScan) (e : Env)
    (r : RID) (rec : Record) (h : recordAt e.pages r = some rec) :
    s.holdsAt str e r = s.holds str e rec := by
  unfold HeapFileScan.holdsAt
  rw [h]

/-- C1 (as amended): on a heap file whose data pages `ps` form a chain from the header's first
page to its last page, a freshly opened scan with a predicate that `startScan` accepted,
whose filter holds at least `length` bytes and whose `int` arithmetic does not overflow on
the records of the file, returns, call after call, `OK` with exactly the addresses of the
records for which the predicate holds (the record holds the whole field and the comparator
applies to the numerical comparison of the `int` values, to the sign of the `float`
difference, or to the lexicographic comparison of the strings read as C strings), each once,
in page-chain order and within a page in slot order, and then `FILEEOF`.  For an INTEGER or
FLOAT predicate reading the strings as C strings changes nothing, and for the predicate
`(0, 4, INTEGER, EQ, X)` the records returned are those of at least four bytes whose leading
integer equals `X`. -/
theorem scan_returns_holding (e : Env) (mem s : HeapFileScan) (ps : List Int)
    (offset_ length_ : Int) (type_ : Datatype) (flt : List Byte) (op_ : Operator)
    (k fuel : Nat)
    (hfile : e.fileExists = true) (hscript : e.script = [])
    (hhdr : (e.pages e.firstPageNo).isSome = true)
    (hchain : isChain e.pages e.hdr.lastPage ps = true)
    (hfirst : ps.head? = some e.hdr.firstPage)
    (hacc : (HeapFileScan.open e mem).2.1.startScan offset_ length_ type_ (some flt) op_ =
      (OK, s))
    (hfl : length_ ≤ (flt.length : Int))
    (hrange : ∀ rid ∈ chainRids e.pages ps, s.inRangeAt e rid = true)
    (hk : (chainRids e.pages ps).length + 1 ≤ k)
    (hfuel : (chainRids e.pages ps).length + ps.length + 1 ≤ fuel) :
    (HeapFileScan.open e mem).1 = OK ∧
    (HeapFileScan.scanAll k fuel (HeapFileScan.open e mem).2.2 s).map (fun r => (r.1, r.2.1)) =
      some ((chainRids e.pages ps).filter (s.holdsAt cstr e), FILEEOF) ∧
    (chainRids e.pages ps).Nodup ∧
    (type_ ≠ .STRING →
      (chainRids e.pages ps).filter (s.holdsAt cstr e) =
        (chainRids e.pages ps).filter (s.holdsAt id e)) ∧
    (offset_ = 0 → length_ = 4 → type_ = .INTEGER → op_ = .EQ →
      ∀ (rid : RID) (rec : Record), recordAt e.pages rid = some rec →
        (s.holdsAt cstr e rid = true ↔
          (4 ≤ rec.length ∧ int32At rec.data 0 4 = int32At flt 0 4))) := by
  have hst : ((HeapFileScan.open e mem).2.1.startScan offset_ length_ type_ (some flt) op_).1
      = OK := by rw [hacc]
  obtain ⟨hoff, hlen⟩ := startScan_ok_bounds _ offset_ length_ type_ flt op_ hst
  have hs := startScan_accepted (HeapFileScan.open e mem).2.1 offset_ length_ type_ flt op_
    (by rw [hst]; decide)
  rw [hacc] at hs
  have hs2 := (Prod.mk.inj hs).2
  have hflt : s.filter = some flt := by rw [hs2]
  have ho : s.offset = offset_ := by rw [hs2]
  have hl : s.length = length_ := by rw [hs2]
  have hty : s.type = type_ := by rw [hs2]
  have hop : s.op = op_ := by rw [hs2]
  have hheap : s.toHeapFile = (HeapFileScan.open e mem).2.1.toHeapFile := by rw [hs2]
  cases ps with
  | nil => simp [isChain] at hchain
  | cons p rest =>
    simp only [List.head?_cons, Option.some.injEq] at hfirst
    obtain ⟨h1, _⟩ := open_scanInv e mem p rest hfile hscript hhdr hchain hfirst
    refine ⟨h1, ?_, chainRids_nodup rest p hchain, ?_, ?_⟩
    · rw [scanAll_fresh e mem s p rest k fuel hheap hfile hscript hhdr hchain hfirst hk
        (by simp only [List.length_cons] at hfuel; omega)]
      congr 2
      apply List.filter_congr
      intro rid hrid
      obtain ⟨_, rec, hrec⟩ := mem_chainRids rest p hchain hrid
      rw [matches_of_recordAt s e rid rec hrec, holdsAt_of_recordAt cstr s e rid rec hrec]
      exact matchRec_eq_holds s e rec flt hflt (by rw [ho]; exact hoff)
        (by rw [hl]; exact hlen) (by rw [hl]; exact hfl)
        (by have h := hrange rid hrid
            unfold HeapFileScan.inRangeAt at h
            rw [hrec] at h
            exact h)
    · intro hne
      apply List.filter_congr
      intro rid hrid
      obtain ⟨_, rec, hrec⟩ := mem_chainRids rest p hchain hrid
      rw [holdsAt_of_recordAt cstr s e rid rec hrec, holdsAt_of_recordAt id s e rid rec hrec]
      exact holds_cstr_id s e rec (by rw [hty]; exact hne)
    · intro h0 h4 hint heq rid rec hrec
      rw [holdsAt_of_recordAt cstr s e rid rec hrec]
      unfold HeapFileScan.holds
      rw [hflt]
      simp only [ho, hl, hty, hop, h0, h4, hint, heq, applyOp, Bool.and_eq_true,
        decide_eq_true_eq, cmpSign_eq_zero, zero_add]

theorem scan_returns_holding_witness :
    (HeapFileScan.scanAll 4 6 (HeapFileScan.open exFile exScan).2.2
        ((HeapFileScan.open exFile exScan).2.1.startScan 0 4 .INTEGER (some [6, 0, 0, 0])
          .GT).2).map (fun r => (r.1, r.2.1)) =
      some ([⟨2, 0⟩, ⟨3, 0⟩], FILEEOF) :=
  (scan_returns_holding exFile exScan _ [2, 3] 0 4 .INTEGER [6, 0, 0, 0] .GT 4 6
    (by decide) (by decide) (by decide) (by decide) (by decide) rfl (by decide)
    (by decide) (by decide) (by decide)).2.1.trans (by decide)

/-- C1 (as stated) fails.  The file `exOdd` has one data page with the records
`[0, 0, 0, 128]` (the `int` `-2147483648`) and `[97, 0, 98]`.  A scan with the accepted
predicate `(0, 4, INTEGER, LT, 1)` returns no record, although the predicate holds for the
first (`-2147483648 < 1`); a scan with the accepted predicate `(0, 3, STRING, EQ, [97, 0, 99])`
returns the second record, although its three bytes differ from the filter's. -/
theorem scan_returns_holding_fails :
    isChain exOdd.pages exOdd.hdr.lastPage [2] = true ∧
    ((HeapFileScan.open exOdd exScan).2.1.startScan 0 4 .INTEGER (some [1, 0, 0, 0]) .LT).1
      = OK ∧
    (HeapFileScan.scanAll 3 5 (HeapFileScan.open exOdd exScan).2.2
        ((HeapFileScan.open exOdd exScan).2.1.startScan 0 4 .INTEGER (some [1, 0, 0, 0])
          .LT).2).map (fun r => (r.1, r.2.1)) = some ([], FILEEOF) ∧
    (chainRids exOdd.pages [2]).filter
        (((HeapFileScan.open exOdd exScan).2.1.startScan 0 4 .INTEGER (some [1, 0, 0, 0])
          .LT).2.holdsAt id exOdd) = [⟨2, 0⟩] ∧
    ((HeapFileScan.open exOdd exScan).2.1.startScan 0 3 .STRING (some [97, 0, 99]) .EQ).1
      = OK ∧
    (HeapFileScan.scanAll 3 5 (HeapFileScan.open exOdd exScan).2.2
        ((HeapFileScan.open exOdd exScan).2.1.startScan 0 3 .STRING (some [97, 0, 99])
          .EQ).2).map (fun r => (r.1, r.2.1)) = some ([⟨2, 1⟩], FILEEOF) ∧
    (chainRids exOdd.pages [2]).filter
        (((HeapFileScan.open exOdd exScan).2.1.startScan 0 3 .STRING (some [97, 0, 99])
          .EQ).2.holdsAt id exOdd) = [] := by
  decide

/-! ### Round trip and chain growth with a stale cursor -/

/-- C3: on a file with data pages 2 and 3, after a `getRecord` whose `readPage` failed (for an
address on a page the file does not have, or with the buffer pool out of frames) the cursor
of the `InsertFileScan` is `curPage` on page 3 with another `curPageNo`; `insertRecord` then
returns `OK` with the address (3, 1), the file holds the record there, and `getRecord` at
(3, 1) returns `PAGENOTPINNED` without the record. -/
theorem getRecord_after_insert_stale :
    roundTripRun id ⟨9, 0⟩ =
      some ⟨BADPAGENO, some 3, 9, OK, ⟨3, 1⟩, true, 2, 3, PAGENOTPINNED, false⟩ ∧
    roundTripRun failSecond ⟨2, 0⟩ =
      some ⟨BUFFEREXCEEDED, some 3, 2, OK, ⟨3, 1⟩, true, 2, 3, PAGENOTPINNED, false⟩ :=
  ⟨by decide, by decide⟩

set_option maxRecDepth 100000 in
theorem exGrowStale_eq :
    exGrowStale =
      some ⟨BADPAGENO, some 2, 3, OK, ⟨3, 0⟩, true, 2, 3, PAGENOTPINNED, false⟩ := by
  decide

/-- C4: on a fresh file whose page 2 is full with the record at (2, 0), after a failed
`getRecord((3, 0))` left `curPage` on page 2 with `curPageNo = 3`, `insertRecord` of a
four-byte record takes the chain-growth path: it returns `OK` with the address (3, 0),
`pageCnt` is 2, `lastPage` is 3 and both records are stored; but its `unPinPage(curPageNo)`
released the new page 3, and `getRecord` at (2, 0) returns `PAGENOTPINNED` without the record
inserted earlier. -/
theorem getRecord_after_growth_stale :
    exGrowStale =
      some ⟨BADPAGENO, some 2, 3, OK, ⟨3, 0⟩, true, 2, 3, PAGENOTPINNED, false⟩ :=
  exGrowStale_eq

end Minirel
